import Mathlib

/-!
# Hand-detection-model: the BMP codec of `imaging::Image`

A shallow embedding of `src/core/Pixel.h`, `src/core/Image.h` and
`src/core/Image.cpp`, and theorems about `Image::loadFromBMP`,
`Image::saveToBMP`, the constructors, `getPixel`, `setPixel`, `resize`,
`clear`, `clone` and `Pixel::operator+`.

Conventions of the embedding.

* `uint8_t` is `Fin 256`. `unsigned int`, `uint16_t`, `uint32_t` values are
  natural numbers; every C++ operation that can wrap is written with an
  explicit `% 4294967296` (2^32). `int32_t` / `int` values are integers;
  conversions between the signed and the unsigned view are `toInt32` and
  `toUInt32` (two's complement).
* The two `int` operations of the decoder that C++ leaves undefined on
  overflow, `header.width * 3` and `std::abs(header.height)` at `INT_MIN`,
  are given their two's complement value. The theorems that say what a
  decode of pixel rows returns (C1, C3, C4, C8) do not lean on that choice:
  they assume `3 * width < 2^31` and `|height| < 2^31`. The theorems of C16,
  C18 and C19 are about every header, and use that value where
  `3 * width >= 2^31` or the height is `INT_MIN`.
* A member function that checks its coordinates returns a `Checked` value:
  `outOfRange` is the `std::out_of_range` exception. Allocation failure
  (`std::bad_alloc`) is not modelled: a vector of any length below 2^32 can
  be built. A moved-from pixel vector is empty.
* `std::vector` is `List`. `v[i]` with `i` outside the vector is undefined
  behaviour in C++: the functions that index vectors return `Option`, and
  `none` stands for a run that made such an access.
* An `std::ifstream` is the file's bytes, a read position, `eofbit` and
  `failbit`. An `std::ofstream` is the bytes written so far and `failbit`;
  the sink takes every byte it is given.
* The host is little-endian (the code reads and writes the header fields as
  raw memory and compares the signature with `0x4D42`).
-/

namespace imaging

/-! ## Machine integers and bytes -/

/-- A `uint8_t`. -/
abbrev Byte := Fin 256

/-- Conversion to `uint8_t`: the value modulo 256. -/
def byteOfNat (n : Nat) : Byte := ⟨n % 256, Nat.mod_lt _ (by decide)⟩

/-- Conversion of an integer to a 32-bit unsigned value (modulo 2^32). -/
def toUInt32 (i : Int) : Nat := (i % 4294967296).toNat

/-- Reading of a 32-bit pattern as `int32_t` (two's complement). -/
def toInt32 (n : Nat) : Int :=
  if n % 4294967296 < 2147483648 then ((n % 4294967296 : Nat) : Int)
  else ((n % 4294967296 : Nat) : Int) - 4294967296

/-- The `k` bytes of the object representation of `v` on a little-endian host. -/
def leBytes : Nat → Nat → List Byte
  | 0, _ => []
  | k + 1, v => byteOfNat v :: leBytes k (v / 256)

/-- The unsigned value whose little-endian object representation is `bs`. -/
def leVal : List Byte → Nat
  | [] => 0
  | b :: bs => b.val + 256 * leVal bs

/-! ## `Pixel.h` -/

/-- The `struct Pixel`: three 8-bit channels. -/
structure Pixel where
  r : Byte
  g : Byte
  b : Byte
deriving DecidableEq

/-- The default constructor `Pixel()`: black. -/
instance : Inhabited Pixel := ⟨⟨0, 0, 0⟩⟩

/-- The operator `Pixel::operator+` (lines 71-77 of `Pixel.h`): each channel
is `static_cast<uint8_t>(std::min(255, static_cast<int>(c) + other.c))`. -/
def Pixel.add (p other : Pixel) : Pixel :=
  ⟨byteOfNat (min 255 (p.r.val + other.r.val)),
   byteOfNat (min 255 (p.g.val + other.g.val)),
   byteOfNat (min 255 (p.b.val + other.b.val))⟩

/-- The notation `p + q` for `Pixel::operator+`. -/
instance : Add Pixel := ⟨Pixel.add⟩

/-! ## `Image.h` -/

/-- The data members of `class Image`. -/
structure Image where
  width_ : Nat
  height_ : Nat
  pixels_ : List Pixel
deriving DecidableEq

/-- The `struct BMPHeader`; the `int32_t` fields are integers. -/
structure BMPHeader where
  signature : Nat
  fileSize : Nat
  reserved : Nat
  dataOffset : Nat
  headerSize : Nat
  width : Int
  height : Int
  planes : Nat
  bitsPerPixel : Nat
  compression : Nat
  imageSize : Nat
  xPixelsPerMeter : Int
  yPixelsPerMeter : Int
  colorsUsed : Nat
  importantColors : Nat
deriving DecidableEq

/-- The method `Image::isEmpty`. -/
def Image.isEmpty (img : Image) : Bool := img.width_ == 0 || img.height_ == 0

/-- The call `std::vector<Pixel>::resize(n)`: keeps the first `n` elements and appends
default (black) pixels up to length `n`. -/
def vresize (v : List Pixel) (n : Nat) : List Pixel :=
  v.take n ++ List.replicate (n - v.length) default

/-- Outcome of a member function that checks its coordinates: the call
throws `std::out_of_range`, or it returns normally with a value. -/
inductive Checked (α : Type) where
  | outOfRange : Checked α
  | value : α → Checked α
deriving DecidableEq

/-- The constructor `Image(width, height, backgroundColor)` (lines 13-14 of
`Image.cpp`), the operation `create`: the pixel vector gets
`width * height` elements, the product being taken in `unsigned int`. -/
def Image.create (width height : Nat) (backgroundColor : Pixel) : Image :=
  ⟨width, height, List.replicate (width * height % 4294967296) backgroundColor⟩

/-- The copy constructor and the copy assignment (lines 17-18 and 31-38): the
image that the target holds afterwards. -/
def Image.copy (other : Image) : Image :=
  ⟨other.width_, other.height_, other.pixels_⟩

/-- The move constructor and the move assignment (lines 21-25 and 41-50): the
image that the target holds afterwards, and the image left in the source
(dimensions set to 0, pixel vector moved from). -/
def Image.move (other : Image) : Image × Image :=
  (⟨other.width_, other.height_, other.pixels_⟩, ⟨0, 0, []⟩)

/-- The method `Image::getWidth`. -/
def Image.getWidth (img : Image) : Nat := img.width_

/-- The method `Image::getHeight`. -/
def Image.getHeight (img : Image) : Nat := img.height_

/-- The method `Image::getPixelCount`: `width_ * height_` in `unsigned int`. -/
def Image.getPixelCount (img : Image) : Nat := img.width_ * img.height_ % 4294967296

/-- The method `Image::getPixel` (lines 73-78, and 81-86 for the `const`
overload): the bounds check, then `pixels_[y * width_ + x]` with the index
computed in `unsigned int`. `none` is an index outside the vector. -/
def Image.getPixel (img : Image) (x y : Nat) : Option (Checked Pixel) :=
  if x ≥ img.width_ ∨ y ≥ img.height_ then some Checked.outOfRange
  else (img.pixels_[(y * img.width_ + x) % 4294967296]?).map Checked.value

/-- The method `Image::setPixel` (lines 89-94): the bounds check, then
`pixels_[y * width_ + x] = pixel`. The value is the outcome of the call and
the image after it (on a throw the image is the one before the call).
`none` is an index outside the vector. -/
def Image.setPixel (img : Image) (x y : Nat) (pixel : Pixel) :
    Option (Checked Unit × Image) :=
  if x ≥ img.width_ ∨ y ≥ img.height_ then some (Checked.outOfRange, img)
  else (img.pixels_[(y * img.width_ + x) % 4294967296]?).map
    (fun _ => (Checked.value (),
      { img with pixels_ := img.pixels_.set ((y * img.width_ + x) % 4294967296) pixel }))

/-- Line 122: `newPixels[y * newWidth + x] = pixels_[y * width_ + x];`. -/
def copyPixel (width_ newWidth : Nat) (pixels : List Pixel) (y : Nat)
    (newPixels : List Pixel) (x : Nat) : Option (List Pixel) := do
  let p ← pixels[(y * width_ + x) % 4294967296]?
  let _ ← newPixels[(y * newWidth + x) % 4294967296]?
  pure (newPixels.set ((y * newWidth + x) % 4294967296) p)

/-- Lines 121-123: `for (unsigned int x = 0; x < copyWidth; ++x)`. -/
def copyRow (width_ newWidth copyWidth : Nat) (pixels : List Pixel)
    (newPixels : List Pixel) (y : Nat) : Option (List Pixel) :=
  (List.range copyWidth).foldlM (copyPixel width_ newWidth pixels y) newPixels

/-- Lines 120-124: `for (unsigned int y = 0; y < copyHeight; ++y)`. -/
def copyRows (width_ newWidth copyWidth copyHeight : Nat) (pixels : List Pixel)
    (newPixels : List Pixel) : Option (List Pixel) :=
  (List.range copyHeight).foldlM (copyRow width_ newWidth copyWidth pixels) newPixels

/-- The method `Image::resize` (lines 107-135): the image after the call.
`none` is a run with an index outside a vector. -/
def Image.resize (img : Image) (newWidth newHeight : Nat) (preserveContent : Bool) :
    Option Image :=
  if newWidth = img.width_ ∧ newHeight = img.height_ then some img
  else if preserveContent && !img.isEmpty then
    let newPixels : List Pixel := List.replicate (newWidth * newHeight % 4294967296) default
    let copyWidth := min img.width_ newWidth
    let copyHeight := min img.height_ newHeight
    (copyRows img.width_ newWidth copyWidth copyHeight img.pixels_ newPixels).map
      (fun np => ⟨newWidth, newHeight, np⟩)
  else
    some ⟨newWidth, newHeight, vresize img.pixels_ (newWidth * newHeight % 4294967296)⟩

/-- The method `Image::clear` (lines 138-140): `std::fill` over the pixel
vector. -/
def Image.clear (img : Image) (color : Pixel) : Image :=
  { img with pixels_ := img.pixels_.map (fun _ => color) }

/-- The method `Image::clone` (lines 143-145): the copy constructor on
`*this`. -/
def Image.clone (img : Image) : Image := Image.copy img

/-! ## Streams -/

/-- State of an `std::ifstream` opened on a file with contents `data`. -/
structure IFStream where
  data : List Byte
  pos : Nat
  eofbit : Bool
  failbit : Bool
deriving DecidableEq

/-- The call `good()`: no state flag is set. -/
def IFStream.good (s : IFStream) : Bool := !s.eofbit && !s.failbit

/-- The call `fail()`. -/
def IFStream.fail (s : IFStream) : Bool := s.failbit

/-- The stream `std::ifstream file(filename, std::ios::binary)` on an existing
file. -/
def IFStream.open (data : List Byte) : IFStream := ⟨data, 0, false, false⟩

/-- The call `file.read(buf, n)` into a buffer that holds `buf` (of at least `n`
bytes). On a stream that is not good it sets `failbit` and stores nothing.
Otherwise it stores the bytes that are available, up to `n`, at the start of
the buffer and leaves the rest of the buffer as it was; when fewer than `n`
are available it sets `eofbit` and `failbit`. -/
def IFStream.read (s : IFStream) (buf : List Byte) (n : Nat) : IFStream × List Byte :=
  if s.good then
    let got := (s.data.drop s.pos).take n
    let buf1 := got ++ buf.drop got.length
    if got.length < n then
      ({ s with pos := s.pos + got.length, eofbit := true, failbit := true }, buf1)
    else
      ({ s with pos := s.pos + got.length }, buf1)
  else
    ({ s with failbit := true }, buf)

/-- The call `file.seekg(off, std::ios::beg)`: clears `eofbit`; on a stream whose
`failbit` is set it does nothing more, otherwise it moves the read position
(a position past the end of the file is accepted, the next read is short). -/
def IFStream.seekg (s : IFStream) (off : Nat) : IFStream :=
  if s.failbit then { s with eofbit := false }
  else { s with eofbit := false, pos := off }

/-- The call `file.read(reinterpret_cast<char*>(&field), k)` for an unsigned field of
`k` bytes that currently holds `old`: the new value of the field. -/
def IFStream.readField (s : IFStream) (k : Nat) (old : Nat) : IFStream × Nat :=
  let r := s.read (leBytes k old) k
  (r.1, leVal r.2)

/-- State of an `std::ofstream`: the bytes written and `failbit`. -/
structure OFStream where
  data : List Byte
  failbit : Bool
deriving DecidableEq

/-- The call `file.write(p, n)` of the bytes `bs`. -/
def OFStream.write (s : OFStream) (bs : List Byte) : OFStream :=
  if s.failbit then s else { s with data := s.data ++ bs }

/-! ## `Image::loadFromBMP` -/

/-- Lines 156-171 of `Image.cpp`: the fifteen header reads, in order, into a
`BMPHeader header;` whose members hold `uninit` before the reads. -/
def readHeader (s : IFStream) (uninit : BMPHeader) : IFStream × BMPHeader :=
  let r1 := s.readField 2 uninit.signature
  let r2 := r1.1.readField 4 uninit.fileSize
  let r3 := r2.1.readField 4 uninit.reserved
  let r4 := r3.1.readField 4 uninit.dataOffset
  let r5 := r4.1.readField 4 uninit.headerSize
  let r6 := r5.1.readField 4 (toUInt32 uninit.width)
  let r7 := r6.1.readField 4 (toUInt32 uninit.height)
  let r8 := r7.1.readField 2 uninit.planes
  let r9 := r8.1.readField 2 uninit.bitsPerPixel
  let r10 := r9.1.readField 4 uninit.compression
  let r11 := r10.1.readField 4 uninit.imageSize
  let r12 := r11.1.readField 4 (toUInt32 uninit.xPixelsPerMeter)
  let r13 := r12.1.readField 4 (toUInt32 uninit.yPixelsPerMeter)
  let r14 := r13.1.readField 4 uninit.colorsUsed
  let r15 := r14.1.readField 4 uninit.importantColors
  (r15.1,
    { signature := r1.2, fileSize := r2.2, reserved := r3.2, dataOffset := r4.2,
      headerSize := r5.2, width := toInt32 r6.2, height := toInt32 r7.2,
      planes := r8.2, bitsPerPixel := r9.2, compression := r10.2,
      imageSize := r11.2, xPixelsPerMeter := toInt32 r12.2,
      yPixelsPerMeter := toInt32 r13.2, colorsUsed := r14.2,
      importantColors := r15.2 })

/-- Line 190: `int paddingSize = (4 - (header.width * 3) % 4) % 4;` in `int`
arithmetic (`%` truncates towards zero; the product is taken modulo 2^32). -/
def loadPadding (width : Int) : Int :=
  (4 - (toInt32 (toUInt32 (width * 3))).tmod 4).tmod 4

/-- Lines 214-220: one pass of the inner loop body, for column `x`. -/
def loadPixel (width_ rowIndex : Nat) (rowBuffer : List Byte) (pixels : List Pixel)
    (x : Nat) : Option (List Pixel) := do
  let pixelIndex := (rowIndex * width_ + x) % 4294967296
  let bufferIndex := x * 3 % 4294967296
  let _ ← pixels[pixelIndex]?
  let b ← rowBuffer[bufferIndex]?
  let g ← rowBuffer[(bufferIndex + 1) % 4294967296]?
  let r ← rowBuffer[(bufferIndex + 2) % 4294967296]?
  pure (pixels.set pixelIndex ⟨r, g, b⟩)

/-- Lines 213-221: `for (unsigned int x = 0; x < width_; ++x)`. -/
def loadRowPixels (width_ rowIndex : Nat) (rowBuffer : List Byte) (pixels : List Pixel) :
    Option (List Pixel) :=
  (List.range width_).foldlM (loadPixel width_ rowIndex rowBuffer) pixels

/-- Lines 206-221: the body of the row loop for file row `y`, on the state
(stream, row buffer, pixel array). -/
def loadRow (width_ height_ : Nat) (bottomUp : Bool)
    (st : IFStream × List Byte × List Pixel) (y : Nat) :
    Option (IFStream × List Byte × List Pixel) :=
  let rowIndex := if bottomUp then height_ - 1 - y else y
  let r := st.1.read st.2.1 st.2.1.length
  (loadRowPixels width_ rowIndex r.2 st.2.2).map (fun px => (r.1, r.2, px))

/-- Lines 205-222: `for (unsigned int y = 0; y < height_; ++y)`. -/
def loadRows (width_ height_ : Nat) (bottomUp : Bool)
    (st : IFStream × List Byte × List Pixel) :
    Option (IFStream × List Byte × List Pixel) :=
  (List.range height_).foldlM (loadRow width_ height_ bottomUp) st

/-- The method `Image::loadFromBMP` on the file system entry `file` (`none`: the file
cannot be opened). The result is the value returned and the image after the
call; `none` is a run with an out-of-range vector access. -/
def loadFromBMP (uninit : BMPHeader) (file : Option (List Byte)) (img : Image) :
    Option (Bool × Image) :=
  match file with
  | none => some (false, img)
  | some data =>
    let rh := readHeader (IFStream.open data) uninit
    let header := rh.2
    if header.signature ≠ 0x4D42 then some (false, img)
    else if header.bitsPerPixel ≠ 24 then some (false, img)
    else if header.compression ≠ 0 then some (false, img)
    else
      let paddingSize := loadPadding header.width
      let width_ := toUInt32 header.width
      let height_ := toUInt32 (header.height.natAbs : Int)
      let pixels := vresize img.pixels_ (width_ * height_ % 4294967296)
      let s := rh.1.seekg header.dataOffset
      let bottomUp : Bool := decide (header.height > 0)
      let rowBuffer : List Byte :=
        List.replicate ((width_ * 3 % 4294967296 + toUInt32 paddingSize) % 4294967296) 0
      (loadRows width_ height_ bottomUp (s, rowBuffer, pixels)).map
        (fun st => (!st.1.fail, { width_ := width_, height_ := height_, pixels_ := st.2.2 }))

/-! ## `Image::saveToBMP` -/

/-- Line 241: `int paddingSize = (4 - (width_ * 3) % 4) % 4;` in `unsigned int`
arithmetic. -/
def savePadding (width_ : Nat) : Nat :=
  (4 - (width_ * 3 % 4294967296) % 4) % 4294967296 % 4

/-- Lines 266-280: the fifteen header writes, in order. -/
def writeHeader (s : OFStream) (header : BMPHeader) : OFStream :=
  let s := s.write (leBytes 2 header.signature)
  let s := s.write (leBytes 4 header.fileSize)
  let s := s.write (leBytes 4 header.reserved)
  let s := s.write (leBytes 4 header.dataOffset)
  let s := s.write (leBytes 4 header.headerSize)
  let s := s.write (leBytes 4 (toUInt32 header.width))
  let s := s.write (leBytes 4 (toUInt32 header.height))
  let s := s.write (leBytes 2 header.planes)
  let s := s.write (leBytes 2 header.bitsPerPixel)
  let s := s.write (leBytes 4 header.compression)
  let s := s.write (leBytes 4 header.imageSize)
  let s := s.write (leBytes 4 (toUInt32 header.xPixelsPerMeter))
  let s := s.write (leBytes 4 (toUInt32 header.yPixelsPerMeter))
  let s := s.write (leBytes 4 header.colorsUsed)
  s.write (leBytes 4 header.importantColors)

/-- The store `rowBuffer[i] = v` on a `std::vector<uint8_t>`. -/
def storeByte (buf : List Byte) (i : Nat) (v : Byte) : Option (List Byte) :=
  if i < buf.length then some (buf.set i v) else none

/-- Lines 292-298: one pass of the inner loop body, for column `x`. -/
def savePixel (width_ rowIndex : Nat) (pixels : List Pixel) (rowBuffer : List Byte)
    (x : Nat) : Option (List Byte) := do
  let pixel ← pixels[(rowIndex * width_ + x) % 4294967296]?
  let bufferIndex := x * 3 % 4294967296
  let rb ← storeByte rowBuffer bufferIndex pixel.b
  let rb ← storeByte rb ((bufferIndex + 1) % 4294967296) pixel.g
  storeByte rb ((bufferIndex + 2) % 4294967296) pixel.r

/-- Lines 291-299: `for (unsigned int x = 0; x < width_; ++x)`. -/
def saveRowBytes (width_ rowIndex : Nat) (pixels : List Pixel) (rowBuffer : List Byte) :
    Option (List Byte) :=
  (List.range width_).foldlM (savePixel width_ rowIndex pixels) rowBuffer

/-- Lines 287-302: the body of the row loop for output row `y`, on the state
(stream, row buffer). -/
def saveRow (width_ height_ : Nat) (pixels : List Pixel) (st : OFStream × List Byte)
    (y : Nat) : Option (OFStream × List Byte) :=
  let rowIndex := height_ - 1 - y
  (saveRowBytes width_ rowIndex pixels st.2).map (fun rb => (st.1.write rb, rb))

/-- Lines 286-303: `for (unsigned int y = 0; y < height_; ++y)`. -/
def saveRows (width_ height_ : Nat) (pixels : List Pixel) (st : OFStream × List Byte) :
    Option (OFStream × List Byte) :=
  (List.range height_).foldlM (saveRow width_ height_ pixels) st

/-- What a call of `saveToBMP` leaves behind: the value returned and the
contents of the output file (`none`: no file was opened for writing). -/
structure SaveResult where
  ok : Bool
  file : Option (List Byte)
deriving DecidableEq

/-- Lines 241-263: the header that `saveToBMP` prepares for an image. -/
def saveHeader (img : Image) : BMPHeader :=
  let paddingSize := savePadding img.width_
  let pixelDataSize :=
    (img.width_ * 3 % 4294967296 + paddingSize) % 4294967296 * img.height_ % 4294967296
  let fileSize := (54 + pixelDataSize) % 4294967296
  { signature := 0x4D42, fileSize := fileSize, reserved := 0, dataOffset := 54,
    headerSize := 40, width := toInt32 img.width_, height := toInt32 img.height_,
    planes := 1, bitsPerPixel := 24, compression := 0, imageSize := pixelDataSize,
    xPixelsPerMeter := 2835, yPixelsPerMeter := 2835, colorsUsed := 0,
    importantColors := 0 }

/-- The method `Image::saveToBMP`; `canOpen` tells whether the output file can be
created. `none` is a run with an out-of-range vector access. -/
def saveToBMP (canOpen : Bool) (img : Image) : Option SaveResult :=
  if img.isEmpty then some ⟨false, none⟩
  else if !canOpen then some ⟨false, none⟩
  else
    let paddingSize := savePadding img.width_
    let header := saveHeader img
    let s := writeHeader ⟨[], false⟩ header
    let rowBuffer : List Byte :=
      List.replicate ((img.width_ * 3 % 4294967296 + paddingSize) % 4294967296) 0
    (saveRows img.width_ img.height_ img.pixels_ (s, rowBuffer)).map
      (fun st => ⟨!st.1.failbit, some st.1.data⟩)

/-! ## Definitions used in the statements -/

/-- The header fields as they stand in the first 54 bytes of `data`. -/
def parseHeader (data : List Byte) : BMPHeader :=
  { signature := leVal ((data.drop 0).take 2)
    fileSize := leVal ((data.drop 2).take 4)
    reserved := leVal ((data.drop 6).take 4)
    dataOffset := leVal ((data.drop 10).take 4)
    headerSize := leVal ((data.drop 14).take 4)
    width := toInt32 (leVal ((data.drop 18).take 4))
    height := toInt32 (leVal ((data.drop 22).take 4))
    planes := leVal ((data.drop 26).take 2)
    bitsPerPixel := leVal ((data.drop 28).take 2)
    compression := leVal ((data.drop 30).take 4)
    imageSize := leVal ((data.drop 34).take 4)
    xPixelsPerMeter := toInt32 (leVal ((data.drop 38).take 4))
    yPixelsPerMeter := toInt32 (leVal ((data.drop 42).take 4))
    colorsUsed := leVal ((data.drop 46).take 4)
    importantColors := leVal ((data.drop 50).take 4) }

/-- The pixel that the decoder builds from the three bytes at offset `3 * x`
of a row buffer. -/
def pixelOf (rowBuffer : List Byte) (x : Nat) : Pixel :=
  ⟨rowBuffer.getD (3 * x + 2) 0, rowBuffer.getD (3 * x + 1) 0, rowBuffer.getD (3 * x) 0⟩

/-- The stream `s` after `k` reads of `n` bytes that started on `s0`: the
file is the same, a `failbit` that was set stays set, and either `failbit` is
set or the stream is good, `k * n` bytes further, all of them inside the
file. -/
abbrev RowsRead (s0 s : IFStream) (k n : Nat) : Prop :=
  s.data = s0.data ∧ (s0.failbit = true → s.failbit = true) ∧
    (s.failbit = true ∨
      (s.good = true ∧ s.pos = s0.pos + k * n ∧ (0 < k → 0 < n → s.pos ≤ s.data.length)))

/-- The pixel that the decoder builds from the three bytes of the file at
offsets `i`, `i + 1`, `i + 2` (blue, green, red). -/
def pixelAt (data : List Byte) (i : Nat) : Pixel :=
  ⟨data.getD (i + 2) 0, data.getD (i + 1) 0, data.getD i 0⟩

/-- Byte `c` (0, 1, 2) of a pixel in file order: blue, green, red. -/
def pixelByte (p : Pixel) (c : Nat) : Byte :=
  if c = 0 then p.b else if c = 1 then p.g else p.r

/-- Byte `j` of output row `y` of the encoder: the pixels of buffer row
`h - 1 - y`, three bytes each, then zero padding. -/
def rowByte (pixels : List Pixel) (w h y j : Nat) : Byte :=
  if j < 3 * w then pixelByte (pixels.getD ((h - 1 - y) * w + j / 3) default) (j % 3) else 0

/-- The 54 bytes that the fifteen writes of `writeHeader` emit. -/
def headerBytes (h : BMPHeader) : List Byte :=
  leBytes 2 h.signature ++ (leBytes 4 h.fileSize ++ (leBytes 4 h.reserved ++
  (leBytes 4 h.dataOffset ++ (leBytes 4 h.headerSize ++ (leBytes 4 (toUInt32 h.width) ++
  (leBytes 4 (toUInt32 h.height) ++ (leBytes 2 h.planes ++ (leBytes 2 h.bitsPerPixel ++
  (leBytes 4 h.compression ++ (leBytes 4 h.imageSize ++
  (leBytes 4 (toUInt32 h.xPixelsPerMeter) ++ (leBytes 4 (toUInt32 h.yPixelsPerMeter) ++
  (leBytes 4 h.colorsUsed ++ leBytes 4 h.importantColors)))))))))))))

/-- The stream `s` after header reads that add up to `p` bytes on the file
`data`: either `failbit` is set, or the stream is good at position `p`,
inside the file. -/
abbrev ReadTo (data : List Byte) (s : IFStream) (p : Nat) : Prop :=
  s.data = data ∧ (s.failbit = true ∨ (s.good = true ∧ s.pos = p ∧ p ≤ data.length))

/-- The images that a program can hold: the default-constructed image and
the images built by the three-argument constructor, closed under `setPixel`
(normal return or throw), `resize`, `clear`, `clone`, copy, move (target and
moved-from source) and `loadFromBMP` (whatever it returns). Arguments of type
`unsigned int` are below 2^32. -/
inductive Reachable : Image → Prop where
  | default : Reachable ⟨0, 0, []⟩
  | create (w h : Nat) (fill : Pixel) (hw : w < 4294967296) (hh : h < 4294967296) :
      Reachable (Image.create w h fill)
  | setPixel (img img1 : Image) (x y : Nat) (v : Pixel) (r : Checked Unit)
      (h : Reachable img) (e : img.setPixel x y v = some (r, img1)) : Reachable img1
  | resize (img img1 : Image) (nw nh : Nat) (p : Bool) (hw : nw < 4294967296)
      (hh : nh < 4294967296) (h : Reachable img) (e : img.resize nw nh p = some img1) :
      Reachable img1
  | clear (img : Image) (c : Pixel) (h : Reachable img) : Reachable (img.clear c)
  | clone (img : Image) (h : Reachable img) : Reachable img.clone
  | copy (img : Image) (h : Reachable img) : Reachable (Image.copy img)
  | moveTarget (img : Image) (h : Reachable img) : Reachable (Image.move img).1
  | moveSource (img : Image) (h : Reachable img) : Reachable (Image.move img).2
  | decode (img img1 : Image) (uninit : BMPHeader) (file : Option (List Byte)) (b : Bool)
      (h : Reachable img) (e : loadFromBMP uninit file img = some (b, img1)) :
      Reachable img1

/-! ## Concrete inputs -/

/-- A one-pixel-wide image of 2^31 + 1 rows, all black. -/
def tallImage : Image := ⟨1, 2147483649, List.replicate 2147483649 default⟩

/-- A 2 x 2 image with four different pixels. -/
def sampleImage : Image := ⟨2, 2, [⟨1, 2, 3⟩, ⟨4, 5, 6⟩, ⟨7, 8, 9⟩, ⟨10, 11, 12⟩]⟩

/-- A header object with every member zero. -/
def zeroHeader : BMPHeader := ⟨0, 0, 0, 0, 0, 0, 0, 0, 0, 0, 0, 0, 0, 0, 0⟩

/-- The empty image of the default constructor `Image()`. -/
def emptyImage : Image := ⟨0, 0, []⟩

/-- A 2 x 2 image saved with the first byte of the signature overwritten:
a stream that starts with `"XM"`. -/
def badSignatureFile : List Byte :=
  [88, 77, 70, 0, 0, 0, 0, 0, 0, 0, 54, 0, 0, 0, 40, 0, 0, 0, 2, 0, 0, 0, 2, 0, 0, 0, 1, 0,
   24, 0, 0, 0, 0, 0, 16, 0, 0, 0, 19, 11, 0, 0, 19, 11, 0, 0, 0, 0, 0, 0, 0, 0, 0, 0,
   9, 8, 7, 12, 11, 10, 0, 0, 3, 2, 1, 6, 5, 4, 0, 0]

/-- The header of a bottom-up 65536 x 65536 image. -/
def bigSquareHeader : BMPHeader :=
  ⟨0x4D42, 54, 0, 54, 40, 65536, 65536, 1, 24, 0, 0, 2835, 2835, 0, 0⟩

/-- A complete bottom-up 65536 x 65536 file: the header and 65536 rows of
196608 zero bytes. -/
def bigSquareFile : List Byte :=
  headerBytes bigSquareHeader ++ List.replicate 12884901888 0

/-- A 1 x 1 bottom-up file: the header, then the single row 10, 20, 30 and
one padding byte. -/
def onePixelFile : List Byte :=
  [66, 77, 58, 0, 0, 0, 0, 0, 0, 0, 54, 0, 0, 0, 40, 0, 0, 0, 1, 0, 0, 0, 1, 0, 0, 0, 1, 0,
   24, 0, 0, 0, 0, 0, 4, 0, 0, 0, 19, 11, 0, 0, 19, 11, 0, 0, 0, 0, 0, 0, 0, 0, 0, 0,
   10, 20, 30, 0]

/-- A 2 x 2 bottom-up file: the header, then two rows of six pixel bytes and
two padding bytes. -/
def sampleFile : List Byte :=
  [66, 77, 70, 0, 0, 0, 0, 0, 0, 0, 54, 0, 0, 0, 40, 0, 0, 0, 2, 0, 0, 0, 2, 0, 0, 0, 1, 0,
   24, 0, 0, 0, 0, 0, 16, 0, 0, 0, 19, 11, 0, 0, 19, 11, 0, 0, 0, 0, 0, 0, 0, 0, 0, 0,
   9, 8, 7, 12, 11, 10, 0, 0, 3, 2, 1, 6, 5, 4, 0, 0]

/-- The header of a top-down 65536 x 65536 image. -/
def bigTopDownHeader : BMPHeader :=
  ⟨0x4D42, 54, 0, 54, 40, 65536, -65536, 1, 24, 0, 0, 2835, 2835, 0, 0⟩

/-- A complete top-down 65536 x 65536 file: the header and 65536 rows of
196608 zero bytes. -/
def bigTopDownFile : List Byte :=
  headerBytes bigTopDownHeader ++ List.replicate 12884901888 0

/-- A 2 x 2 top-down file: header height -2, then two rows of six pixel bytes
and two padding bytes. -/
def topDownFile : List Byte :=
  [66, 77, 70, 0, 0, 0, 0, 0, 0, 0, 54, 0, 0, 0, 40, 0, 0, 0, 2, 0, 0, 0, 254, 255, 255, 255,
   1, 0, 24, 0, 0, 0, 0, 0, 16, 0, 0, 0, 19, 11, 0, 0, 19, 11, 0, 0, 0, 0, 0, 0, 0, 0, 0, 0,
   9, 8, 7, 12, 11, 10, 0, 0, 3, 2, 1, 6, 5, 4, 0, 0]

/-- A one-pixel-wide image of 2^30 rows, all black. -/
def columnImage : Image := ⟨1, 1073741824, List.replicate 1073741824 default⟩

/-- An image of width 2^31 and height 1, all black. -/
def wideImage : Image := ⟨2147483648, 1, List.replicate 2147483648 default⟩

/-- An image of width 0 and height 3 (a state `resize(0, 3)` leaves). -/
def zeroWidthImage : Image := ⟨0, 3, []⟩

/-- A file that ends after the 54 header bytes of a bottom-up 65536 x 65536
image. -/
def headerOnlyFile : List Byte := headerBytes bigSquareHeader

/-- The 2 x 2 bottom-up file cut after its first row: 62 of its 70 bytes. -/
def truncatedFile : List Byte := sampleFile.take 62

/-- A 1 x 1 image. -/
def oneCellImage : Image := ⟨1, 1, [⟨200, 100, 50⟩]⟩

/-- A 2 x 2 image whose two rows both hold the pixels (7, 8, 9), (10, 11, 12). -/
def staleImage : Image := ⟨2, 2, [⟨7, 8, 9⟩, ⟨10, 11, 12⟩, ⟨7, 8, 9⟩, ⟨10, 11, 12⟩]⟩

/-- The image `Image(65536, 65536, Pixel(9, 9, 9))`: the product of the
dimensions is 2^32. -/
def squareImage : Image := Image.create 65536 65536 ⟨9, 9, 9⟩

/-- The image `Image(65536, 65537)`, black: the product of the dimensions is
2^32 + 65536. -/
def wrapImage : Image := Image.create 65536 65537 default

/-- A 4 x 4 image with sixteen different pixels, `(10 * y + x, y, x)` at
`(x, y)`. -/
def gridImage : Image :=
  ⟨4, 4, [⟨0, 0, 0⟩, ⟨1, 0, 1⟩, ⟨2, 0, 2⟩, ⟨3, 0, 3⟩,
          ⟨10, 1, 0⟩, ⟨11, 1, 1⟩, ⟨12, 1, 2⟩, ⟨13, 1, 3⟩,
          ⟨20, 2, 0⟩, ⟨21, 2, 1⟩, ⟨22, 2, 2⟩, ⟨23, 2, 3⟩,
          ⟨30, 3, 0⟩, ⟨31, 3, 1⟩, ⟨32, 3, 2⟩, ⟨33, 3, 3⟩]⟩

/-- A header with width -1 and height 0 that passes the three checks. -/
def negativeWidthHeader : BMPHeader :=
  ⟨0x4D42, 54, 0, 54, 40, -1, 0, 1, 24, 0, 0, 2835, 2835, 0, 0⟩

/-- A file of 54 bytes: the header `negativeWidthHeader` and no pixel data. -/
def negativeWidthFile : List Byte := headerBytes negativeWidthHeader

/-! ## Little-endian object representations -/

theorem leBytes_length (k v : Nat) : (leBytes k v).length = k := by
  induction k generalizing v with
  | zero => rfl
  | succ k ih => simp [leBytes, ih]

theorem leVal_leBytes (k v : Nat) : leVal (leBytes k v) = v % 256 ^ k := by
  induction k generalizing v with
  | zero => simp [leBytes, leVal, Nat.mod_one]
  | succ k ih =>
    simp only [leBytes, leVal, ih, byteOfNat]
    rw [pow_succ, Nat.mul_comm (256 ^ k) 256, Nat.mod_mul]

theorem leVal_lt (bs : List Byte) : leVal bs < 256 ^ bs.length := by
  induction bs with
  | nil => simp [leVal]
  | cons b bs ih =>
    have hb := b.isLt
    simp only [leVal, List.length_cons, pow_succ]
    omega

/-! ## Reads -/

theorem read_data (s : IFStream) (buf : List Byte) (n : Nat) :
    (s.read buf n).1.data = s.data := by
  unfold IFStream.read
  split
  · dsimp only
    split <;> rfl
  · rfl

theorem read_failbit_mono (s : IFStream) (buf : List Byte) (n : Nat)
    (h : s.failbit = true) : (s.read buf n).1.failbit = true := by
  unfold IFStream.read
  simp [IFStream.good, h]

theorem read_length (s : IFStream) (buf : List Byte) (n : Nat) (h : n ≤ buf.length) :
    (s.read buf n).2.length = buf.length := by
  unfold IFStream.read
  have hg : ((s.data.drop s.pos).take n).length ≤ n := by
    rw [List.length_take]; exact Nat.min_le_left _ _
  split
  · dsimp only
    split <;> simp only [List.length_append, List.length_drop] <;> omega
  · rfl

theorem read_full (s : IFStream) (buf : List Byte) (n : Nat) (hg : s.good = true)
    (h : s.pos + n ≤ s.data.length) :
    s.read buf n =
      ({ s with pos := s.pos + n }, (s.data.drop s.pos).take n ++ buf.drop n) := by
  have hlen : ((s.data.drop s.pos).take n).length = n := by
    rw [List.length_take, List.length_drop]; omega
  unfold IFStream.read
  simp only [hg, if_true, hlen, lt_irrefl, if_false]

theorem readField_full (s : IFStream) (k old : Nat) (hg : s.good = true)
    (h : s.pos + k ≤ s.data.length) :
    s.readField k old = ({ s with pos := s.pos + k }, leVal ((s.data.drop s.pos).take k)) := by
  unfold IFStream.readField
  rw [read_full s _ k hg h]
  simp [List.drop_of_length_le, leBytes_length]

theorem readField_at (data : List Byte) (p k q old : Nat) (hq : q = p + k)
    (h : q ≤ data.length) :
    IFStream.readField ⟨data, p, false, false⟩ k old =
      (⟨data, q, false, false⟩, leVal ((data.drop p).take k)) := by
  subst hq
  exact readField_full ⟨data, p, false, false⟩ k old rfl h

theorem readHeader_complete (data : List Byte) (uninit : BMPHeader)
    (h : 54 ≤ data.length) :
    readHeader (IFStream.open data) uninit = (⟨data, 54, false, false⟩, parseHeader data) := by
  unfold readHeader IFStream.open
  rw [readField_at data 0 2 2 _ rfl (by omega)]
  simp only
  rw [readField_at data 2 4 6 _ rfl (by omega)]
  simp only
  rw [readField_at data 6 4 10 _ rfl (by omega)]
  simp only
  rw [readField_at data 10 4 14 _ rfl (by omega)]
  simp only
  rw [readField_at data 14 4 18 _ rfl (by omega)]
  simp only
  rw [readField_at data 18 4 22 _ rfl (by omega)]
  simp only
  rw [readField_at data 22 4 26 _ rfl (by omega)]
  simp only
  rw [readField_at data 26 2 28 _ rfl (by omega)]
  simp only
  rw [readField_at data 28 2 30 _ rfl (by omega)]
  simp only
  rw [readField_at data 30 4 34 _ rfl (by omega)]
  simp only
  rw [readField_at data 34 4 38 _ rfl (by omega)]
  simp only
  rw [readField_at data 38 4 42 _ rfl (by omega)]
  simp only
  rw [readField_at data 42 4 46 _ rfl (by omega)]
  simp only
  rw [readField_at data 46 4 50 _ rfl (by omega)]
  simp only
  rw [readField_at data 50 4 54 _ rfl (by omega)]
  rfl

/-! ## Loops -/

/-- Invariant rule for a `for (k = 0; k < n; ++k)` loop whose body may be
undefined: if the body keeps the invariant and is defined whenever the
invariant holds, the loop is defined and ends in a state with the invariant. -/
theorem foldlM_range_inv {σ : Type} (f : σ → Nat → Option σ) (P : Nat → σ → Prop)
    (n : Nat) (st : σ) (h0 : P 0 st)
    (hstep : ∀ k s, k < n → P k s → ∃ s', f s k = some s' ∧ P (k + 1) s') :
    ∃ s', (List.range n).foldlM f st = some s' ∧ P n s' := by
  induction n with
  | zero => exact ⟨st, rfl, h0⟩
  | succ n ih =>
    obtain ⟨s1, h1, hP1⟩ := ih (fun k s hk hP => hstep k s (Nat.lt_succ_of_lt hk) hP)
    obtain ⟨s2, h2, hP2⟩ := hstep n s1 (Nat.lt_succ_self n) hP1
    refine ⟨s2, ?_, hP2⟩
    rw [List.range_succ, List.foldlM_append, h1]
    simp [h2]

theorem loadPixel_eq (width_ rowIndex : Nat) (rb : List Byte) (px : List Pixel) (x : Nat)
    (hpx : rowIndex * width_ + x < px.length) (hN : px.length ≤ 4294967296)
    (hrb : 3 * x + 2 < rb.length) (hR : rb.length ≤ 4294967296) :
    loadPixel width_ rowIndex rb px x = some (px.set (rowIndex * width_ + x) (pixelOf rb x)) := by
  unfold loadPixel pixelOf
  have e1 : (rowIndex * width_ + x) % 4294967296 = rowIndex * width_ + x :=
    Nat.mod_eq_of_lt (by omega)
  have e2 : x * 3 % 4294967296 = 3 * x := by omega
  have e3 : (3 * x + 1) % 4294967296 = 3 * x + 1 := by omega
  have e4 : (3 * x + 2) % 4294967296 = 3 * x + 2 := by omega
  simp only [e1, e2, e3, e4]
  rw [List.getElem?_eq_getElem hpx, List.getElem?_eq_getElem (by omega : 3 * x < rb.length),
    List.getElem?_eq_getElem (by omega : 3 * x + 1 < rb.length),
    List.getElem?_eq_getElem hrb]
  simp [List.getD_eq_getElem?_getD, List.getElem?_eq_getElem hrb,
    List.getElem?_eq_getElem (by omega : 3 * x < rb.length),
    List.getElem?_eq_getElem (by omega : 3 * x + 1 < rb.length)]

theorem loadRowPixels_spec (w rowIndex : Nat) (rb : List Byte) (px : List Pixel)
    (hpx : rowIndex * w + w ≤ px.length) (hN : px.length ≤ 4294967296)
    (hrb : 3 * w ≤ rb.length) (hR : rb.length ≤ 4294967296) :
    ∃ px', loadRowPixels w rowIndex rb px = some px' ∧ px'.length = px.length ∧
      ∀ i, px'[i]? =
        if rowIndex * w ≤ i ∧ i < rowIndex * w + w then some (pixelOf rb (i - rowIndex * w))
        else px[i]? := by
  unfold loadRowPixels
  have key := foldlM_range_inv (loadPixel w rowIndex rb)
    (fun j p => p.length = px.length ∧ ∀ i, p[i]? =
        if rowIndex * w ≤ i ∧ i < rowIndex * w + j then some (pixelOf rb (i - rowIndex * w))
        else px[i]?) w px
    ⟨rfl, fun i => by
      have : ¬ (rowIndex * w ≤ i ∧ i < rowIndex * w + 0) := by omega
      rw [if_neg this]⟩
    (by
      intro j p hj ⟨hlen, hget⟩
      refine ⟨_, loadPixel_eq w rowIndex rb p j (by omega) (by omega) (by omega) hR, ?_, ?_⟩
      · simp [hlen]
      · intro i
        rw [List.getElem?_set, hget i]
        by_cases hi : rowIndex * w + j = i
        · subst hi
          have : rowIndex * w + j < p.length := by omega
          simp [this]
        · simp only [hi, if_false]
          by_cases h1 : rowIndex * w ≤ i ∧ i < rowIndex * w + j
          · have h2 : rowIndex * w ≤ i ∧ i < rowIndex * w + (j + 1) := by omega
            simp [h1, h2]
          · have h2 : ¬ (rowIndex * w ≤ i ∧ i < rowIndex * w + (j + 1)) := by omega
            simp [h1, h2])
  exact key

theorem read_cases (s : IFStream) (buf : List Byte) (n : Nat) (hg : s.good = true) :
    (s.read buf n).1.failbit = true ∨
      ((s.read buf n).1.good = true ∧ (s.read buf n).1.pos = s.pos + n ∧
        (0 < n → s.pos + n ≤ s.data.length)) := by
  unfold IFStream.read
  rw [if_pos hg]
  dsimp only
  by_cases h : ((s.data.drop s.pos).take n).length < n
  · rw [if_pos h]
    exact Or.inl rfl
  · right
    rw [if_neg h]
    rw [List.length_take, List.length_drop] at h ⊢
    refine ⟨hg, ?_, ?_⟩
    · show s.pos + min n (s.data.length - s.pos) = s.pos + n
      omega
    · omega

theorem rowsRead_step {s0 s : IFStream} {k n : Nat} (h : RowsRead s0 s k n)
    (buf : List Byte) : RowsRead s0 (s.read buf n).1 (k + 1) n := by
  obtain ⟨hd, hm, h⟩ := h
  refine ⟨by rw [read_data, hd], fun h0 => read_failbit_mono s buf n (hm h0), ?_⟩
  rcases h with hf | ⟨hg, hp, _⟩
  · exact Or.inl (read_failbit_mono s buf n hf)
  · rcases read_cases s buf n hg with hf | ⟨hg', hp', hle⟩
    · exact Or.inl hf
    · right
      refine ⟨hg', ?_, ?_⟩
      · rw [hp', hp, Nat.add_mul]; omega
      · intro _ hn
        rw [read_data, hp']
        exact hle hn

theorem rowIndex_bound (w h r : Nat) (hr : r < h) : r * w + w ≤ w * h := by
  have : (r + 1) * w ≤ h * w := Nat.mul_le_mul_right w hr
  rw [Nat.add_mul, Nat.one_mul, Nat.mul_comm h w] at this
  exact this

/-- The row loop of the decoder is defined whenever the pixel array has
`width_ * height_` cells and the row buffer holds `3 * width_` bytes or more,
both within 32 bits, whatever the stream holds. -/
theorem loadRows_defined (w h : Nat) (bu : Bool) (s : IFStream) (rb : List Byte)
    (px : List Pixel) (hs : s.failbit = true ∨ s.good = true)
    (hpx : px.length = w * h) (hN : w * h ≤ 4294967296)
    (hrb : 3 * w ≤ rb.length) (hR : rb.length ≤ 4294967296) :
    ∃ st, loadRows w h bu (s, rb, px) = some st ∧ st.2.2.length = w * h ∧
      st.2.1.length = rb.length ∧ RowsRead s st.1 h rb.length := by
  unfold loadRows
  refine foldlM_range_inv (loadRow w h bu)
    (fun k st => st.2.2.length = w * h ∧ st.2.1.length = rb.length ∧
      RowsRead s st.1 k rb.length) h (s, rb, px) ⟨hpx, rfl, rfl, id, ?_⟩ ?_
  · rcases hs with hf | hg
    · exact Or.inl hf
    · exact Or.inr ⟨hg, by simp, fun h0 => absurd h0 (lt_irrefl 0)⟩
  · rintro k ⟨s1, rb1, px1⟩ hk ⟨h1, h2, h3⟩
    simp only at h1 h2 h3
    have hri : (if bu = true then h - 1 - k else k) < h := by split <;> omega
    have hlenr : (s1.read rb1 rb1.length).2.length = rb1.length :=
      read_length s1 rb1 rb1.length (le_refl _)
    obtain ⟨px2, e, hl2, _⟩ := loadRowPixels_spec w (if bu = true then h - 1 - k else k)
      (s1.read rb1 rb1.length).2 px1
      (by rw [h1]; exact rowIndex_bound w h _ hri) (by omega) (by omega) (by omega)
    refine ⟨((s1.read rb1 rb1.length).1, (s1.read rb1 rb1.length).2, px2), ?_, ?_, ?_, ?_⟩
    · simp only [loadRow, e, Option.map_some']
    · simp only; omega
    · simp only; omega
    · simp only
      rw [← h2]
      exact rowsRead_step (h2 ▸ h3) rb1

theorem getD_take_drop (data : List Byte) (p n j : Nat) (tail : List Byte) (hj : j < n)
    (hn : p + n ≤ data.length) :
    ((data.drop p).take n ++ tail).getD j 0 = data.getD (p + j) 0 := by
  have hl : ((data.drop p).take n).length = n := by
    rw [List.length_take, List.length_drop]; omega
  rw [List.getD_eq_getElem?_getD, List.getD_eq_getElem?_getD,
    List.getElem?_append_left (by omega), List.getElem?_take, if_pos hj, List.getElem?_drop]

theorem pixelOf_read (data : List Byte) (p n x : Nat) (tail : List Byte)
    (hx : 3 * x + 2 < n) (hn : p + n ≤ data.length) :
    pixelOf ((data.drop p).take n ++ tail) x = pixelAt data (p + 3 * x) := by
  unfold pixelOf pixelAt
  rw [getD_take_drop data p n _ tail hx hn, getD_take_drop data p n _ tail (by omega) hn,
    getD_take_drop data p n _ tail (by omega) hn]
  rfl

theorem row_disjoint (a b w x : Nat) (hx : x < w) (hab : a ≠ b) :
    ¬ (b * w ≤ a * w + x ∧ a * w + x < b * w + w) := by
  rintro ⟨h1, h2⟩
  rcases Nat.lt_or_gt_of_ne hab with h | h
  · have : (a + 1) * w ≤ b * w := Nat.mul_le_mul_right w h
    rw [Nat.add_mul, Nat.one_mul] at this
    omega
  · have : (b + 1) * w ≤ a * w := Nat.mul_le_mul_right w h
    rw [Nat.add_mul, Nat.one_mul] at this
    omega

/-- The row loop of the decoder on a stream that holds all `height_` rows:
every read is complete, and file row `y` lands in buffer row
`height_ - 1 - y` (bottom-up) or `y` (top-down), blue-green-red bytes
reordered. -/
theorem loadRows_complete (w h : Nat) (bu : Bool) (data : List Byte) (off : Nat)
    (rb : List Byte) (px : List Pixel)
    (hpx : px.length = w * h) (hN : w * h ≤ 4294967296)
    (hrb : 3 * w ≤ rb.length) (hR : rb.length ≤ 4294967296)
    (hc : off + h * rb.length ≤ data.length) :
    ∃ st, loadRows w h bu (⟨data, off, false, false⟩, rb, px) = some st ∧
      st.1 = ⟨data, off + h * rb.length, false, false⟩ ∧ st.2.2.length = w * h ∧
      ∀ y, y < h → ∀ x, x < w →
        st.2.2[(if bu = true then h - 1 - y else y) * w + x]? =
          some (pixelAt data (off + y * rb.length + 3 * x)) := by
  unfold loadRows
  refine foldlM_range_inv (loadRow w h bu)
    (fun k st => st.1 = ⟨data, off + k * rb.length, false, false⟩ ∧
      st.2.1.length = rb.length ∧ st.2.2.length = w * h ∧
      ∀ y, y < k → ∀ x, x < w →
        st.2.2[(if bu = true then h - 1 - y else y) * w + x]? =
          some (pixelAt data (off + y * rb.length + 3 * x)))
    h (⟨data, off, false, false⟩, rb, px) ⟨by simp, rfl, hpx, fun y hy => absurd hy (by omega)⟩ ?_
    |>.imp fun st hst => ⟨hst.1, hst.2.1, hst.2.2.2.1, hst.2.2.2.2⟩
  rintro k ⟨s1, rb1, px1⟩ hk ⟨h1, h2, h3, h4⟩
  simp only at h1 h2 h3 h4
  subst h1
  have hkn : off + k * rb.length + rb.length ≤ data.length := by
    have : (k + 1) * rb.length ≤ h * rb.length := Nat.mul_le_mul_right _ hk
    rw [Nat.add_mul, Nat.one_mul] at this
    omega
  have hread : IFStream.read ⟨data, off + k * rb.length, false, false⟩ rb1 rb1.length =
      (⟨data, off + (k + 1) * rb.length, false, false⟩,
        (data.drop (off + k * rb.length)).take rb.length ++ rb1.drop rb.length) := by
    rw [read_full ⟨data, off + k * rb.length, false, false⟩ rb1 rb1.length rfl
      (by rw [h2]; exact hkn), h2, Nat.add_mul, Nat.one_mul, Nat.add_assoc]
  have hri : (if bu = true then h - 1 - k else k) < h := by split <;> omega
  have hlenr : ((data.drop (off + k * rb.length)).take rb.length ++ rb1.drop rb.length).length
      = rb.length := by
    simp only [List.length_append, List.length_take, List.length_drop]; omega
  obtain ⟨px2, e, hl2, hget⟩ := loadRowPixels_spec w (if bu = true then h - 1 - k else k)
    ((data.drop (off + k * rb.length)).take rb.length ++ rb1.drop rb.length) px1
    (by rw [h3]; exact rowIndex_bound w h _ hri) (by omega) (by omega) (by omega)
  refine ⟨(⟨data, off + (k + 1) * rb.length, false, false⟩,
    (data.drop (off + k * rb.length)).take rb.length ++ rb1.drop rb.length, px2), ?_, rfl, hlenr,
    by simp only; omega, ?_⟩
  · simp only [loadRow, hread, e, Option.map_some']
  · intro y hy x hx
    simp only
    rw [hget]
    by_cases hyk : y = k
    · subst hyk
      rw [if_pos ⟨by omega, by omega⟩]
      simp only [Nat.add_sub_cancel_left]
      rw [pixelOf_read data _ rb.length x _ (by omega) hkn]
    · have hne : (if bu = true then h - 1 - y else y) ≠ (if bu = true then h - 1 - k else k) := by
        split <;> omega
      rw [if_neg (row_disjoint _ _ w x hx hne)]
      exact h4 y (by omega) x hx

/-! ## Row padding -/

theorem tmod_four (a : Int) : a.tmod 4 = if 0 ≤ a then a % 4 else -((-a) % 4) := by
  cases a with
  | ofNat m =>
    have h : (0 : Int) ≤ Int.ofNat m := Int.ofNat_nonneg m
    rw [if_pos h]
    exact Int.tmod_eq_emod h (by decide)
  | negSucc m =>
    have h : ¬ (0 : Int) ≤ Int.negSucc m := by
      intro h; exact absurd h (by simp [Int.negSucc_lt_zero])
    rw [if_neg h]
    rfl

theorem pad_tmod (v : Int) : (4 - v.tmod 4).tmod 4 = (4 - v % 4) % 4 := by
  rw [tmod_four, tmod_four]
  split <;> split <;> omega

theorem toInt32_emod_four (n : Nat) : toInt32 n % 4 = ((n % 4 : Nat) : Int) := by
  unfold toInt32
  split <;> omega

theorem toUInt32_cast (i : Int) : ((toUInt32 i : Nat) : Int) = i % 4294967296 :=
  Int.toNat_of_nonneg (Int.emod_nonneg _ (by decide))

theorem toUInt32_mul_three_mod (width : Int) :
    toUInt32 (width * 3) % 4 = toUInt32 width * 3 % 4 := by
  have h1 := toUInt32_cast (width * 3)
  have h2 := toUInt32_cast width
  have h3 : (width * 3 % 4294967296) % 4 = (width % 4294967296 * 3) % 4 := by omega
  generalize toUInt32 (width * 3) = a at *
  generalize toUInt32 width = b at *
  omega

/-- The decoder's padding (line 190, `int` arithmetic on the signed header
width) and the encoder's padding (line 241, `unsigned` arithmetic) agree. -/
theorem loadPadding_eq_savePadding (width : Int) :
    toUInt32 (loadPadding width) = savePadding (toUInt32 width) := by
  unfold loadPadding savePadding
  rw [pad_tmod, toInt32_emod_four, toUInt32_mul_three_mod]
  generalize toUInt32 width = a
  have h1 : a * 3 % 4294967296 % 4 = a * 3 % 4 := by omega
  have hr : a * 3 % 4 < 4 := Nat.mod_lt _ (by decide)
  rw [h1]
  generalize a * 3 % 4 = r at hr
  unfold toUInt32
  interval_cases r <;> rfl

theorem savePadding_eq (w : Nat) : savePadding w = (4 - 3 * w % 4) % 4 := by
  unfold savePadding; omega

/-! ## The decoder on complete streams -/

theorem vresize_length (v : List Pixel) (n : Nat) : (vresize v n).length = n := by
  unfold vresize
  simp only [List.length_append, List.length_take, List.length_replicate]
  omega

theorem toInt32_natAbs_le (n : Nat) : (toInt32 n).natAbs ≤ 2147483648 := by
  unfold toInt32
  split <;> omega

theorem toUInt32_natCast (n : Nat) (h : n < 4294967296) : toUInt32 (n : Int) = n := by
  have h1 := toUInt32_cast (n : Int)
  generalize toUInt32 (n : Int) = a at *
  omega

theorem parseHeader_height_natAbs (data : List Byte) :
    toUInt32 ((parseHeader data).height.natAbs : Int) = (parseHeader data).height.natAbs := by
  apply toUInt32_natCast
  have := toInt32_natAbs_le (leVal ((data.drop 22).take 4))
  show (toInt32 (leVal ((data.drop 22).take 4))).natAbs < 4294967296
  omega

theorem toUInt32_lt (i : Int) : toUInt32 i < 4294967296 := by
  have h1 := toUInt32_cast i
  generalize toUInt32 i = a at *
  omega

/-- On a stream that holds the 54 header bytes and, from `dataOffset` on, all
the rows the header announces, with a pixel count and a row length that fit
32 bits, `loadFromBMP` succeeds, takes its dimensions from the header and
fills every cell from the file. -/
theorem loadFromBMP_complete (uninit : BMPHeader) (data : List Byte) (img : Image)
    (hlen : 54 ≤ data.length)
    (hsig : (parseHeader data).signature = 0x4D42)
    (hbpp : (parseHeader data).bitsPerPixel = 24)
    (hcomp : (parseHeader data).compression = 0)
    (w h : Nat) (hw : toUInt32 (parseHeader data).width = w)
    (hh : (parseHeader data).height.natAbs = h)
    (hN : w * h < 4294967296) (hrow : 3 * w + savePadding w < 4294967296)
    (hc : (parseHeader data).dataOffset + h * (3 * w + savePadding w) ≤ data.length) :
    ∃ px, loadFromBMP uninit (some data) img = some (true, ⟨w, h, px⟩) ∧
      px.length = w * h ∧
      ∀ y, y < h → ∀ x, x < w →
        px[(if 0 < (parseHeader data).height then h - 1 - y else y) * w + x]? =
          some (pixelAt data
            ((parseHeader data).dataOffset + y * (3 * w + savePadding w) + 3 * x)) := by
  have hrs : (w * 3 % 4294967296 + toUInt32 (loadPadding (parseHeader data).width))
      % 4294967296 = 3 * w + savePadding w := by
    rw [loadPadding_eq_savePadding, hw]
    omega
  have hrl : (List.replicate (3 * w + savePadding w) (0 : Byte)).length
      = 3 * w + savePadding w := List.length_replicate _ _
  obtain ⟨st, e, hs, hl, hget⟩ := loadRows_complete w h
    (decide ((parseHeader data).height > 0)) data (parseHeader data).dataOffset
    (List.replicate (3 * w + savePadding w) 0) (vresize img.pixels_ (w * h))
    (vresize_length _ _) (by omega) (by rw [hrl]; omega) (by rw [hrl]; omega)
    (by rw [hrl]; exact hc)
  rw [hrl] at hs hget
  have hh' : toUInt32 (h : Int) = h := by
    rw [← hh]; exact parseHeader_height_natAbs data
  refine ⟨st.2.2, ?_, hl, ?_⟩
  · unfold loadFromBMP
    simp only [readHeader_complete data uninit hlen, hsig, hbpp, hcomp, ne_eq,
      not_true_eq_false, if_false, hw, hh, hh', hrs,
      Nat.mod_eq_of_lt hN]
    have hseek : IFStream.seekg ⟨data, 54, false, false⟩ (parseHeader data).dataOffset
        = ⟨data, (parseHeader data).dataOffset, false, false⟩ := rfl
    rw [hseek, e]
    simp [hs, IFStream.fail]
  · intro y hy x hx
    have := hget y hy x hx
    simpa using this

/-! ## The encoder -/

theorem savePixel_eq (width_ rowIndex : Nat) (pixels : List Pixel) (rb : List Byte) (x : Nat)
    (hpx : rowIndex * width_ + x < pixels.length) (hN : pixels.length ≤ 4294967296)
    (hrb : 3 * x + 2 < rb.length) (hR : rb.length ≤ 4294967296) :
    savePixel width_ rowIndex pixels rb x =
      some (((rb.set (3 * x) (pixels.getD (rowIndex * width_ + x) default).b).set (3 * x + 1)
        (pixels.getD (rowIndex * width_ + x) default).g).set (3 * x + 2)
        (pixels.getD (rowIndex * width_ + x) default).r) := by
  unfold savePixel storeByte
  have e1 : (rowIndex * width_ + x) % 4294967296 = rowIndex * width_ + x :=
    Nat.mod_eq_of_lt (by omega)
  have e2 : x * 3 % 4294967296 = 3 * x := by omega
  have e3 : (3 * x + 1) % 4294967296 = 3 * x + 1 := by omega
  have e4 : (3 * x + 2) % 4294967296 = 3 * x + 2 := by omega
  simp only [e1, e2, e3, e4]
  rw [List.getElem?_eq_getElem hpx]
  have h0 : 3 * x < rb.length := by omega
  have h1 : 3 * x + 1 < rb.length := by omega
  simp [List.getD_eq_getElem?_getD, List.getElem?_eq_getElem hpx, h0, h1, hrb]

theorem saveRowBytes_spec (w rowIndex : Nat) (pixels : List Pixel) (rb : List Byte)
    (hpx : rowIndex * w + w ≤ pixels.length) (hN : pixels.length ≤ 4294967296)
    (hrb : 3 * w ≤ rb.length) (hR : rb.length ≤ 4294967296) :
    ∃ rb', saveRowBytes w rowIndex pixels rb = some rb' ∧ rb'.length = rb.length ∧
      ∀ j, rb'[j]? =
        if j < 3 * w then
          some (pixelByte (pixels.getD (rowIndex * w + j / 3) default) (j % 3))
        else rb[j]? := by
  unfold saveRowBytes
  refine foldlM_range_inv (savePixel w rowIndex pixels)
    (fun x b => b.length = rb.length ∧ ∀ j, b[j]? =
        if j < 3 * x then
          some (pixelByte (pixels.getD (rowIndex * w + j / 3) default) (j % 3))
        else rb[j]?) w rb
    ⟨rfl, fun j => by rw [if_neg (by omega)]⟩ ?_
  intro x b hx ⟨hlen, hget⟩
  refine ⟨_, savePixel_eq w rowIndex pixels b x (by omega) hN (by omega) (by omega), ?_, ?_⟩
  · simp [hlen]
  · intro j
    simp only [List.getElem?_set, List.length_set, hget j]
    by_cases h2 : 3 * x + 2 = j
    · subst h2
      have q : (3 * x + 2) / 3 = x := by omega
      have r : (3 * x + 2) % 3 = 2 := by omega
      have l : 3 * x + 2 < b.length := by omega
      have c : 3 * x + 2 < 3 * (x + 1) := by omega
      simp [q, r, l, c, pixelByte]
    · by_cases h1 : 3 * x + 1 = j
      · subst h1
        have q : (3 * x + 1) / 3 = x := by omega
        have r : (3 * x + 1) % 3 = 1 := by omega
        have l : 3 * x + 1 < b.length := by omega
        have c : 3 * x + 1 < 3 * (x + 1) := by omega
        simp [q, r, l, c, pixelByte]
      · by_cases h0 : 3 * x = j
        · subst h0
          have q : (3 * x) / 3 = x := by omega
          have r : (3 * x) % 3 = 0 := by omega
          have l : 3 * x < b.length := by omega
          have c : 3 * x < 3 * (x + 1) := by omega
          simp [q, r, l, c, pixelByte]
        · simp only [h2, h1, h0, if_false]
          by_cases hj : j < 3 * x
          · rw [if_pos hj, if_pos (by omega)]
          · rw [if_neg hj, if_neg (by omega)]

theorem mul_add_lt_mul (y k n j : Nat) (hy : y < k) (hj : j < n) : y * n + j < k * n := by
  have : (y + 1) * n ≤ k * n := Nat.mul_le_mul_right n hy
  rw [Nat.add_mul, Nat.one_mul] at this
  omega

/-- The row loop of the encoder, started after `hdr` has been written with a
row buffer whose padding bytes are zero: it appends `h` rows of
`rb.length` bytes each. -/
theorem saveRows_spec (w h : Nat) (pixels : List Pixel) (hdr rb : List Byte)
    (hpx : pixels.length = w * h) (hN : w * h ≤ 4294967296)
    (hrb : 3 * w ≤ rb.length) (hR : rb.length ≤ 4294967296)
    (hz : ∀ j, 3 * w ≤ j → j < rb.length → rb[j]? = some 0) :
    ∃ st, saveRows w h pixels (⟨hdr, false⟩, rb) = some st ∧
      ∃ body, st.1 = ⟨hdr ++ body, false⟩ ∧ body.length = h * rb.length ∧
        ∀ y, y < h → ∀ j, j < rb.length →
          body[y * rb.length + j]? = some (rowByte pixels w h y j) := by
  unfold saveRows
  refine foldlM_range_inv (saveRow w h pixels)
    (fun k st => ∃ body, st.1 = ⟨hdr ++ body, false⟩ ∧ body.length = k * rb.length ∧
        (∀ y, y < k → ∀ j, j < rb.length →
          body[y * rb.length + j]? = some (rowByte pixels w h y j)) ∧
        st.2.length = rb.length ∧
        ∀ j, 3 * w ≤ j → j < rb.length → st.2[j]? = some 0)
    h (⟨hdr, false⟩, rb)
    ⟨[], by simp, by simp, fun y hy => absurd hy (by omega), rfl, hz⟩ ?_
    |>.imp fun st hst => ⟨hst.1, hst.2.imp fun body hb => ⟨hb.1, hb.2.1, hb.2.2.1⟩⟩
  rintro k ⟨s1, rb1⟩ hk ⟨body, h1, h2, h3, h4, h5⟩
  simp only at h1 h4 h5
  subst h1
  obtain ⟨rb2, e, hl2, hget⟩ := saveRowBytes_spec w (h - 1 - k) pixels rb1
    (by rw [hpx]; exact rowIndex_bound w h _ (by omega)) (by omega) (by omega) (by omega)
  refine ⟨(⟨hdr ++ (body ++ rb2), false⟩, rb2), ?_, body ++ rb2, rfl, ?_, ?_, by simp only; omega,
    ?_⟩
  · simp only [saveRow, e, Option.map_some', OFStream.write, List.append_assoc]
    rfl
  · rw [List.length_append, h2, hl2, h4, Nat.add_mul, Nat.one_mul]
  · intro y hy j hj
    by_cases hyk : y = k
    · subst hyk
      rw [List.getElem?_append_right (by omega), h2, Nat.add_sub_cancel_left, hget j]
      unfold rowByte
      by_cases hj3 : j < 3 * w
      · rw [if_pos hj3, if_pos hj3]
      · rw [if_neg hj3, if_neg hj3]
        exact h5 j (by omega) hj
    · have hlt : y * rb.length + j < k * rb.length :=
        mul_add_lt_mul y k rb.length j (by omega) hj
      rw [List.getElem?_append_left (by omega)]
      exact h3 y (by omega) j hj
  · intro j hj1 hj2
    simp only
    rw [hget j, if_neg (by omega)]
    exact h5 j hj1 hj2

/-! ## The header on the wire -/

theorem writeHeader_eq (h : BMPHeader) :
    writeHeader ⟨[], false⟩ h = ⟨headerBytes h, false⟩ := by
  simp [writeHeader, OFStream.write, headerBytes, List.append_assoc]

theorem headerBytes_length (h : BMPHeader) : (headerBytes h).length = 54 := by
  simp [headerBytes, leBytes_length]

theorem parseHeader_headerBytes (h : BMPHeader) (body : List Byte) :
    parseHeader (headerBytes h ++ body) =
      { signature := h.signature % 65536
        fileSize := h.fileSize % 4294967296
        reserved := h.reserved % 4294967296
        dataOffset := h.dataOffset % 4294967296
        headerSize := h.headerSize % 4294967296
        width := toInt32 (toUInt32 h.width)
        height := toInt32 (toUInt32 h.height)
        planes := h.planes % 65536
        bitsPerPixel := h.bitsPerPixel % 65536
        compression := h.compression % 4294967296
        imageSize := h.imageSize % 4294967296
        xPixelsPerMeter := toInt32 (toUInt32 h.xPixelsPerMeter)
        yPixelsPerMeter := toInt32 (toUInt32 h.yPixelsPerMeter)
        colorsUsed := h.colorsUsed % 4294967296
        importantColors := h.importantColors % 4294967296 } := by
  have f1 : ((headerBytes h ++ body).drop 0).take 2 = leBytes 2 h.signature := rfl
  have f2 : ((headerBytes h ++ body).drop 2).take 4 = leBytes 4 h.fileSize := rfl
  have f3 : ((headerBytes h ++ body).drop 6).take 4 = leBytes 4 h.reserved := rfl
  have f4 : ((headerBytes h ++ body).drop 10).take 4 = leBytes 4 h.dataOffset := rfl
  have f5 : ((headerBytes h ++ body).drop 14).take 4 = leBytes 4 h.headerSize := rfl
  have f6 : ((headerBytes h ++ body).drop 18).take 4 = leBytes 4 (toUInt32 h.width) := rfl
  have f7 : ((headerBytes h ++ body).drop 22).take 4 = leBytes 4 (toUInt32 h.height) := rfl
  have f8 : ((headerBytes h ++ body).drop 26).take 2 = leBytes 2 h.planes := rfl
  have f9 : ((headerBytes h ++ body).drop 28).take 2 = leBytes 2 h.bitsPerPixel := rfl
  have f10 : ((headerBytes h ++ body).drop 30).take 4 = leBytes 4 h.compression := rfl
  have f11 : ((headerBytes h ++ body).drop 34).take 4 = leBytes 4 h.imageSize := rfl
  have f12 : ((headerBytes h ++ body).drop 38).take 4
      = leBytes 4 (toUInt32 h.xPixelsPerMeter) := rfl
  have f13 : ((headerBytes h ++ body).drop 42).take 4
      = leBytes 4 (toUInt32 h.yPixelsPerMeter) := rfl
  have f14 : ((headerBytes h ++ body).drop 46).take 4 = leBytes 4 h.colorsUsed := rfl
  have f15 : ((headerBytes h ++ body).drop 50).take 4 = leBytes 4 h.importantColors := rfl
  unfold parseHeader
  rw [f1, f2, f3, f4, f5, f6, f7, f8, f9, f10, f11, f12, f13, f14, f15]
  simp only [leVal_leBytes]
  have e4 : 256 ^ 4 = 4294967296 := by norm_num
  have e2 : 256 ^ 2 = 65536 := by norm_num
  simp only [e4, e2, Nat.mod_eq_of_lt (toUInt32_lt _)]

/-- The encoder on a non-empty image whose pixel array has `width_ * height_`
cells, with a pixel count and a row length that fit 32 bits: it returns
`true` and the file is the header followed by `height_` rows. -/
theorem saveToBMP_spec (img : Image) (hw : 0 < img.width_) (hh : 0 < img.height_)
    (hpx : img.pixels_.length = img.width_ * img.height_)
    (hN : img.width_ * img.height_ < 4294967296)
    (hrow : 3 * img.width_ + savePadding img.width_ < 4294967296) :
    ∃ body, saveToBMP true img = some ⟨true, some (headerBytes (saveHeader img) ++ body)⟩ ∧
      body.length = img.height_ * (3 * img.width_ + savePadding img.width_) ∧
      ∀ y, y < img.height_ → ∀ j, j < 3 * img.width_ + savePadding img.width_ →
        body[y * (3 * img.width_ + savePadding img.width_) + j]? =
          some (rowByte img.pixels_ img.width_ img.height_ y j) := by
  have hrs : (img.width_ * 3 % 4294967296 + savePadding img.width_) % 4294967296
      = 3 * img.width_ + savePadding img.width_ := by omega
  have hrl : (List.replicate (3 * img.width_ + savePadding img.width_) (0 : Byte)).length
      = 3 * img.width_ + savePadding img.width_ := List.length_replicate _ _
  obtain ⟨st, e, body, hs, hl, hget⟩ := saveRows_spec img.width_ img.height_ img.pixels_
    (headerBytes (saveHeader img)) (List.replicate (3 * img.width_ + savePadding img.width_) 0)
    hpx (by omega) (by rw [hrl]; omega) (by rw [hrl]; omega)
    (by
      intro j _ hj
      rw [hrl] at hj
      rw [List.getElem?_replicate, if_pos hj])
  rw [hrl] at hl hget
  refine ⟨body, ?_, hl, hget⟩
  have hne : img.isEmpty = false := by
    simp only [Image.isEmpty, Bool.or_eq_false_iff, beq_eq_false_iff_ne]
    omega
  unfold saveToBMP
  simp only [hne, Bool.false_eq_true, if_false, Bool.not_true, writeHeader_eq, hrs, e,
    Option.map_some', hs]
  rfl

/-! ## Encoding, then decoding -/

theorem toUInt32_toInt32 (n : Nat) : toUInt32 (toInt32 n) = n % 4294967296 := by
  have h1 := toUInt32_cast (toInt32 n)
  generalize toUInt32 (toInt32 n) = a at *
  unfold toInt32 at h1
  split at h1 <;> omega

theorem toInt32_of_lt (n : Nat) (h : n < 2147483648) : toInt32 n = (n : Int) := by
  unfold toInt32
  have : n % 4294967296 = n := Nat.mod_eq_of_lt (by omega)
  rw [this, if_pos h]

theorem toInt32_mod (n : Nat) : toInt32 (n % 4294967296) = toInt32 n := by
  unfold toInt32
  rw [Nat.mod_mod]

theorem getD_append_header (hdr body : List Byte) (i : Nat) (hl : hdr.length = 54) :
    (hdr ++ body).getD (54 + i) 0 = body.getD i 0 := by
  rw [List.getD_eq_getElem?_getD, List.getD_eq_getElem?_getD,
    List.getElem?_append_right (by omega), hl, Nat.add_sub_cancel_left]

theorem roundtrip_aux (B : Image) (uninit : BMPHeader) (img : Image)
    (hw : 0 < B.width_) (hh : 0 < B.height_)
    (hpx : B.pixels_.length = B.width_ * B.height_)
    (hN : B.width_ * B.height_ < 4294967296)
    (hrow : 3 * B.width_ + savePadding B.width_ < 4294967296)
    (hh31 : B.height_ < 2147483648) :
    ∃ bytes, saveToBMP true B = some ⟨true, some bytes⟩ ∧
      loadFromBMP uninit (some bytes) img = some (true, B) := by
  obtain ⟨body, hsave, hbl, hbody⟩ := saveToBMP_spec B hw hh hpx hN hrow
  refine ⟨_, hsave, ?_⟩
  have hH := parseHeader_headerBytes (saveHeader B) body
  have hwlt : B.width_ < 4294967296 := by omega
  have hwidth : toUInt32 (parseHeader (headerBytes (saveHeader B) ++ body)).width = B.width_ := by
    rw [hH]
    show toUInt32 (toInt32 (toUInt32 (toInt32 B.width_))) = B.width_
    rw [toUInt32_toInt32, toUInt32_toInt32, Nat.mod_mod, Nat.mod_eq_of_lt hwlt]
  have hheight : (parseHeader (headerBytes (saveHeader B) ++ body)).height = (B.height_ : Int) := by
    rw [hH]
    show toInt32 (toUInt32 (toInt32 B.height_)) = (B.height_ : Int)
    rw [toUInt32_toInt32, toInt32_mod, toInt32_of_lt _ hh31]
  have hoff : (parseHeader (headerBytes (saveHeader B) ++ body)).dataOffset = 54 := by
    rw [hH]; rfl
  obtain ⟨px, hload, hpl, hget⟩ := loadFromBMP_complete uninit
    (headerBytes (saveHeader B) ++ body) img
    (by rw [List.length_append, headerBytes_length]; omega)
    (by rw [hH]; rfl) (by rw [hH]; rfl) (by rw [hH]; rfl)
    B.width_ B.height_ hwidth (by rw [hheight]; rfl) hN hrow
    (by rw [hoff, List.length_append, headerBytes_length, hbl])
  rw [hload]
  have hpos : (0 : Int) < (parseHeader (headerBytes (saveHeader B) ++ body)).height := by
    rw [hheight]; omega
  simp only [hpos, if_true, hoff] at hget
  have : px = B.pixels_ := by
    apply List.ext_getElem?
    intro i
    by_cases hi : i < B.width_ * B.height_
    · obtain ⟨r, x, hr, hx, rfl⟩ : ∃ r x, r < B.height_ ∧ x < B.width_ ∧ i = r * B.width_ + x :=
        ⟨i / B.width_, i % B.width_,
          by rw [Nat.div_lt_iff_lt_mul hw, Nat.mul_comm]; exact hi, Nat.mod_lt _ hw,
          by rw [Nat.mul_comm]; exact (Nat.div_add_mod i B.width_).symm⟩
      have hy : B.height_ - 1 - r < B.height_ := by omega
      have key := hget (B.height_ - 1 - r) hy x hx
      have hyy : B.height_ - 1 - (B.height_ - 1 - r) = r := by omega
      rw [hyy] at key
      have hil : r * B.width_ + x < B.pixels_.length := by omega
      rw [key, List.getElem?_eq_getElem hil]
      congr 1
      have hb : ∀ c, c < 3 →
          (headerBytes (saveHeader B) ++ body).getD
            (54 + (B.height_ - 1 - r) * (3 * B.width_ + savePadding B.width_) + 3 * x + c) 0
            = pixelByte B.pixels_[r * B.width_ + x] c := by
        intro c hc
        have hj : 3 * x + c < 3 * B.width_ + savePadding B.width_ := by omega
        have hbb := hbody (B.height_ - 1 - r) hy (3 * x + c) hj
        have hidx : 54 + (B.height_ - 1 - r) * (3 * B.width_ + savePadding B.width_) + 3 * x + c
            = 54 + ((B.height_ - 1 - r) * (3 * B.width_ + savePadding B.width_) + (3 * x + c)) := by
          omega
        rw [hidx, getD_append_header _ _ _ (headerBytes_length _), List.getD_eq_getElem?_getD,
          hbb]
        simp only [Option.getD_some, rowByte]
        have h3 : 3 * x + c < 3 * B.width_ := by omega
        have hq : (3 * x + c) / 3 = x := by omega
        have hm : (3 * x + c) % 3 = c := by omega
        rw [if_pos h3, hq, hm, hyy, List.getD_eq_getElem?_getD, List.getElem?_eq_getElem hil]
        rfl
      have h0 := hb 0 (by omega)
      have h1 := hb 1 (by omega)
      have h2 := hb 2 (by omega)
      simp only [pixelByte, Nat.add_zero] at h0 h1 h2
      simp only [pixelAt]
      rw [h0, h1, h2]
      rfl
    · rw [List.getElem?_eq_none (by omega), List.getElem?_eq_none (by omega)]
  rw [this]

/-! ## C1: encoding then decoding -/

/-- C1, counterexample: the image of width 1 and height 2^31 + 1 is non-empty
and has `width_ * height_` pixels; `saveToBMP` writes it and returns `true`,
and `loadFromBMP` on the bytes written returns `true` with an image of
height 2^31 - 1 (the height field is a signed 32-bit value, and
2^31 + 1 reads back as -(2^31 - 1)), so the image decoded is not the one
encoded. -/
theorem roundtrip_fails_on_tallImage :
    0 < tallImage.width_ ∧ 0 < tallImage.height_ ∧ tallImage.height_ = 2147483649 ∧
    tallImage.pixels_.length = tallImage.width_ * tallImage.height_ ∧
    ∃ bytes, saveToBMP true tallImage = some ⟨true, some bytes⟩ ∧
      ∀ uninit img, ∃ px,
        loadFromBMP uninit (some bytes) img = some (true, ⟨1, 2147483647, px⟩) ∧
        loadFromBMP uninit (some bytes) img ≠ some (true, tallImage) := by
  have hlen : tallImage.pixels_.length = tallImage.width_ * tallImage.height_ :=
    List.length_replicate _ _
  refine ⟨by decide, by decide, rfl, hlen, ?_⟩
  have hsp : savePadding 1 = 1 := by decide
  obtain ⟨body, hsave, hbl, -⟩ := saveToBMP_spec tallImage (by decide) (by decide) hlen
    (by decide) (by decide)
  refine ⟨_, hsave, fun uninit img => ?_⟩
  have hH := parseHeader_headerBytes (saveHeader tallImage) body
  have hbl' : body.length = 2147483649 * 4 := hbl
  obtain ⟨px, hload, -, -⟩ := loadFromBMP_complete uninit
    (headerBytes (saveHeader tallImage) ++ body) img
    (by rw [List.length_append, headerBytes_length]; omega)
    (by rw [hH]; rfl) (by rw [hH]; rfl) (by rw [hH]; rfl)
    1 2147483647 (by rw [hH]; decide) (by rw [hH]; decide) (by decide) (by decide)
    (by
      rw [hH, List.length_append, headerBytes_length, hbl', hsp]
      decide)
  refine ⟨px, hload, ?_⟩
  rw [hload]
  intro h
  have h3 : (2147483647 : Nat) = 2147483649 :=
    congrArg (fun q : Bool × Image => q.2.height_) (Option.some.inj h)
  exact absurd h3 (by decide)

/-- C1, amended: for every image with `0 < width_`, `0 < height_ < 2^31`,
a pixel array of `width_ * height_ < 2^32` cells and a row length
`3 * width_ + padding < 2^31`, `saveToBMP` returns `true` and writes a
stream on which `loadFromBMP` (whatever the target image and the header
object held before) returns `true` and leaves exactly the image that was
saved: same width, same height, same pixels. -/
theorem saveToBMP_loadFromBMP_roundtrip (B : Image) (uninit : BMPHeader) (img : Image)
    (hw : 0 < B.width_) (hh : 0 < B.height_) (hh31 : B.height_ < 2147483648)
    (hpx : B.pixels_.length = B.width_ * B.height_)
    (hN : B.width_ * B.height_ < 4294967296)
    (hrow : 3 * B.width_ + (4 - 3 * B.width_ % 4) % 4 < 2147483648) :
    ∃ bytes, saveToBMP true B = some ⟨true, some bytes⟩ ∧
      loadFromBMP uninit (some bytes) img = some (true, B) :=
  roundtrip_aux B uninit img hw hh hpx hN (by rw [savePadding_eq]; omega) hh31

/-- C1, witness: the amended round trip at a 2 x 2 image. -/
theorem saveToBMP_loadFromBMP_roundtrip_witness :
    (0 < sampleImage.width_ ∧ 0 < sampleImage.height_ ∧ sampleImage.height_ < 2147483648 ∧
      sampleImage.pixels_.length = sampleImage.width_ * sampleImage.height_ ∧
      sampleImage.width_ * sampleImage.height_ < 4294967296 ∧
      3 * sampleImage.width_ + (4 - 3 * sampleImage.width_ % 4) % 4 < 2147483648) ∧
    ∃ bytes, saveToBMP true sampleImage = some ⟨true, some bytes⟩ ∧
      loadFromBMP zeroHeader (some bytes) emptyImage = some (true, sampleImage) :=
  ⟨by decide,
    saveToBMP_loadFromBMP_roundtrip sampleImage zeroHeader emptyImage (by decide) (by decide)
      (by decide) (by decide) (by decide) (by decide)⟩

/-! ## C2: rejected headers -/

/-- C2: when the header that `loadFromBMP` has read has a signature other
than `0x4D42`, or `bitsPerPixel` other than 24, or `compression` other than
0, the call returns `false` and the image is exactly the one before the
call: same width, same height, same pixel array. On a stream of 54 bytes or
more those three fields are the little-endian values of bytes 0-1, 28-29 and
30-33. -/
theorem loadFromBMP_rejects_unchanged (uninit : BMPHeader) (data : List Byte) (img : Image)
    (h : (readHeader (IFStream.open data) uninit).2.signature ≠ 0x4D42 ∨
      (readHeader (IFStream.open data) uninit).2.bitsPerPixel ≠ 24 ∨
      (readHeader (IFStream.open data) uninit).2.compression ≠ 0) :
    loadFromBMP uninit (some data) img = some (false, img) ∧
    (54 ≤ data.length →
      (readHeader (IFStream.open data) uninit).2.signature = leVal (data.take 2) ∧
      (readHeader (IFStream.open data) uninit).2.bitsPerPixel = leVal ((data.drop 28).take 2) ∧
      (readHeader (IFStream.open data) uninit).2.compression
        = leVal ((data.drop 30).take 4)) := by
  refine ⟨?_, fun hlen => ?_⟩
  · unfold loadFromBMP
    by_cases h1 : (readHeader (IFStream.open data) uninit).2.signature = 0x4D42
    · by_cases h2 : (readHeader (IFStream.open data) uninit).2.bitsPerPixel = 24
      · by_cases h3 : (readHeader (IFStream.open data) uninit).2.compression = 0
        · rcases h with h | h | h
          · exact absurd h1 h
          · exact absurd h2 h
          · exact absurd h3 h
        · simp only [h1, h2, h3, ne_eq, not_true_eq_false, not_false_eq_true, if_true, if_false]
      · simp only [h1, h2, ne_eq, not_true_eq_false, not_false_eq_true, if_true, if_false]
    · simp only [h1, ne_eq, not_false_eq_true, if_true]
  · rw [readHeader_complete data uninit hlen]
    exact ⟨rfl, rfl, rfl⟩

/-- C2, witness: a stream with the signature bytes `"XM"` is rejected and a
2 x 2 target image is left as it was. -/
theorem loadFromBMP_rejects_unchanged_witness :
    (readHeader (IFStream.open badSignatureFile) zeroHeader).2.signature ≠ 0x4D42 ∧
    loadFromBMP zeroHeader (some badSignatureFile) sampleImage = some (false, sampleImage) :=
  ⟨by decide,
    (loadFromBMP_rejects_unchanged zeroHeader badSignatureFile sampleImage
      (Or.inl (by decide))).1⟩

/-! ## C3 and C4: row order and channel order of the decoder -/

theorem getElem?_eq_some_getD (data : List Byte) (i : Nat) (h : i < data.length) :
    data[i]? = some (data.getD i 0) := by
  rw [List.getD_eq_getElem?_getD, List.getElem?_eq_getElem h]
  rfl

/-- The decoder on a complete stream, in terms of the header it reads: the
three bytes at `dataOffset + y * stride + 3 * x` are the blue, green and red
channel of the cell at column `x` of buffer row `height_ - 1 - y` when the
header height is positive, of buffer row `y` otherwise. -/
theorem loadFromBMP_rows (uninit : BMPHeader) (data : List Byte) (img : Image) (w h : Nat)
    (hlen : 54 ≤ data.length)
    (hsig : (readHeader (IFStream.open data) uninit).2.signature = 0x4D42)
    (hbpp : (readHeader (IFStream.open data) uninit).2.bitsPerPixel = 24)
    (hcomp : (readHeader (IFStream.open data) uninit).2.compression = 0)
    (hw : toUInt32 (readHeader (IFStream.open data) uninit).2.width = w)
    (hh : (readHeader (IFStream.open data) uninit).2.height.natAbs = h)
    (hN : w * h < 4294967296) (hrow : 3 * w + (4 - 3 * w % 4) % 4 < 4294967296)
    (hc : (readHeader (IFStream.open data) uninit).2.dataOffset
      + h * (3 * w + (4 - 3 * w % 4) % 4) ≤ data.length) :
    ∃ px, loadFromBMP uninit (some data) img = some (true, ⟨w, h, px⟩) ∧
      px.length = w * h ∧
      ∀ x y, x < w → y < h → ∃ r g b : Byte,
        data[(readHeader (IFStream.open data) uninit).2.dataOffset
          + y * (3 * w + (4 - 3 * w % 4) % 4) + 3 * x]? = some b ∧
        data[(readHeader (IFStream.open data) uninit).2.dataOffset
          + y * (3 * w + (4 - 3 * w % 4) % 4) + 3 * x + 1]? = some g ∧
        data[(readHeader (IFStream.open data) uninit).2.dataOffset
          + y * (3 * w + (4 - 3 * w % 4) % 4) + 3 * x + 2]? = some r ∧
        px[(if 0 < (readHeader (IFStream.open data) uninit).2.height then h - 1 - y else y) * w
          + x]? = some ⟨r, g, b⟩ := by
  rw [readHeader_complete data uninit hlen] at hsig hbpp hcomp hw hh hc ⊢
  simp only at hsig hbpp hcomp hw hh hc ⊢
  rw [← savePadding_eq] at hrow hc ⊢
  obtain ⟨px, hload, hpl, hget⟩ := loadFromBMP_complete uninit data img hlen hsig hbpp hcomp
    w h hw hh hN hrow hc
  refine ⟨px, hload, hpl, fun x y hx hy => ?_⟩
  have hlt : y * (3 * w + savePadding w) + (3 * x + 2) < h * (3 * w + savePadding w) :=
    mul_add_lt_mul y h _ _ hy (by omega)
  refine ⟨_, _, _, getElem?_eq_some_getD data _ (by omega),
    getElem?_eq_some_getD data _ (by omega), getElem?_eq_some_getD data _ (by omega), ?_⟩
  rw [hget y hy x hx]
  rfl

theorem loadPixel_nil (w ri : Nat) (rb : List Byte) (x : Nat) :
    loadPixel w ri rb [] x = none := by
  simp [loadPixel]

theorem loadRowPixels_nil (w ri : Nat) (rb : List Byte) (hw : 0 < w) :
    loadRowPixels w ri rb [] = none := by
  obtain ⟨w', rfl⟩ : ∃ w', w = w' + 1 := ⟨w - 1, by omega⟩
  unfold loadRowPixels
  rw [List.range_succ_eq_map, List.foldlM_cons, loadPixel_nil]
  rfl

/-- With an empty pixel array, a positive width and a positive height the
first pass of the decoder's inner loop indexes outside the array. -/
theorem loadRows_nil (w h : Nat) (bu : Bool) (s : IFStream) (rb : List Byte)
    (hw : 0 < w) (hh : 0 < h) : loadRows w h bu (s, rb, []) = none := by
  obtain ⟨h', rfl⟩ : ∃ h', h = h' + 1 := ⟨h - 1, by omega⟩
  unfold loadRows
  rw [List.range_succ_eq_map, List.foldlM_cons]
  simp only [loadRow, loadRowPixels_nil w _ _ hw, Option.map_none']
  rfl

theorem bigSquareFile_length : bigSquareFile.length = 12884901942 := by
  unfold bigSquareFile
  rw [List.length_append, headerBytes_length, List.length_replicate]

theorem bigSquareFile_header (uninit : BMPHeader) :
    readHeader (IFStream.open bigSquareFile) uninit
      = (⟨bigSquareFile, 54, false, false⟩, bigSquareHeader) := by
  rw [readHeader_complete bigSquareFile uninit (by rw [bigSquareFile_length]; decide)]
  congr 1

/-- C3, counterexample: a complete, valid 24-bit uncompressed stream with
header width 65536 and header height +65536 (54 header bytes, then all 65536
rows of 3 * 65536 bytes). The pixel count 65536 * 65536 is 0 modulo 2^32, so
`loadFromBMP` resizes the pixel array to 0 cells and its first store
`pixels_[pixelIndex]` is outside the array: the run is undefined, no buffer
pixel receives the bytes of the file. -/
theorem loadFromBMP_undefined_on_bigSquareFile :
    54 ≤ bigSquareFile.length ∧
    (∀ uninit, (readHeader (IFStream.open bigSquareFile) uninit).2.signature = 0x4D42 ∧
      (readHeader (IFStream.open bigSquareFile) uninit).2.bitsPerPixel = 24 ∧
      (readHeader (IFStream.open bigSquareFile) uninit).2.compression = 0 ∧
      (readHeader (IFStream.open bigSquareFile) uninit).2.width = 65536 ∧
      (readHeader (IFStream.open bigSquareFile) uninit).2.height = 65536 ∧
      (readHeader (IFStream.open bigSquareFile) uninit).2.dataOffset
        + 65536 * (3 * 65536 + (4 - 3 * 65536 % 4) % 4) ≤ bigSquareFile.length) ∧
    (∀ img : Image, (vresize img.pixels_ (65536 * 65536 % 4294967296)).length = 0) ∧
    ∀ uninit img, loadFromBMP uninit (some bigSquareFile) img = none := by
  refine ⟨by rw [bigSquareFile_length]; decide, fun uninit => ?_,
    fun img => by rw [vresize_length], fun uninit img => ?_⟩
  · rw [bigSquareFile_header, bigSquareFile_length]
    decide
  · have hv : vresize img.pixels_ (65536 * 65536 % 4294967296) = [] := by
      simp [vresize]
    have hsig : bigSquareHeader.signature = 19778 := rfl
    have hbpp : bigSquareHeader.bitsPerPixel = 24 := rfl
    have hcomp : bigSquareHeader.compression = 0 := rfl
    have hoff : bigSquareHeader.dataOffset = 54 := rfl
    have hW : toUInt32 bigSquareHeader.width = 65536 := by decide
    have hH : toUInt32 (bigSquareHeader.height.natAbs : Int) = 65536 := by decide
    unfold loadFromBMP
    simp only [bigSquareFile_header, hsig, hbpp, hcomp, hoff, hW, hH, ne_eq, not_true_eq_false,
      if_false, hv]
    rw [loadRows_nil _ _ _ _ _ (by decide) (by decide)]
    rfl

theorem le_mul_of_pos (w h : Nat) (hh : 0 < h) : w ≤ w * h :=
  Nat.le_mul_of_pos_right w hh

/-- C3, amended: for every stream of at least 54 bytes whose header passes
the three checks, with header width `w > 0` and positive header height `h`
such that `w * h < 2^32` and `stride = 3 * w + (4 - 3 * w % 4) % 4 < 2^31`,
and that holds all `h` rows from `dataOffset` on, `loadFromBMP` returns
`true` with a `w` x `h` buffer in which, for every `x < w` and file row
`y < h`, the cell at column `x` of row `h - 1 - y` has
`b = byte[dataOffset + y * stride + 3 * x]`, `g` the next byte and `r` the
one after. In particular the 1 x 1 file whose row is (10, 20, 30) decodes
to the pixel r = 30, g = 20, b = 10. -/
theorem loadFromBMP_bottomUp (uninit : BMPHeader) (data : List Byte) (img : Image) (w h : Nat)
    (hlen : 54 ≤ data.length)
    (hsig : (readHeader (IFStream.open data) uninit).2.signature = 0x4D42)
    (hbpp : (readHeader (IFStream.open data) uninit).2.bitsPerPixel = 24)
    (hcomp : (readHeader (IFStream.open data) uninit).2.compression = 0)
    (hw : (readHeader (IFStream.open data) uninit).2.width = (w : Int)) (hwpos : 0 < w)
    (hh : (readHeader (IFStream.open data) uninit).2.height = (h : Int)) (hhpos : 0 < h)
    (hN : w * h < 4294967296) (hrow : 3 * w + (4 - 3 * w % 4) % 4 < 2147483648)
    (hc : (readHeader (IFStream.open data) uninit).2.dataOffset
      + h * (3 * w + (4 - 3 * w % 4) % 4) ≤ data.length) :
    (∃ px, loadFromBMP uninit (some data) img = some (true, ⟨w, h, px⟩) ∧
      px.length = w * h ∧
      ∀ x y, x < w → y < h → ∃ r g b : Byte,
        data[(readHeader (IFStream.open data) uninit).2.dataOffset
          + y * (3 * w + (4 - 3 * w % 4) % 4) + 3 * x]? = some b ∧
        data[(readHeader (IFStream.open data) uninit).2.dataOffset
          + y * (3 * w + (4 - 3 * w % 4) % 4) + 3 * x + 1]? = some g ∧
        data[(readHeader (IFStream.open data) uninit).2.dataOffset
          + y * (3 * w + (4 - 3 * w % 4) % 4) + 3 * x + 2]? = some r ∧
        px[(h - 1 - y) * w + x]? = some ⟨r, g, b⟩) ∧
    loadFromBMP zeroHeader (some onePixelFile) emptyImage
      = some (true, ⟨1, 1, [⟨30, 20, 10⟩]⟩) := by
  refine ⟨?_, by decide⟩
  have hwlt : 0 < w ∧ w < 4294967296 := ⟨hwpos, lt_of_le_of_lt (le_mul_of_pos w h hhpos) hN⟩
  obtain ⟨px, hload, hpl, hget⟩ := loadFromBMP_rows uninit data img w h hlen hsig hbpp hcomp
    (by rw [hw]; exact toUInt32_natCast w hwlt.2) (by rw [hh]; rfl) hN (by omega) hc
  refine ⟨px, hload, hpl, fun x y hx hy => ?_⟩
  obtain ⟨r, g, b, h1, h2, h3, h4⟩ := hget x y hx hy
  have hpos : (0 : Int) < (readHeader (IFStream.open data) uninit).2.height := by
    rw [hh]; omega
  rw [if_pos hpos] at h4
  exact ⟨r, g, b, h1, h2, h3, h4⟩

/-- C3, witness: the 2 x 2 bottom-up file. Its first file row (9, 8, 7),
(12, 11, 10) fills the last buffer row. -/
theorem loadFromBMP_bottomUp_witness :
    (54 ≤ sampleFile.length ∧
      (readHeader (IFStream.open sampleFile) zeroHeader).2.signature = 0x4D42 ∧
      (readHeader (IFStream.open sampleFile) zeroHeader).2.bitsPerPixel = 24 ∧
      (readHeader (IFStream.open sampleFile) zeroHeader).2.compression = 0 ∧
      (readHeader (IFStream.open sampleFile) zeroHeader).2.width = 2 ∧
      (readHeader (IFStream.open sampleFile) zeroHeader).2.height = 2) ∧
    ∃ px, loadFromBMP zeroHeader (some sampleFile) emptyImage = some (true, ⟨2, 2, px⟩) ∧
      px[(2 - 1 - 0) * 2 + 1]? = some ⟨10, 11, 12⟩ := by
  refine ⟨by decide, ?_⟩
  obtain ⟨⟨px, hload, -, hget⟩, -⟩ := loadFromBMP_bottomUp zeroHeader sampleFile emptyImage 2 2
    (by decide) (by decide) (by decide) (by decide) (by decide) (by decide) (by decide)
    (by decide) (by decide) (by decide) (by decide)
  refine ⟨px, hload, ?_⟩
  obtain ⟨r, g, b, h1, h2, h3, h4⟩ := hget 1 0 (by decide) (by decide)
  have e1 : some b = some (12 : Byte) := h1.symm.trans (by decide)
  have e2 : some g = some (11 : Byte) := h2.symm.trans (by decide)
  have e3 : some r = some (10 : Byte) := h3.symm.trans (by decide)
  rw [h4, Option.some.inj e1, Option.some.inj e2, Option.some.inj e3]

theorem bigTopDownFile_length : bigTopDownFile.length = 12884901942 := by
  unfold bigTopDownFile
  rw [List.length_append, headerBytes_length, List.length_replicate]

theorem bigTopDownFile_header (uninit : BMPHeader) :
    readHeader (IFStream.open bigTopDownFile) uninit
      = (⟨bigTopDownFile, 54, false, false⟩, bigTopDownHeader) := by
  rw [readHeader_complete bigTopDownFile uninit (by rw [bigTopDownFile_length]; decide)]
  congr 1

/-- C4, counterexample: a complete, valid stream with header width 65536 and
header height -65536 (54 header bytes, then all 65536 rows). The pixel count
is 0 modulo 2^32, `loadFromBMP` resizes the pixel array to 0 cells and the
store for file row 0, column 0 is outside the array: the run is undefined and
produces no buffer of height 65536. -/
theorem loadFromBMP_undefined_on_bigTopDownFile :
    54 ≤ bigTopDownFile.length ∧
    (∀ uninit, (readHeader (IFStream.open bigTopDownFile) uninit).2.signature = 0x4D42 ∧
      (readHeader (IFStream.open bigTopDownFile) uninit).2.bitsPerPixel = 24 ∧
      (readHeader (IFStream.open bigTopDownFile) uninit).2.compression = 0 ∧
      (readHeader (IFStream.open bigTopDownFile) uninit).2.width = 65536 ∧
      (readHeader (IFStream.open bigTopDownFile) uninit).2.height = -65536 ∧
      (readHeader (IFStream.open bigTopDownFile) uninit).2.dataOffset
        + 65536 * (3 * 65536 + (4 - 3 * 65536 % 4) % 4) ≤ bigTopDownFile.length) ∧
    (∀ img : Image, (vresize img.pixels_ (65536 * 65536 % 4294967296)).length = 0) ∧
    ∀ uninit img, loadFromBMP uninit (some bigTopDownFile) img = none := by
  refine ⟨by rw [bigTopDownFile_length]; decide, fun uninit => ?_,
    fun img => by rw [vresize_length], fun uninit img => ?_⟩
  · rw [bigTopDownFile_header, bigTopDownFile_length]
    decide
  · have hv : vresize img.pixels_ (65536 * 65536 % 4294967296) = [] := by
      simp [vresize]
    have hsig : bigTopDownHeader.signature = 19778 := rfl
    have hbpp : bigTopDownHeader.bitsPerPixel = 24 := rfl
    have hcomp : bigTopDownHeader.compression = 0 := rfl
    have hoff : bigTopDownHeader.dataOffset = 54 := rfl
    have hW : toUInt32 bigTopDownHeader.width = 65536 := by decide
    have hH : toUInt32 (bigTopDownHeader.height.natAbs : Int) = 65536 := by decide
    unfold loadFromBMP
    simp only [bigTopDownFile_header, hsig, hbpp, hcomp, hoff, hW, hH, ne_eq,
      not_true_eq_false, if_false, hv]
    rw [loadRows_nil _ _ _ _ _ (by decide) (by decide)]
    rfl

/-- C4, amended: for every stream of at least 54 bytes whose header passes
the three checks, with header width `w > 0` and negative header height `-h`
(`0 < h < 2^31`) such that `w * h < 2^32` and
`stride = 3 * w + (4 - 3 * w % 4) % 4 < 2^31`, and that holds all `h` rows
from `dataOffset` on, `loadFromBMP` returns `true` with a buffer of width `w`
and height `h` in which file row `y` fills buffer row `y`, for every
`y < h`: the cell at column `x` of row `y` has
`b = byte[dataOffset + y * stride + 3 * x]`, `g` the next byte and `r` the
one after. -/
theorem loadFromBMP_topDown (uninit : BMPHeader) (data : List Byte) (img : Image) (w h : Nat)
    (hlen : 54 ≤ data.length)
    (hsig : (readHeader (IFStream.open data) uninit).2.signature = 0x4D42)
    (hbpp : (readHeader (IFStream.open data) uninit).2.bitsPerPixel = 24)
    (hcomp : (readHeader (IFStream.open data) uninit).2.compression = 0)
    (hw : (readHeader (IFStream.open data) uninit).2.width = (w : Int)) (hwpos : 0 < w)
    (hh : (readHeader (IFStream.open data) uninit).2.height = -(h : Int)) (hhpos : 0 < h)
    (hh31 : h < 2147483648)
    (hN : w * h < 4294967296) (hrow : 3 * w + (4 - 3 * w % 4) % 4 < 2147483648)
    (hc : (readHeader (IFStream.open data) uninit).2.dataOffset
      + h * (3 * w + (4 - 3 * w % 4) % 4) ≤ data.length) :
    ∃ px, loadFromBMP uninit (some data) img = some (true, ⟨w, h, px⟩) ∧
      px.length = w * h ∧
      ∀ x y, x < w → y < h → ∃ r g b : Byte,
        data[(readHeader (IFStream.open data) uninit).2.dataOffset
          + y * (3 * w + (4 - 3 * w % 4) % 4) + 3 * x]? = some b ∧
        data[(readHeader (IFStream.open data) uninit).2.dataOffset
          + y * (3 * w + (4 - 3 * w % 4) % 4) + 3 * x + 1]? = some g ∧
        data[(readHeader (IFStream.open data) uninit).2.dataOffset
          + y * (3 * w + (4 - 3 * w % 4) % 4) + 3 * x + 2]? = some r ∧
        px[y * w + x]? = some ⟨r, g, b⟩ := by
  have hwlt : 0 < w ∧ w < 4294967296 := ⟨hwpos, lt_of_le_of_lt (le_mul_of_pos w h hhpos) hN⟩
  obtain ⟨px, hload, hpl, hget⟩ := loadFromBMP_rows uninit data img w h hlen hsig hbpp hcomp
    (by rw [hw]; exact toUInt32_natCast w hwlt.2) (by rw [hh]; omega) hN (by omega) hc
  refine ⟨px, hload, hpl, fun x y hx hy => ?_⟩
  obtain ⟨r, g, b, h1, h2, h3, h4⟩ := hget x y hx hy
  have hneg : ¬ (0 : Int) < (readHeader (IFStream.open data) uninit).2.height := by
    rw [hh]; omega
  rw [if_neg hneg] at h4
  exact ⟨r, g, b, h1, h2, h3, h4⟩

/-- C4, witness: the 2 x 2 top-down file. Its first file row (9, 8, 7),
(12, 11, 10) fills buffer row 0. -/
theorem loadFromBMP_topDown_witness :
    (54 ≤ topDownFile.length ∧
      (readHeader (IFStream.open topDownFile) zeroHeader).2.signature = 0x4D42 ∧
      (readHeader (IFStream.open topDownFile) zeroHeader).2.bitsPerPixel = 24 ∧
      (readHeader (IFStream.open topDownFile) zeroHeader).2.compression = 0 ∧
      (readHeader (IFStream.open topDownFile) zeroHeader).2.width = 2 ∧
      (readHeader (IFStream.open topDownFile) zeroHeader).2.height = -2) ∧
    ∃ px, loadFromBMP zeroHeader (some topDownFile) emptyImage = some (true, ⟨2, 2, px⟩) ∧
      px[0 * 2 + 1]? = some ⟨10, 11, 12⟩ := by
  refine ⟨by decide, ?_⟩
  obtain ⟨px, hload, -, hget⟩ := loadFromBMP_topDown zeroHeader topDownFile emptyImage 2 2
    (by decide) (by decide) (by decide) (by decide) (by decide) (by decide) (by decide)
    (by decide) (by decide) (by decide) (by decide) (by decide)
  refine ⟨px, hload, ?_⟩
  obtain ⟨r, g, b, h1, h2, h3, h4⟩ := hget 1 0 (by decide) (by decide)
  have e1 : some b = some (12 : Byte) := h1.symm.trans (by decide)
  have e2 : some g = some (11 : Byte) := h2.symm.trans (by decide)
  have e3 : some r = some (10 : Byte) := h3.symm.trans (by decide)
  rw [h4, Option.some.inj e1, Option.some.inj e2, Option.some.inj e3]

/-! ## C5: the header written by the encoder -/

/-- C5, counterexample: the image of width 1 and height 2^30 is non-empty and
has `width_ * height_` pixels; its rows take 4 bytes each, so `saveToBMP`
emits 54 + 2^32 bytes, but the `fileSize` field it writes is 54 and the
`imageSize` field is 0 (both are computed modulo 2^32), not
`54 + (3w + padding) * h` and `(3w + padding) * h`. -/
theorem saveToBMP_fileSize_wraps_on_columnImage :
    0 < columnImage.width_ ∧ 0 < columnImage.height_ ∧
    columnImage.pixels_.length = columnImage.width_ * columnImage.height_ ∧
    54 + (3 * columnImage.width_ + (4 - 3 * columnImage.width_ % 4) % 4) * columnImage.height_
      = 4294967350 ∧
    ∃ bytes, saveToBMP true columnImage = some ⟨true, some bytes⟩ ∧
      bytes.length = 4294967350 ∧ (parseHeader bytes).fileSize = 54 ∧
      (parseHeader bytes).imageSize = 0 := by
  have hlen : columnImage.pixels_.length = columnImage.width_ * columnImage.height_ :=
    List.length_replicate _ _
  refine ⟨by decide, by decide, hlen, by decide, ?_⟩
  obtain ⟨body, hsave, hbl, -⟩ := saveToBMP_spec columnImage (by decide) (by decide) hlen
    (by decide) (by decide)
  have hbl' : body.length = 4294967296 := hbl.trans (by decide)
  refine ⟨_, hsave, ?_, ?_, ?_⟩
  · rw [List.length_append, headerBytes_length, hbl']
  · rw [parseHeader_headerBytes]
    decide
  · rw [parseHeader_headerBytes]
    decide

theorem saveHeader_eq (img : Image) (hw : 0 < img.width_) (hh : 0 < img.height_)
    (hfs : 54 + (3 * img.width_ + (4 - 3 * img.width_ % 4) % 4) * img.height_ < 4294967296) :
    saveHeader img =
      { signature := 0x4D42
        fileSize := 54 + (3 * img.width_ + (4 - 3 * img.width_ % 4) % 4) * img.height_
        reserved := 0, dataOffset := 54, headerSize := 40
        width := (img.width_ : Int), height := (img.height_ : Int)
        planes := 1, bitsPerPixel := 24, compression := 0
        imageSize := (3 * img.width_ + (4 - 3 * img.width_ % 4) % 4) * img.height_
        xPixelsPerMeter := 2835, yPixelsPerMeter := 2835
        colorsUsed := 0, importantColors := 0 } := by
  have h1 : 3 * img.width_ + (4 - 3 * img.width_ % 4) % 4
      ≤ (3 * img.width_ + (4 - 3 * img.width_ % 4) % 4) * img.height_ :=
    le_mul_of_pos _ _ hh
  have h2 : 3 * img.height_
      ≤ (3 * img.width_ + (4 - 3 * img.width_ % 4) % 4) * img.height_ :=
    Nat.mul_le_mul_right _ (by omega)
  have hrs : (img.width_ * 3 % 4294967296 + savePadding img.width_) % 4294967296
      = 3 * img.width_ + (4 - 3 * img.width_ % 4) % 4 := by
    rw [savePadding_eq]; omega
  unfold saveHeader
  simp only [hrs]
  rw [Nat.mod_eq_of_lt (by omega :
      (3 * img.width_ + (4 - 3 * img.width_ % 4) % 4) * img.height_ < 4294967296),
    Nat.mod_eq_of_lt hfs, toInt32_of_lt _ (by omega), toInt32_of_lt _ (by omega)]

/-- C5, amended: for every non-empty image whose pixel array has
`width_ * height_` cells and for which `54 + (3w + padding) * h < 2^32`,
`saveToBMP` returns `true`; the first 54 bytes it emits are, little-endian
and in this order, signature `0x4D42` (the bytes 'B', 'M'),
fileSize = 54 + (3w + padding) * h, reserved = 0, dataOffset = 54,
headerSize = 40, width = w, height = +h, planes = 1, bitsPerPixel = 24,
compression = 0, imageSize = (3w + padding) * h, xPixelsPerMeter = 2835,
yPixelsPerMeter = 2835, colorsUsed = 0, importantColors = 0; and the number
of bytes emitted is the value of the fileSize field. -/
theorem saveToBMP_header (img : Image) (hw : 0 < img.width_) (hh : 0 < img.height_)
    (hpx : img.pixels_.length = img.width_ * img.height_)
    (hfs : 54 + (3 * img.width_ + (4 - 3 * img.width_ % 4) % 4) * img.height_ < 4294967296) :
    ∃ bytes, saveToBMP true img = some ⟨true, some bytes⟩ ∧
      bytes.take 54 = headerBytes
        { signature := 0x4D42
          fileSize := 54 + (3 * img.width_ + (4 - 3 * img.width_ % 4) % 4) * img.height_
          reserved := 0, dataOffset := 54, headerSize := 40
          width := (img.width_ : Int), height := (img.height_ : Int)
          planes := 1, bitsPerPixel := 24, compression := 0
          imageSize := (3 * img.width_ + (4 - 3 * img.width_ % 4) % 4) * img.height_
          xPixelsPerMeter := 2835, yPixelsPerMeter := 2835
          colorsUsed := 0, importantColors := 0 } ∧
      bytes.take 2 = [66, 77] ∧
      bytes.length = 54 + (3 * img.width_ + (4 - 3 * img.width_ % 4) % 4) * img.height_ := by
  have h1 : 3 * img.width_ + (4 - 3 * img.width_ % 4) % 4
      ≤ (3 * img.width_ + (4 - 3 * img.width_ % 4) % 4) * img.height_ :=
    le_mul_of_pos _ _ hh
  have h2 : img.width_ * img.height_
      ≤ (3 * img.width_ + (4 - 3 * img.width_ % 4) % 4) * img.height_ :=
    Nat.mul_le_mul_right _ (by omega)
  obtain ⟨body, hsave, hbl, -⟩ := saveToBMP_spec img hw hh hpx (by omega)
    (by rw [savePadding_eq]; omega)
  refine ⟨_, hsave, ?_, ?_, ?_⟩
  · rw [List.take_append_of_le_length (by rw [headerBytes_length]),
      List.take_of_length_le (by rw [headerBytes_length]), saveHeader_eq img hw hh hfs]
  · have e : (headerBytes (saveHeader img) ++ body).take 2 = leBytes 2 0x4D42 := rfl
    rw [e]
    decide
  · rw [List.length_append, headerBytes_length, hbl, savePadding_eq, Nat.mul_comm]

/-- C5, witness: the header of the 2 x 2 image; 54 + 8 * 2 = 70 bytes. -/
theorem saveToBMP_header_witness :
    (0 < sampleImage.width_ ∧ 0 < sampleImage.height_ ∧
      sampleImage.pixels_.length = sampleImage.width_ * sampleImage.height_ ∧
      54 + (3 * sampleImage.width_ + (4 - 3 * sampleImage.width_ % 4) % 4)
        * sampleImage.height_ < 4294967296) ∧
    ∃ bytes, saveToBMP true sampleImage = some ⟨true, some bytes⟩ ∧
      bytes.take 54 = sampleFile.take 54 ∧ bytes.length = 70 := by
  refine ⟨by decide, ?_⟩
  obtain ⟨bytes, h1, h2, -, h3⟩ := saveToBMP_header sampleImage (by decide) (by decide)
    (by decide) (by decide)
  exact ⟨bytes, h1, h2.trans (by decide), h3⟩

/-! ## C6: the pixel data written by the encoder -/

theorem foldlM_preserves {σ α : Type} (f : σ → α → Option σ) (P : σ → Prop)
    (hf : ∀ s a s', P s → f s a = some s' → P s') (l : List α) :
    ∀ s s', P s → l.foldlM f s = some s' → P s' := by
  induction l with
  | nil =>
    intro s s' hs h
    have e : s = s' := Option.some.inj h
    exact e ▸ hs
  | cons a l ih =>
    intro s s' hs h
    rw [List.foldlM_cons] at h
    cases hfa : f s a with
    | none => rw [hfa] at h; exact absurd h (by simp)
    | some s1 =>
      rw [hfa] at h
      exact ih s1 s' (hf s a s1 hs hfa) h

/-- A loop whose body is undefined at pass `x0` in every state with the
invariant `P` is undefined when it makes more than `x0` passes. -/
theorem foldlM_range_none {σ : Type} (f : σ → Nat → Option σ) (P : σ → Prop) (n x0 : Nat)
    (hx : x0 < n) (hf : ∀ s a s', P s → f s a = some s' → P s')
    (hnone : ∀ s, P s → f s x0 = none) (st : σ) (hst : P st) :
    (List.range n).foldlM f st = none := by
  obtain ⟨m, rfl⟩ : ∃ m, n = x0 + 1 + m := ⟨n - (x0 + 1), by omega⟩
  rw [List.range_add, List.foldlM_append, List.range_succ, List.foldlM_append]
  cases h1 : (List.range x0).foldlM f st with
  | none => rfl
  | some s1 =>
    have hP := foldlM_preserves f P hf (List.range x0) st s1 hst h1
    simp [hnone s1 hP]

theorem storeByte_length (buf : List Byte) (i : Nat) (v : Byte) (buf' : List Byte)
    (h : storeByte buf i v = some buf') : buf'.length = buf.length := by
  unfold storeByte at h
  split at h
  · rw [← Option.some.inj h, List.length_set]
  · exact absurd h (by simp)

theorem savePixel_length (w ri : Nat) (pixels : List Pixel) (rb : List Byte) (x : Nat)
    (rb' : List Byte) (h : savePixel w ri pixels rb x = some rb') :
    rb'.length = rb.length := by
  unfold savePixel at h
  cases hp : pixels[(ri * w + x) % 4294967296]? with
  | none => rw [hp] at h; exact absurd h (by simp)
  | some p =>
    rw [hp] at h
    simp only [Option.bind_eq_bind, Option.some_bind] at h
    cases h1 : storeByte rb (x * 3 % 4294967296) p.b with
    | none => rw [h1] at h; exact absurd h (by simp)
    | some rb1 =>
      rw [h1] at h
      simp only [Option.some_bind] at h
      cases h2 : storeByte rb1 ((x * 3 % 4294967296 + 1) % 4294967296) p.g with
      | none => rw [h2] at h; exact absurd h (by simp)
      | some rb2 =>
        rw [h2] at h
        simp only [Option.some_bind] at h
        rw [storeByte_length _ _ _ _ h, storeByte_length _ _ _ _ h2,
          storeByte_length _ _ _ _ h1]

/-- A pass of the encoder's inner loop whose third store falls outside the
row buffer is undefined. -/
theorem savePixel_none (w ri : Nat) (pixels : List Pixel) (rb : List Byte) (x : Nat)
    (hL : rb.length ≤ (x * 3 % 4294967296 + 2) % 4294967296) :
    savePixel w ri pixels rb x = none := by
  cases h : savePixel w ri pixels rb x with
  | none => rfl
  | some rb' =>
    exfalso
    unfold savePixel at h
    cases hp : pixels[(ri * w + x) % 4294967296]? with
    | none => rw [hp] at h; exact absurd h (by simp)
    | some p =>
      rw [hp] at h
      simp only [Option.bind_eq_bind, Option.some_bind] at h
      cases h1 : storeByte rb (x * 3 % 4294967296) p.b with
      | none => rw [h1] at h; exact absurd h (by simp)
      | some rb1 =>
        rw [h1] at h
        simp only [Option.some_bind] at h
        cases h2 : storeByte rb1 ((x * 3 % 4294967296 + 1) % 4294967296) p.g with
        | none => rw [h2] at h; exact absurd h (by simp)
        | some rb2 =>
          rw [h2] at h
          simp only [Option.some_bind] at h
          have hl : rb2.length = rb.length := by
            rw [storeByte_length _ _ _ _ h2, storeByte_length _ _ _ _ h1]
          unfold storeByte at h
          rw [if_neg (by omega)] at h
          exact absurd h (by simp)

/-- C6, counterexample: the image of width 2^31 and height 1 is non-empty
and has `width_ * height_` pixels. Its row buffer gets
`(3 * 2^31) mod 2^32 = 2^31` bytes, and at column 715827882 the store
`rowBuffer[bufferIndex + 2]` has index 2^31, outside the buffer: the run of
`saveToBMP` is undefined, it does not emit one row of `3 * 2^31` bytes. -/
theorem saveToBMP_undefined_on_wideImage :
    0 < wideImage.width_ ∧ 0 < wideImage.height_ ∧
    wideImage.pixels_.length = wideImage.width_ * wideImage.height_ ∧
    3 * wideImage.width_ + (4 - 3 * wideImage.width_ % 4) % 4 = 6442450944 ∧
    (wideImage.width_ * 3 % 4294967296 + savePadding wideImage.width_) % 4294967296
      = 2147483648 ∧
    (715827882 * 3 % 4294967296 + 2) % 4294967296 = 2147483648 ∧
    saveToBMP true wideImage = none := by
  have hlen : wideImage.pixels_.length = wideImage.width_ * wideImage.height_ :=
    List.length_replicate _ _
  refine ⟨by decide, by decide, hlen, by decide, by decide, by decide, ?_⟩
  have hrow : ∀ rb : List Byte, rb.length = 2147483648 →
      saveRowBytes 2147483648 0 wideImage.pixels_ rb = none := by
    intro rb hrb
    unfold saveRowBytes
    exact foldlM_range_none _ (fun b => b.length = 2147483648) 2147483648 715827882
      (by decide)
      (fun s a s' hs h => (savePixel_length _ _ _ _ _ _ h).trans hs)
      (fun s hs => savePixel_none _ _ _ _ _ (le_of_eq_of_le hs (by decide))) rb hrb
  have e : saveRows 2147483648 1 wideImage.pixels_
      (writeHeader ⟨[], false⟩ (saveHeader wideImage), List.replicate 2147483648 0) = none := by
    unfold saveRows
    rw [show List.range 1 = [0] from rfl, List.foldlM_cons]
    simp only [saveRow]
    rw [hrow _ (List.length_replicate _ _)]
    rfl
  unfold saveToBMP
  have hne : wideImage.isEmpty = false := by decide
  have hw : wideImage.width_ = 2147483648 := rfl
  have hh : wideImage.height_ = 1 := rfl
  have hsz : (2147483648 * 3 % 4294967296 + savePadding 2147483648) % 4294967296
      = 2147483648 := by decide
  simp only [hne, Bool.false_eq_true, if_false, Bool.not_true, hw, hh, hsz, e, Option.map_none']

/-- C6, amended: for every non-empty image whose pixel array has
`width_ * height_ < 2^32` cells and whose row length
`stride = 3w + padding` is below 2^32, `saveToBMP` returns `true` and emits
54 header bytes followed by `h` rows of `stride` bytes; output row `y` holds
buffer row `h - 1 - y`, the pixel of column `x` in bytes `3x`, `3x + 1`,
`3x + 2` of the row as blue, green, red, and the last `padding` bytes of
every row are zero. -/
theorem saveToBMP_pixel_data (img : Image) (hw : 0 < img.width_) (hh : 0 < img.height_)
    (hpx : img.pixels_.length = img.width_ * img.height_)
    (hN : img.width_ * img.height_ < 4294967296)
    (hrow : 3 * img.width_ + (4 - 3 * img.width_ % 4) % 4 < 4294967296) :
    ∃ bytes, saveToBMP true img = some ⟨true, some bytes⟩ ∧
      bytes.length = 54 + img.height_ * (3 * img.width_ + (4 - 3 * img.width_ % 4) % 4) ∧
      (∀ x y, x < img.width_ → y < img.height_ → ∃ p,
        img.pixels_[(img.height_ - 1 - y) * img.width_ + x]? = some p ∧
        bytes[54 + y * (3 * img.width_ + (4 - 3 * img.width_ % 4) % 4) + 3 * x]? = some p.b ∧
        bytes[54 + y * (3 * img.width_ + (4 - 3 * img.width_ % 4) % 4) + 3 * x + 1]?
          = some p.g ∧
        bytes[54 + y * (3 * img.width_ + (4 - 3 * img.width_ % 4) % 4) + 3 * x + 2]?
          = some p.r) ∧
      ∀ y j, y < img.height_ → 3 * img.width_ ≤ j →
        j < 3 * img.width_ + (4 - 3 * img.width_ % 4) % 4 →
        bytes[54 + y * (3 * img.width_ + (4 - 3 * img.width_ % 4) % 4) + j]? = some 0 := by
  rw [← savePadding_eq] at hrow ⊢
  obtain ⟨body, hsave, hbl, hbody⟩ := saveToBMP_spec img hw hh hpx hN hrow
  have hat : ∀ y j, y < img.height_ → j < 3 * img.width_ + savePadding img.width_ →
      (headerBytes (saveHeader img) ++ body)[54
        + y * (3 * img.width_ + savePadding img.width_) + j]?
        = some (rowByte img.pixels_ img.width_ img.height_ y j) := by
    intro y j hy hj
    rw [List.getElem?_append_right (by rw [headerBytes_length]; omega), headerBytes_length,
      show 54 + y * (3 * img.width_ + savePadding img.width_) + j - 54
        = y * (3 * img.width_ + savePadding img.width_) + j by omega]
    exact hbody y hy j hj
  refine ⟨_, hsave, by rw [List.length_append, headerBytes_length, hbl], ?_, ?_⟩
  · intro x y hx hy
    have hil : (img.height_ - 1 - y) * img.width_ + x < img.pixels_.length := by
      have := rowIndex_bound img.width_ img.height_ (img.height_ - 1 - y) (by omega)
      omega
    refine ⟨img.pixels_[(img.height_ - 1 - y) * img.width_ + x],
      List.getElem?_eq_getElem hil, ?_, ?_, ?_⟩
    · rw [hat y (3 * x) hy (by omega)]
      simp only [rowByte]
      rw [if_pos (by omega), show 3 * x / 3 = x by omega, show 3 * x % 3 = 0 by omega,
        List.getD_eq_getElem?_getD, List.getElem?_eq_getElem hil]
      rfl
    · rw [Nat.add_assoc, hat y (3 * x + 1) hy (by omega)]
      simp only [rowByte]
      rw [if_pos (by omega), show (3 * x + 1) / 3 = x by omega,
        show (3 * x + 1) % 3 = 1 by omega,
        List.getD_eq_getElem?_getD, List.getElem?_eq_getElem hil]
      rfl
    · rw [Nat.add_assoc, hat y (3 * x + 2) hy (by omega)]
      simp only [rowByte]
      rw [if_pos (by omega), show (3 * x + 2) / 3 = x by omega,
        show (3 * x + 2) % 3 = 2 by omega,
        List.getD_eq_getElem?_getD, List.getElem?_eq_getElem hil]
      rfl
  · intro y j hy hj1 hj2
    rw [hat y j hy hj2]
    simp only [rowByte]
    rw [if_neg (by omega)]

/-- C6, witness: the 2 x 2 image. Output row 0 holds buffer row 1; its
second pixel (r, g, b) = (10, 11, 12) is written as 12, 11, 10. -/
theorem saveToBMP_pixel_data_witness :
    (0 < sampleImage.width_ ∧ 0 < sampleImage.height_ ∧
      sampleImage.pixels_.length = sampleImage.width_ * sampleImage.height_ ∧
      sampleImage.width_ * sampleImage.height_ < 4294967296 ∧
      3 * sampleImage.width_ + (4 - 3 * sampleImage.width_ % 4) % 4 < 4294967296) ∧
    ∃ bytes, saveToBMP true sampleImage = some ⟨true, some bytes⟩ ∧ bytes.length = 70 ∧
      bytes[54 + 0 * 8 + 3 * 1]? = some 12 ∧ bytes[54 + 0 * 8 + 6]? = some 0 := by
  refine ⟨by decide, ?_⟩
  obtain ⟨bytes, h1, h2, h3, h4⟩ := saveToBMP_pixel_data sampleImage (by decide) (by decide)
    (by decide) (by decide) (by decide)
  refine ⟨bytes, h1, h2, ?_, h4 0 6 (by decide) (by decide) (by decide)⟩
  obtain ⟨p, hp, hb, -, -⟩ := h3 1 0 (by decide) (by decide)
  have e : some p = some (⟨10, 11, 12⟩ : Pixel) := hp.symm.trans (by decide)
  rw [Option.some.inj e] at hb
  exact hb

/-! ## C7: the encoder on an empty image -/

/-- C7: on an image with `width_ = 0` or `height_ = 0`, `saveToBMP` returns
`false` and no output file is opened or written, whether or not the file
could have been created. -/
theorem saveToBMP_empty (canOpen : Bool) (img : Image)
    (h : img.width_ = 0 ∨ img.height_ = 0) :
    saveToBMP canOpen img = some ⟨false, none⟩ := by
  have he : img.isEmpty = true := by
    simp only [Image.isEmpty, Bool.or_eq_true, beq_iff_eq]
    exact h
  unfold saveToBMP
  rw [if_pos he]

/-- C7, witness: an image of width 0 and height 3. -/
theorem saveToBMP_empty_witness :
    (zeroWidthImage.width_ = 0 ∨ zeroWidthImage.height_ = 0) ∧
    saveToBMP true zeroWidthImage = some ⟨false, none⟩ :=
  ⟨Or.inl rfl, saveToBMP_empty true zeroWidthImage (Or.inl rfl)⟩

/-! ## C8: truncated input -/

theorem readTo_step {data : List Byte} {s : IFStream} {p : Nat} (h : ReadTo data s p)
    (k old : Nat) : ReadTo data (s.readField k old).1 (p + k) := by
  obtain ⟨hd, h⟩ := h
  refine ⟨(read_data s _ k).trans hd, ?_⟩
  rcases h with hf | ⟨hg, hp, hle⟩
  · exact Or.inl (read_failbit_mono s _ k hf)
  · rcases read_cases s (leBytes k old) k hg with hf | ⟨hg', hp', hle'⟩
    · exact Or.inl hf
    · right
      refine ⟨hg', by rw [← hp]; exact hp', ?_⟩
      rcases Nat.eq_zero_or_pos k with hk | hk
      · rw [hk]; exact hle
      · rw [← hp, ← hd]; exact hle' hk

/-- On a file of fewer than 54 bytes one of the header reads is short:
`failbit` is set after the fifteen reads. -/
theorem readHeader_short (data : List Byte) (uninit : BMPHeader) (h : data.length < 54) :
    (readHeader (IFStream.open data) uninit).1.failbit = true := by
  have h0 : ReadTo data (IFStream.open data) 0 := ⟨rfl, Or.inr ⟨rfl, rfl, Nat.zero_le _⟩⟩
  have h1 := readTo_step h0 2 uninit.signature
  have h2 := readTo_step h1 4 uninit.fileSize
  have h3 := readTo_step h2 4 uninit.reserved
  have h4 := readTo_step h3 4 uninit.dataOffset
  have h5 := readTo_step h4 4 uninit.headerSize
  have h6 := readTo_step h5 4 (toUInt32 uninit.width)
  have h7 := readTo_step h6 4 (toUInt32 uninit.height)
  have h8 := readTo_step h7 2 uninit.planes
  have h9 := readTo_step h8 2 uninit.bitsPerPixel
  have h10 := readTo_step h9 4 uninit.compression
  have h11 := readTo_step h10 4 uninit.imageSize
  have h12 := readTo_step h11 4 (toUInt32 uninit.xPixelsPerMeter)
  have h13 := readTo_step h12 4 (toUInt32 uninit.yPixelsPerMeter)
  have h14 := readTo_step h13 4 uninit.colorsUsed
  have h15 := readTo_step h14 4 uninit.importantColors
  have h' : ReadTo data (readHeader (IFStream.open data) uninit).1 54 := h15
  rcases h'.2 with hf | ⟨_, _, hle⟩
  · exact hf
  · omega

theorem seekg_cases (s : IFStream) (off : Nat) :
    (s.seekg off).data = s.data ∧
    ((s.failbit = true ∧ (s.seekg off).failbit = true) ∨
      (s.failbit = false ∧ (s.seekg off).good = true ∧ (s.seekg off).pos = off)) := by
  unfold IFStream.seekg
  by_cases hf : s.failbit = true
  · rw [if_pos hf]
    exact ⟨rfl, Or.inl ⟨hf, hf⟩⟩
  · rw [if_neg hf]
    have hf' : s.failbit = false := by simpa using hf
    exact ⟨rfl, Or.inr ⟨hf', by simp [IFStream.good, hf'], rfl⟩⟩

theorem headerOnlyFile_header (uninit : BMPHeader) :
    readHeader (IFStream.open headerOnlyFile) uninit
      = (⟨headerOnlyFile, 54, false, false⟩, bigSquareHeader) := by
  rw [readHeader_complete headerOnlyFile uninit (by decide)]
  congr 1

/-- C8, counterexample: a stream of 54 bytes whose header passes the three
checks, with width 65536 and height 65536. The header promises
`54 + 65536 * 196608` bytes and the stream holds 54. The pixel count
65536 * 65536 is 0 modulo 2^32, so the pixel array is resized to 0 cells;
the first row read is short, and the store `pixels_[pixelIndex]` that
follows it is outside the array. The run is undefined; `loadFromBMP` does
not return failure. -/
theorem loadFromBMP_undefined_on_headerOnlyFile :
    headerOnlyFile.length = 54 ∧
    (∀ uninit, (readHeader (IFStream.open headerOnlyFile) uninit).2.signature = 0x4D42 ∧
      (readHeader (IFStream.open headerOnlyFile) uninit).2.bitsPerPixel = 24 ∧
      (readHeader (IFStream.open headerOnlyFile) uninit).2.compression = 0 ∧
      (readHeader (IFStream.open headerOnlyFile) uninit).2.width = 65536 ∧
      (readHeader (IFStream.open headerOnlyFile) uninit).2.height = 65536 ∧
      headerOnlyFile.length < (readHeader (IFStream.open headerOnlyFile) uninit).2.dataOffset
        + 65536 * (3 * 65536 + (4 - 3 * 65536 % 4) % 4)) ∧
    (∀ img : Image, (vresize img.pixels_ (65536 * 65536 % 4294967296)).length = 0) ∧
    ∀ uninit img, loadFromBMP uninit (some headerOnlyFile) img = none := by
  refine ⟨by decide, fun uninit => ?_, fun img => by rw [vresize_length],
    fun uninit img => ?_⟩
  · rw [headerOnlyFile_header]
    decide
  · have hv : vresize img.pixels_ (65536 * 65536 % 4294967296) = [] := by
      simp [vresize]
    have hsig : bigSquareHeader.signature = 19778 := rfl
    have hbpp : bigSquareHeader.bitsPerPixel = 24 := rfl
    have hcomp : bigSquareHeader.compression = 0 := rfl
    have hoff : bigSquareHeader.dataOffset = 54 := rfl
    have hW : toUInt32 bigSquareHeader.width = 65536 := by decide
    have hH : toUInt32 (bigSquareHeader.height.natAbs : Int) = 65536 := by decide
    unfold loadFromBMP
    simp only [headerOnlyFile_header, hsig, hbpp, hcomp, hoff, hW, hH, ne_eq,
      not_true_eq_false, if_false, hv]
    rw [loadRows_nil _ _ _ _ _ (by decide) (by decide)]
    rfl

/-- C8, amended: for every stream whose header, as read, passes the three
checks, with header width `w > 0`, header height of absolute value `h`,
`0 < h < 2^31`, `w * h < 2^32` and
`stride = 3 * w + (4 - 3 * w % 4) % 4 < 2^31`, that holds
fewer than 54 bytes or fewer than `dataOffset + h * stride` bytes,
`loadFromBMP` returns `false`. -/
theorem loadFromBMP_truncated (uninit : BMPHeader) (data : List Byte) (img : Image)
    (w h : Nat)
    (hsig : (readHeader (IFStream.open data) uninit).2.signature = 0x4D42)
    (hbpp : (readHeader (IFStream.open data) uninit).2.bitsPerPixel = 24)
    (hcomp : (readHeader (IFStream.open data) uninit).2.compression = 0)
    (hw : (readHeader (IFStream.open data) uninit).2.width = (w : Int)) (hwpos : 0 < w)
    (hh : (readHeader (IFStream.open data) uninit).2.height.natAbs = h) (hhpos : 0 < h)
    (hh31 : h < 2147483648)
    (hN : w * h < 4294967296) (hrow : 3 * w + (4 - 3 * w % 4) % 4 < 2147483648)
    (htrunc : data.length < 54 ∨
      data.length < (readHeader (IFStream.open data) uninit).2.dataOffset
        + h * (3 * w + (4 - 3 * w % 4) % 4)) :
    ∃ img', loadFromBMP uninit (some data) img = some (false, img') := by
  have hwlt : w < 4294967296 := lt_of_le_of_lt (le_mul_of_pos w h hhpos) hN
  have hhlt : h < 4294967296 := by
    have : h * 1 ≤ h * w := Nat.mul_le_mul_left h hwpos
    rw [Nat.mul_one, Nat.mul_comm] at this
    omega
  have hW : toUInt32 (readHeader (IFStream.open data) uninit).2.width = w := by
    rw [hw]; exact toUInt32_natCast w hwlt
  have hH : toUInt32 ((readHeader (IFStream.open data) uninit).2.height.natAbs : Int) = h := by
    rw [hh]; exact toUInt32_natCast h hhlt
  rw [← savePadding_eq] at hrow htrunc
  have hrs : (w * 3 % 4294967296
      + toUInt32 (loadPadding (readHeader (IFStream.open data) uninit).2.width))
      % 4294967296 = 3 * w + savePadding w := by
    rw [loadPadding_eq_savePadding, hW]
    omega
  have hrl : (List.replicate (3 * w + savePadding w) (0 : Byte)).length
      = 3 * w + savePadding w := List.length_replicate _ _
  obtain ⟨hsd, hsk⟩ := seekg_cases (readHeader (IFStream.open data) uninit).1
    (readHeader (IFStream.open data) uninit).2.dataOffset
  obtain ⟨st, e, -, -, hd, hmono, hrr⟩ := loadRows_defined w h
    (decide ((readHeader (IFStream.open data) uninit).2.height > 0))
    (IFStream.seekg (readHeader (IFStream.open data) uninit).1
      (readHeader (IFStream.open data) uninit).2.dataOffset)
    (List.replicate (3 * w + savePadding w) 0) (vresize img.pixels_ (w * h))
    (by
      rcases hsk with ⟨_, hf⟩ | ⟨_, hg, _⟩
      · exact Or.inl hf
      · exact Or.inr hg)
    (vresize_length _ _) (by omega) (by rw [hrl]; omega) (by rw [hrl]; omega)
  have hfail : st.1.failbit = true := by
    rcases hsk with ⟨_, hf⟩ | ⟨hnf, hg, hpos⟩
    · exact hmono hf
    · rcases hrr with hf | ⟨_, hp, hle⟩
      · exact hf
      · exfalso
        have h54 : 54 ≤ data.length := by
          by_contra hlt
          have := readHeader_short data uninit (by omega)
          rw [this] at hnf
          exact absurd hnf (by simp)
        have hdata : st.1.data = data := by
          rw [hd, hsd, readHeader_complete data uninit h54]
        have hle' := hle hhpos (by rw [hrl]; omega)
        rw [hp, hpos, hrl, hdata] at hle'
        omega
  refine ⟨⟨w, h, st.2.2⟩, ?_⟩
  unfold loadFromBMP
  simp only [hsig, hbpp, hcomp, ne_eq, not_true_eq_false, if_false, hW, hH, hrs,
    Nat.mod_eq_of_lt hN, e, Option.map_some', IFStream.fail, hfail, Bool.not_true]

/-- C8, witness: the 2 x 2 file cut after its first row is refused. -/
theorem loadFromBMP_truncated_witness :
    ((readHeader (IFStream.open truncatedFile) zeroHeader).2.signature = 0x4D42 ∧
      (readHeader (IFStream.open truncatedFile) zeroHeader).2.bitsPerPixel = 24 ∧
      (readHeader (IFStream.open truncatedFile) zeroHeader).2.compression = 0 ∧
      (readHeader (IFStream.open truncatedFile) zeroHeader).2.width = 2 ∧
      (readHeader (IFStream.open truncatedFile) zeroHeader).2.height.natAbs = 2 ∧
      truncatedFile.length < (readHeader (IFStream.open truncatedFile) zeroHeader).2.dataOffset
        + 2 * (3 * 2 + (4 - 3 * 2 % 4) % 4)) ∧
    ∃ img', loadFromBMP zeroHeader (some truncatedFile) emptyImage = some (false, img') :=
  ⟨by decide,
    loadFromBMP_truncated zeroHeader truncatedFile emptyImage 2 2 (by decide) (by decide)
      (by decide) (by decide) (by decide) (by decide) (by decide) (by decide) (by decide)
      (by decide) (Or.inr (by decide))⟩

/-! ## C9: the image after a failed decode -/

/-- C9, counterexample: on the 2 x 2 file cut after its first row,
`loadFromBMP` into a 1 x 1 image returns `false` and leaves an image of
width 2 and height 2: buffer row 1 holds the file's first row, and buffer
row 0 holds the same bytes again, left in the row buffer by the read that
succeeded. -/
theorem loadFromBMP_failure_mutates :
    loadFromBMP zeroHeader (some truncatedFile) oneCellImage = some (false, staleImage) ∧
    staleImage ≠ oneCellImage := by
  decide

theorem loadPixel_length (w ri : Nat) (rb : List Byte) (px : List Pixel) (x : Nat)
    (px' : List Pixel) (h : loadPixel w ri rb px x = some px') : px'.length = px.length := by
  unfold loadPixel at h
  simp only [Option.bind_eq_bind, Option.bind_eq_some, Option.pure_def, Option.some.injEq] at h
  obtain ⟨_, _, _, _, _, _, _, _, rfl⟩ := h
  exact List.length_set _ _ _

theorem loadRows_length (w h : Nat) (bu : Bool) (st st' : IFStream × List Byte × List Pixel)
    (e : loadRows w h bu st = some st') : st'.2.2.length = st.2.2.length := by
  unfold loadRows at e
  refine foldlM_preserves (loadRow w h bu) (fun s => s.2.2.length = st.2.2.length) ?_ _ st st'
    rfl e
  intro s y s' hs hrow
  unfold loadRow at hrow
  simp only [Option.map_eq_some'] at hrow
  obtain ⟨px, hpx, rfl⟩ := hrow
  unfold loadRowPixels at hpx
  have := foldlM_preserves (loadPixel w _ _) (fun p => p.length = s.2.2.length)
    (fun p x p' hp hx => (loadPixel_length _ _ _ _ _ _ hx).trans hp) _ _ _ rfl hpx
  exact this.trans hs

/-- C9, amended: whenever `loadFromBMP` returns `false`, either the image is
exactly what it was before the call (the file could not be opened, or the
header failed the signature, bit-depth or compression check), or the header
passed the three checks and the image has the header's dimensions
(`width_` the header width as `unsigned int`, `height_` the absolute value
of the header height) and a pixel array of `width_ * height_` mod 2^32
cells. -/
theorem loadFromBMP_failure_state (uninit : BMPHeader) (file : Option (List Byte))
    (img img' : Image) (h : loadFromBMP uninit file img = some (false, img')) :
    img' = img ∨
    ∃ data, file = some data ∧
      (readHeader (IFStream.open data) uninit).2.signature = 0x4D42 ∧
      (readHeader (IFStream.open data) uninit).2.bitsPerPixel = 24 ∧
      (readHeader (IFStream.open data) uninit).2.compression = 0 ∧
      img'.width_ = toUInt32 (readHeader (IFStream.open data) uninit).2.width ∧
      img'.height_ =
        toUInt32 ((readHeader (IFStream.open data) uninit).2.height.natAbs : Int) ∧
      img'.pixels_.length = img'.width_ * img'.height_ % 4294967296 := by
  cases file with
  | none =>
    left
    have e : (false, img) = (false, img') := Option.some.inj h
    exact (congrArg Prod.snd e).symm
  | some data =>
    unfold loadFromBMP at h
    simp only at h
    by_cases h1 : (readHeader (IFStream.open data) uninit).2.signature = 0x4D42
    · by_cases h2 : (readHeader (IFStream.open data) uninit).2.bitsPerPixel = 24
      · by_cases h3 : (readHeader (IFStream.open data) uninit).2.compression = 0
        · right
          simp only [h1, h2, h3, ne_eq, not_true_eq_false, if_false, Option.map_eq_some',
            Prod.mk.injEq] at h
          obtain ⟨st, hst, -, rfl⟩ := h
          refine ⟨data, rfl, h1, h2, h3, rfl, rfl, ?_⟩
          have := loadRows_length _ _ _ _ _ hst
          simp only at this
          rw [this, vresize_length]
        · left
          simp only [h1, h2, h3, ne_eq, not_true_eq_false, not_false_eq_true, if_true,
            if_false, Option.some.injEq, Prod.mk.injEq, true_and] at h
          exact h.symm
      · left
        simp only [h1, h2, ne_eq, not_true_eq_false, not_false_eq_true, if_true, if_false,
          Option.some.injEq, Prod.mk.injEq, true_and] at h
        exact h.symm
    · left
      simp only [h1, ne_eq, not_false_eq_true, if_true, Option.some.injEq, Prod.mk.injEq,
        true_and] at h
      exact h.symm

/-- C9, witness: the failed decode of the truncated 2 x 2 file into a 1 x 1
image leaves the header's dimensions and four cells. -/
theorem loadFromBMP_failure_state_witness :
    loadFromBMP zeroHeader (some truncatedFile) oneCellImage = some (false, staleImage) ∧
    (staleImage = oneCellImage ∨
      ∃ data, some truncatedFile = some data ∧
        (readHeader (IFStream.open data) zeroHeader).2.signature = 0x4D42 ∧
        (readHeader (IFStream.open data) zeroHeader).2.bitsPerPixel = 24 ∧
        (readHeader (IFStream.open data) zeroHeader).2.compression = 0 ∧
        staleImage.width_ = toUInt32 (readHeader (IFStream.open data) zeroHeader).2.width ∧
        staleImage.height_
          = toUInt32 ((readHeader (IFStream.open data) zeroHeader).2.height.natAbs : Int) ∧
        staleImage.pixels_.length = staleImage.width_ * staleImage.height_ % 4294967296) :=
  ⟨by decide, loadFromBMP_failure_state zeroHeader (some truncatedFile) oneCellImage
    staleImage (by decide)⟩

/-! ## C10: row padding -/

/-- C10, counterexample: for width 1 both the encoder and the decoder compute
a padding of 1 byte (3 + 1 = 4), not 3; for the widths 1 to 6 neither
computes the paddings 3, 2, 1, 0, 3, 2. -/
theorem padding_table_differs :
    savePadding 1 = 1 ∧ loadPadding 1 = 1 ∧
    [1, 2, 3, 4, 5, 6].map savePadding ≠ [3, 2, 1, 0, 3, 2] ∧
    [1, 2, 3, 4, 5, 6].map loadPadding ≠ [3, 2, 1, 0, 3, 2] := by
  decide

theorem loadPadding_natCast (w : Nat) (h : 3 * w < 4294967296) :
    loadPadding (w : Int) = (((4 - 3 * w % 4) % 4 : Nat) : Int) := by
  have hw : toUInt32 (w : Int) = w := toUInt32_natCast w (by omega)
  have h1 := loadPadding_eq_savePadding (w : Int)
  rw [hw, savePadding_eq] at h1
  have h2 := toUInt32_cast (loadPadding (w : Int))
  have h3 : 0 ≤ loadPadding (w : Int) ∧ loadPadding (w : Int) < 4 := by
    unfold loadPadding
    rw [pad_tmod]
    omega
  rw [h1] at h2
  omega

/-- C10, amended: for every width `w` with `3 * w < 2^32`, the padding the
encoder computes (in `unsigned` arithmetic) is `(4 - (3w) mod 4) mod 4`, it
lies in 0..3 and `3w + padding` is a multiple of 4; when moreover
`3 * w < 2^31` (the product fits an `int`) the padding the decoder computes
is the same number; for `w` = 1..6 both compute 1, 2, 3, 0, 1, 2. -/
theorem padding_formula (w : Nat) (h : 3 * w < 4294967296) :
    savePadding w = (4 - 3 * w % 4) % 4 ∧
    (3 * w < 2147483648 → loadPadding (w : Int) = (((4 - 3 * w % 4) % 4 : Nat) : Int)) ∧
    savePadding w ≤ 3 ∧ (3 * w + savePadding w) % 4 = 0 ∧
    [1, 2, 3, 4, 5, 6].map savePadding = [1, 2, 3, 0, 1, 2] ∧
    [1, 2, 3, 4, 5, 6].map loadPadding = [1, 2, 3, 0, 1, 2] := by
  refine ⟨savePadding_eq w, fun _ => loadPadding_natCast w h, ?_, ?_, by decide, by decide⟩
  · rw [savePadding_eq]; omega
  · rw [savePadding_eq]; omega

/-- C10, witness: width 5 has padding 1, and 15 + 1 = 16. -/
theorem padding_formula_witness :
    3 * 5 < 4294967296 ∧ savePadding 5 = 1 ∧ loadPadding 5 = 1 ∧
    (3 * 5 + savePadding 5) % 4 = 0 := by
  obtain ⟨h1, h2, -, h4, -, -⟩ := padding_formula 5 (by decide)
  exact ⟨by decide, h1, h2 (by decide), h4⟩

/-! ## Coordinate checks and cell access -/

theorem getPixel_outOfRange_iff (img : Image) (x y : Nat) :
    img.getPixel x y = some Checked.outOfRange ↔ (x ≥ img.width_ ∨ y ≥ img.height_) := by
  unfold Image.getPixel
  by_cases h : x ≥ img.width_ ∨ y ≥ img.height_
  · simp [h]
  · rw [if_neg h]
    constructor
    · intro e
      cases hq : img.pixels_[(y * img.width_ + x) % 4294967296]? with
      | none => rw [hq] at e; cases e
      | some p => rw [hq] at e; cases e
    · intro e; exact absurd e h

theorem setPixel_outOfRange_iff (img : Image) (x y : Nat) (v : Pixel) :
    (img.setPixel x y v).map Prod.fst = some Checked.outOfRange ↔
      (x ≥ img.width_ ∨ y ≥ img.height_) := by
  unfold Image.setPixel
  by_cases h : x ≥ img.width_ ∨ y ≥ img.height_
  · simp [h]
  · rw [if_neg h]
    constructor
    · intro e
      cases hq : img.pixels_[(y * img.width_ + x) % 4294967296]? with
      | none => rw [hq] at e; cases e
      | some p => rw [hq] at e; cases e
    · intro e; exact absurd e h

/-- The row-major index of an in-bounds cell is below the product of the
dimensions. -/
theorem index_lt (w h x y : Nat) (hx : x < w) (hy : y < h) : y * w + x < w * h := by
  have := rowIndex_bound w h y hy
  omega

theorem getPixel_inBounds (img : Image) (x y : Nat)
    (hlen : img.pixels_.length = img.width_ * img.height_)
    (hN : img.width_ * img.height_ ≤ 4294967296)
    (hx : x < img.width_) (hy : y < img.height_) :
    img.getPixel x y =
      some (Checked.value (img.pixels_.getD (y * img.width_ + x) default)) := by
  have hi := index_lt img.width_ img.height_ x y hx hy
  unfold Image.getPixel
  rw [if_neg (by omega), Nat.mod_eq_of_lt (by omega)]
  have hl : y * img.width_ + x < img.pixels_.length := by omega
  rw [List.getElem?_eq_getElem hl, List.getD_eq_getElem _ _ hl]
  rfl

theorem setPixel_inBounds (img : Image) (x y : Nat) (v : Pixel)
    (hlen : img.pixels_.length = img.width_ * img.height_)
    (hN : img.width_ * img.height_ ≤ 4294967296)
    (hx : x < img.width_) (hy : y < img.height_) :
    img.setPixel x y v = some (Checked.value (),
      ⟨img.width_, img.height_, img.pixels_.set (y * img.width_ + x) v⟩) := by
  have hi := index_lt img.width_ img.height_ x y hx hy
  unfold Image.setPixel
  rw [if_neg (by omega), Nat.mod_eq_of_lt (by omega)]
  have hl : y * img.width_ + x < img.pixels_.length := by omega
  rw [List.getElem?_eq_getElem hl]
  rfl

/-! ## C11: bounds checking -/

/-- C11, counterexample. The image `Image(65536, 65536, Pixel(9, 9, 9))` is not
empty and (65535, 65535) passes the bounds check, but the constructor gave
the pixel vector `65536 * 65536 mod 2^32 = 0` elements: `getPixel` and
`setPixel` at (65535, 65535) index outside the vector, they neither throw
nor return a cell. -/
theorem getPixel_undefined_on_squareImage :
    squareImage.isEmpty = false ∧ squareImage.width_ = 65536 ∧
      squareImage.height_ = 65536 ∧ squareImage.pixels_ = [] ∧
      squareImage.getPixel 65535 65535 = none ∧
      squareImage.setPixel 65535 65535 default = none := by
  refine ⟨by decide, rfl, rfl, by decide, by decide, by decide⟩

/-- C11, amended. On every image, `getPixel(x, y)` and `setPixel(x, y, v)`
throw `std::out_of_range` if and only if `x >= width` or `y >= height` (so a
coordinate outside the image never reaches a cell). When the pixel vector
has `width * height` elements and that product is below 2^32, an access
inside the bounds returns normally: `getPixel` gives the element at
`y * width + x` and `setPixel` stores there; on a non-empty such image this
holds at `(width - 1, height - 1)`. -/
theorem getPixel_setPixel_bounds (img : Image) (x y : Nat) (v : Pixel) :
    (img.getPixel x y = some Checked.outOfRange ↔ (x ≥ img.width_ ∨ y ≥ img.height_)) ∧
    ((img.setPixel x y v).map Prod.fst = some Checked.outOfRange ↔
      (x ≥ img.width_ ∨ y ≥ img.height_)) ∧
    (img.pixels_.length = img.width_ * img.height_ →
      img.width_ * img.height_ < 4294967296 →
      (x < img.width_ → y < img.height_ →
        img.getPixel x y =
          some (Checked.value (img.pixels_.getD (y * img.width_ + x) default)) ∧
        img.setPixel x y v = some (Checked.value (),
          ⟨img.width_, img.height_, img.pixels_.set (y * img.width_ + x) v⟩)) ∧
      (img.isEmpty = false →
        (∃ p, img.getPixel (img.width_ - 1) (img.height_ - 1) = some (Checked.value p)) ∧
        (∃ img1, img.setPixel (img.width_ - 1) (img.height_ - 1) v =
          some (Checked.value (), img1)))) := by
  refine ⟨getPixel_outOfRange_iff img x y, setPixel_outOfRange_iff img x y v, ?_⟩
  intro hlen hN
  refine ⟨fun hx hy => ⟨getPixel_inBounds img x y hlen (by omega) hx hy,
    setPixel_inBounds img x y v hlen (by omega) hx hy⟩, ?_⟩
  intro he
  have hwh : 0 < img.width_ ∧ 0 < img.height_ := by
    unfold Image.isEmpty at he
    simp at he
    omega
  exact ⟨⟨_, getPixel_inBounds img _ _ hlen (by omega) (by omega) (by omega)⟩,
    ⟨_, setPixel_inBounds img _ _ v hlen (by omega) (by omega) (by omega)⟩⟩

/-- C11, witness: the 2 x 2 image `sampleImage` at (1, 1) and at (2, 0). -/
theorem getPixel_setPixel_bounds_witness :
    sampleImage.getPixel 1 1 = some (Checked.value ⟨10, 11, 12⟩) ∧
    sampleImage.setPixel 1 1 ⟨0, 0, 0⟩ = some (Checked.value (),
      ⟨2, 2, [⟨1, 2, 3⟩, ⟨4, 5, 6⟩, ⟨7, 8, 9⟩, ⟨0, 0, 0⟩]⟩) ∧
    sampleImage.getPixel 2 0 = some Checked.outOfRange :=
  ⟨((getPixel_setPixel_bounds sampleImage 1 1 ⟨0, 0, 0⟩).2.2 (by decide) (by decide)).1
      (by decide) (by decide) |>.1,
    ((getPixel_setPixel_bounds sampleImage 1 1 ⟨0, 0, 0⟩).2.2 (by decide) (by decide)).1
      (by decide) (by decide) |>.2,
    (getPixel_setPixel_bounds sampleImage 2 0 ⟨0, 0, 0⟩).1.2 (by decide)⟩

/-- Two cells of one image with the same row-major index are the same
cell. -/
theorem index_inj (w x y x1 y1 : Nat) (hx : x < w) (hx1 : x1 < w)
    (e : y * w + x = y1 * w + x1) : x = x1 ∧ y = y1 := by
  have hy : y = y1 := by
    by_contra hne
    exact row_disjoint y y1 w x hx hne ⟨by omega, by omega⟩
  subst hy
  exact ⟨by omega, rfl⟩

/-! ## C12: the frame of `setPixel` -/

/-- C12, counterexample. The image `Image(65536, 65537)` has 65537 rows but its
pixel vector has `65536 * 65537 mod 2^32 = 65536` elements. The cells (0, 0)
and (0, 65536) are both inside the bounds and share the index 0
(`65536 * 65536 + 0` wraps to 0): `setPixel(0, 0, v)` changes what
`getPixel(0, 65536)` returns. -/
theorem setPixel_changes_other_cell_on_wrapImage :
    wrapImage.width_ = 65536 ∧ wrapImage.height_ = 65537 ∧
      wrapImage.pixels_.length = 65536 ∧
      wrapImage.getPixel 0 65536 = some (Checked.value ⟨0, 0, 0⟩) ∧
      ∃ img1, wrapImage.setPixel 0 0 ⟨1, 2, 3⟩ = some (Checked.value (), img1) ∧
        img1.getPixel 0 65536 = some (Checked.value ⟨1, 2, 3⟩) := by
  have hp : wrapImage.pixels_ = List.replicate 65536 default := by
    unfold wrapImage Image.create
    exact congrArg (fun n => List.replicate n default) (by decide)
  have h0 : (0 : Nat) < (List.replicate 65536 (default : Pixel)).length := by
    rw [List.length_replicate]; decide
  refine ⟨rfl, rfl, by rw [hp, List.length_replicate], ?_, ?_⟩
  · unfold Image.getPixel
    rw [if_neg (by decide)]
    have e : (65536 * wrapImage.width_ + 0) % 4294967296 = 0 := by decide
    rw [e, hp, List.getElem?_eq_getElem h0, List.getElem_replicate]
    rfl
  · refine ⟨⟨65536, 65537, (List.replicate 65536 default).set 0 ⟨1, 2, 3⟩⟩, ?_, ?_⟩
    · unfold Image.setPixel
      rw [if_neg (by decide)]
      have e : (0 * wrapImage.width_ + 0) % 4294967296 = 0 := by decide
      rw [e, hp, List.getElem?_eq_getElem h0]
      rfl
    · unfold Image.getPixel
      rw [if_neg (by decide)]
      have e : (65536 * 65536 + 0) % 4294967296 = 0 := by decide
      dsimp only
      rw [e, List.getElem?_set_self h0]
      rfl

/-- C12, amended. On an image whose pixel vector has `width * height` elements,
with that product below 2^32: for (x, y) inside the bounds, `setPixel(x, y, v)`
returns normally and leaves an image of the same width and height on which
`getPixel(x, y)` returns `v` and `getPixel` at every other cell inside the
bounds returns what it returned before; for (x, y) outside the bounds
`setPixel` throws and the image is the one before the call. -/
theorem setPixel_frame (img : Image) (x y : Nat) (v : Pixel)
    (hlen : img.pixels_.length = img.width_ * img.height_)
    (hN : img.width_ * img.height_ < 4294967296) :
    (x < img.width_ → y < img.height_ →
      ∃ img1, img.setPixel x y v = some (Checked.value (), img1) ∧
        img1.width_ = img.width_ ∧ img1.height_ = img.height_ ∧
        img1.getPixel x y = some (Checked.value v) ∧
        ∀ x1 y1, x1 < img.width_ → y1 < img.height_ → (x1, y1) ≠ (x, y) →
          img1.getPixel x1 y1 = img.getPixel x1 y1) ∧
    ((x ≥ img.width_ ∨ y ≥ img.height_) →
      img.setPixel x y v = some (Checked.outOfRange, img)) := by
  constructor
  · intro hx hy
    have hi := index_lt img.width_ img.height_ x y hx hy
    have hl : y * img.width_ + x < img.pixels_.length := by omega
    refine ⟨_, setPixel_inBounds img x y v hlen (by omega) hx hy, rfl, rfl, ?_, ?_⟩
    · rw [getPixel_inBounds
        ⟨img.width_, img.height_, img.pixels_.set (y * img.width_ + x) v⟩ x y
        (by simp [hlen]) (by dsimp only; omega) hx hy]
      dsimp only
      rw [List.getD_eq_getElem?_getD, List.getElem?_set_self hl]
      rfl
    · intro x1 y1 hx1 hy1 hne
      rw [getPixel_inBounds
        ⟨img.width_, img.height_, img.pixels_.set (y * img.width_ + x) v⟩ x1 y1
        (by simp [hlen]) (by dsimp only; omega) hx1 hy1,
        getPixel_inBounds img x1 y1 hlen (by omega) hx1 hy1]
      dsimp only
      have hd : y * img.width_ + x ≠ y1 * img.width_ + x1 := by
        intro e
        obtain ⟨e1, e2⟩ := index_inj img.width_ x y x1 y1 hx hx1 e
        exact hne (by rw [e1, e2])
      rw [List.getD_eq_getElem?_getD, List.getD_eq_getElem?_getD,
        List.getElem?_set_ne hd]
  · intro h
    unfold Image.setPixel
    rw [if_pos h]

/-- C12, witness: `setPixel(1, 0, (0, 0, 0))` on the 2 x 2 image
`sampleImage`. -/
theorem setPixel_frame_witness :
    ∃ img1, sampleImage.setPixel 1 0 ⟨0, 0, 0⟩ = some (Checked.value (), img1) ∧
      img1.width_ = 2 ∧ img1.height_ = 2 ∧
      img1.getPixel 1 0 = some (Checked.value ⟨0, 0, 0⟩) ∧
      ∀ x1 y1, x1 < 2 → y1 < 2 → (x1, y1) ≠ (1, 0) →
        img1.getPixel x1 y1 = sampleImage.getPixel x1 y1 :=
  (setPixel_frame sampleImage 1 0 ⟨0, 0, 0⟩ (by decide) (by decide)).1
    (by decide) (by decide)

/-! ## The copy loops of `resize` -/

/-- The copy of one cell, when both indices are inside their vectors. -/
theorem copyPixel_eq (w nw : Nat) (pixels np : List Pixel) (y x : Nat)
    (h1 : y * w + x < pixels.length) (h2 : y * nw + x < np.length)
    (hL1 : pixels.length ≤ 4294967296) (hL2 : np.length ≤ 4294967296) :
    copyPixel w nw pixels y np x =
      some (np.set (y * nw + x) (pixels.getD (y * w + x) default)) := by
  unfold copyPixel
  rw [Nat.mod_eq_of_lt (by omega), Nat.mod_eq_of_lt (by omega),
    List.getElem?_eq_getElem h1, List.getElem?_eq_getElem h2, List.getD_eq_getElem _ _ h1]
  rfl

/-- The inner loop of `resize` on row `y`: the first `cw` cells of that row
of the new vector become the cells of row `y` of the old one, the other
cells stay. -/
theorem copyRow_spec (w h nw nh cw : Nat) (pixels np0 : List Pixel) (y : Nat)
    (hcw : cw ≤ w) (hcn : cw ≤ nw) (hy : y < h) (hyn : y < nh)
    (hp : pixels.length = w * h) (hN : w * h ≤ 4294967296)
    (hq : np0.length = nw * nh) (hN1 : nw * nh ≤ 4294967296) :
    ∃ np, copyRow w nw cw pixels np0 y = some np ∧ np.length = nw * nh ∧
      ∀ y1 x1, y1 < nh → x1 < nw →
        np.getD (y1 * nw + x1) default =
          if y1 = y ∧ x1 < cw then pixels.getD (y * w + x1) default
          else np0.getD (y1 * nw + x1) default := by
  unfold copyRow
  refine foldlM_range_inv (copyPixel w nw pixels y)
    (fun k np => np.length = nw * nh ∧
      ∀ y1 x1, y1 < nh → x1 < nw →
        np.getD (y1 * nw + x1) default =
          if y1 = y ∧ x1 < k then pixels.getD (y * w + x1) default
          else np0.getD (y1 * nw + x1) default) cw np0 ⟨hq, ?_⟩ ?_
  · intro y1 x1 _ _
    rw [if_neg (by omega)]
  · intro k np hk ⟨hl, hc⟩
    have i1 := index_lt w h k y (by omega) hy
    have i2 := index_lt nw nh k y (by omega) hyn
    refine ⟨_, copyPixel_eq w nw pixels np y k (by omega) (by omega) (by omega) (by omega),
      by rw [List.length_set]; exact hl, ?_⟩
    intro y1 x1 hy1 hx1
    have i3 := index_lt nw nh x1 y1 hx1 hy1
    rw [List.getD_eq_getElem?_getD]
    by_cases hc1 : y1 = y ∧ x1 = k
    · obtain ⟨rfl, rfl⟩ := hc1
      rw [List.getElem?_set_self (by omega), if_pos ⟨rfl, by omega⟩]
      rfl
    · have hd : y * nw + k ≠ y1 * nw + x1 := by
        intro e
        obtain ⟨e1, e2⟩ := index_inj nw k y x1 y1 (by omega) hx1 e
        exact hc1 ⟨e2.symm, e1.symm⟩
      rw [List.getElem?_set_ne hd, ← List.getD_eq_getElem?_getD, hc y1 x1 hy1 hx1]
      by_cases hc2 : y1 = y ∧ x1 < k
      · rw [if_pos hc2, if_pos ⟨hc2.1, by omega⟩]
      · rw [if_neg hc2, if_neg (by omega)]

/-- The two loops of `resize`: the cells of the top-left `cw` x `ch` block of
the new vector become the cells of the old image at the same coordinates,
the other cells stay. -/
theorem copyRows_spec (w h nw nh cw ch : Nat) (pixels np0 : List Pixel)
    (hcw : cw ≤ w) (hcn : cw ≤ nw) (hch : ch ≤ h) (hcm : ch ≤ nh)
    (hp : pixels.length = w * h) (hN : w * h ≤ 4294967296)
    (hq : np0.length = nw * nh) (hN1 : nw * nh ≤ 4294967296) :
    ∃ np, copyRows w nw cw ch pixels np0 = some np ∧ np.length = nw * nh ∧
      ∀ y1 x1, y1 < nh → x1 < nw →
        np.getD (y1 * nw + x1) default =
          if x1 < cw ∧ y1 < ch then pixels.getD (y1 * w + x1) default
          else np0.getD (y1 * nw + x1) default := by
  unfold copyRows
  refine foldlM_range_inv (copyRow w nw cw pixels)
    (fun r np => np.length = nw * nh ∧
      ∀ y1 x1, y1 < nh → x1 < nw →
        np.getD (y1 * nw + x1) default =
          if x1 < cw ∧ y1 < r then pixels.getD (y1 * w + x1) default
          else np0.getD (y1 * nw + x1) default) ch np0 ⟨hq, ?_⟩ ?_
  · intro y1 x1 _ _
    rw [if_neg (by omega)]
  · intro r np hr ⟨hl, hc⟩
    obtain ⟨np1, e, hl1, hc1⟩ := copyRow_spec w h nw nh cw pixels np r hcw hcn
      (by omega) (by omega) hp hN hl hN1
    refine ⟨np1, e, hl1, ?_⟩
    intro y1 x1 hy1 hx1
    rw [hc1 y1 x1 hy1 hx1]
    by_cases hc2 : y1 = r ∧ x1 < cw
    · rw [if_pos hc2, if_pos ⟨hc2.2, by omega⟩, hc2.1]
    · rw [if_neg hc2, hc y1 x1 hy1 hx1]
      by_cases hc3 : x1 < cw ∧ y1 < r
      · rw [if_pos hc3, if_pos ⟨hc3.1, by omega⟩]
      · rw [if_neg hc3, if_neg (by omega)]

/-! ## C13: content-preserving resize -/

/-- C13, counterexample. The 1 x 1 image `oneCellImage` is not empty;
`resize(65536, 65536, true)` allocates `65536 * 65536 mod 2^32 = 0` new
pixels and then copies the old cell (0, 0) into `newPixels[0]`, outside the
empty vector. -/
theorem resize_undefined_on_oneCellImage :
    oneCellImage.isEmpty = false ∧
      oneCellImage.pixels_.length = oneCellImage.width_ * oneCellImage.height_ ∧
      oneCellImage.resize 65536 65536 true = none := by
  refine ⟨by decide, by decide, by decide⟩

/-- C13, amended. On a non-empty image whose pixel vector has `width * height`
elements, with that product below 2^32, and for a new size with
`nw * nh < 2^32`: `resize(nw, nh, true)` returns, the image has width `nw`,
height `nh` and `nw * nh` pixels, and `getPixel(x, y)` on it returns the old
pixel at (x, y) when `x < min(w, nw)` and `y < min(h, nh)`, and black (0,0,0)
at every other cell inside the new bounds. -/
theorem resize_preserve (img : Image) (nw nh : Nat)
    (hne : img.isEmpty = false)
    (hlen : img.pixels_.length = img.width_ * img.height_)
    (hN : img.width_ * img.height_ < 4294967296)
    (hN1 : nw * nh < 4294967296) :
    ∃ img1, img.resize nw nh true = some img1 ∧
      img1.width_ = nw ∧ img1.height_ = nh ∧ img1.pixels_.length = nw * nh ∧
      ∀ x y, x < nw → y < nh →
        img1.getPixel x y =
          if x < min img.width_ nw ∧ y < min img.height_ nh then img.getPixel x y
          else some (Checked.value ⟨0, 0, 0⟩) := by
  unfold Image.resize
  by_cases hsame : nw = img.width_ ∧ nh = img.height_
  · obtain ⟨rfl, rfl⟩ := hsame
    rw [if_pos ⟨rfl, rfl⟩]
    refine ⟨img, rfl, rfl, rfl, hlen, ?_⟩
    intro x y hx hy
    rw [if_pos ⟨by simpa using hx, by simpa using hy⟩]
  · rw [if_neg hsame, hne]
    dsimp only [Bool.not_false, Bool.and_self, if_true]
    rw [Nat.mod_eq_of_lt hN1]
    obtain ⟨np, e, hl, hc⟩ := copyRows_spec img.width_ img.height_ nw nh
      (min img.width_ nw) (min img.height_ nh) img.pixels_
      (List.replicate (nw * nh) default) (Nat.min_le_left _ _) (Nat.min_le_right _ _)
      (Nat.min_le_left _ _) (Nat.min_le_right _ _) hlen (by omega)
      (List.length_replicate _ _) (by omega)
    rw [e]
    refine ⟨⟨nw, nh, np⟩, rfl, rfl, rfl, hl, ?_⟩
    intro x y hx hy
    rw [getPixel_inBounds ⟨nw, nh, np⟩ x y hl (by dsimp only; omega) hx hy]
    dsimp only
    rw [hc y x hy hx]
    by_cases hc1 : x < min img.width_ nw ∧ y < min img.height_ nh
    · rw [if_pos hc1, if_pos hc1, getPixel_inBounds img x y hlen (by omega)
        (lt_of_lt_of_le hc1.1 (Nat.min_le_left _ _))
        (lt_of_lt_of_le hc1.2 (Nat.min_le_left _ _))]
    · rw [if_neg hc1, if_neg hc1, List.getD_eq_getElem?_getD,
        List.getElem?_replicate, if_pos (index_lt nw nh x y hx hy)]
      rfl

/-- C13, witness: the 2 x 2 image `sampleImage` resized to 4 x 4 keeps its four
pixels in the top-left block and has twelve black cells; the 4 x 4 image
`gridImage` resized to 2 x 2 keeps exactly its top-left 2 x 2 block. -/
theorem resize_preserve_witness :
    (∃ img1, sampleImage.resize 4 4 true = some img1 ∧
      img1.width_ = 4 ∧ img1.height_ = 4 ∧ img1.pixels_.length = 4 * 4 ∧
      ∀ x y, x < 4 → y < 4 →
        img1.getPixel x y =
          if x < 2 ∧ y < 2 then sampleImage.getPixel x y
          else some (Checked.value ⟨0, 0, 0⟩)) ∧
    (∃ img1, gridImage.resize 2 2 true = some img1 ∧
      img1.width_ = 2 ∧ img1.height_ = 2 ∧ img1.pixels_.length = 2 * 2 ∧
      ∀ x y, x < 2 → y < 2 →
        img1.getPixel x y =
          if x < 2 ∧ y < 2 then gridImage.getPixel x y
          else some (Checked.value ⟨0, 0, 0⟩)) :=
  ⟨resize_preserve sampleImage 4 4 (by decide) (by decide) (by decide) (by decide),
   resize_preserve gridImage 2 2 (by decide) (by decide) (by decide) (by decide)⟩

/-! ## C14: resize without preserving the content -/

/-- C14, the code on the failing input. On the 1 x 1 image `oneCellImage`,
whose only pixel is (200, 100, 50), `resize(2, 2, false)` runs
`pixels_.resize(4)`, which keeps the element that is there and appends three
black ones: cell (0, 0) of the 2 x 2 image is (200, 100, 50), not black. -/
theorem resize_discard_keeps_old_pixel_on_oneCellImage :
    oneCellImage.resize 2 2 false =
      some ⟨2, 2, [⟨200, 100, 50⟩, ⟨0, 0, 0⟩, ⟨0, 0, 0⟩, ⟨0, 0, 0⟩]⟩ ∧
    ∃ img1, oneCellImage.resize 2 2 false = some img1 ∧
      img1.getPixel 0 0 = some (Checked.value ⟨200, 100, 50⟩) ∧
      img1.getPixel 0 0 ≠ some (Checked.value ⟨0, 0, 0⟩) := by
  refine ⟨by decide, ⟨2, 2, [⟨200, 100, 50⟩, ⟨0, 0, 0⟩, ⟨0, 0, 0⟩, ⟨0, 0, 0⟩]⟩,
    by decide, by decide, by decide⟩

/-! ## Lengths of the pixel vector -/

theorem setPixel_dims (img img1 : Image) (x y : Nat) (v : Pixel) (r : Checked Unit)
    (e : img.setPixel x y v = some (r, img1)) :
    img1.width_ = img.width_ ∧ img1.height_ = img.height_ ∧
      img1.pixels_.length = img.pixels_.length := by
  unfold Image.setPixel at e
  by_cases h : x ≥ img.width_ ∨ y ≥ img.height_
  · rw [if_pos h] at e
    cases e
    exact ⟨rfl, rfl, rfl⟩
  · rw [if_neg h] at e
    cases hq : img.pixels_[(y * img.width_ + x) % 4294967296]? with
    | none => rw [hq] at e; cases e
    | some p =>
      rw [hq] at e
      cases e
      exact ⟨rfl, rfl, List.length_set _ _ _⟩

theorem copyPixel_length (w nw : Nat) (pixels np : List Pixel) (y x : Nat)
    (np1 : List Pixel) (e : copyPixel w nw pixels y np x = some np1) :
    np1.length = np.length := by
  unfold copyPixel at e
  cases h1 : pixels[(y * w + x) % 4294967296]? with
  | none => rw [h1] at e; cases e
  | some p =>
    cases h2 : np[(y * nw + x) % 4294967296]? with
    | none => rw [h1, h2] at e; cases e
    | some q =>
      rw [h1, h2] at e
      cases e
      exact List.length_set _ _ _

theorem copyRows_length (w nw cw ch : Nat) (pixels np np1 : List Pixel)
    (e : copyRows w nw cw ch pixels np = some np1) : np1.length = np.length := by
  unfold copyRows at e
  refine foldlM_preserves (copyRow w nw cw pixels) (fun l => l.length = np.length)
    ?_ _ np np1 rfl e
  intro s y s1 hs e1
  unfold copyRow at e1
  exact foldlM_preserves (copyPixel w nw pixels y) (fun l => l.length = np.length)
    (fun l x l1 hl e2 => (copyPixel_length w nw pixels l y x l1 e2).trans hl) _ s s1 hs e1

/-- After a `resize` that returns, the pixel vector has
`newWidth * newHeight mod 2^32` elements, when it had
`width * height mod 2^32` before. -/
theorem resize_dims (img img1 : Image) (nw nh : Nat) (p : Bool)
    (hl : img.pixels_.length = img.width_ * img.height_ % 4294967296)
    (e : img.resize nw nh p = some img1) :
    img1.width_ = nw ∧ img1.height_ = nh ∧
      img1.pixels_.length = nw * nh % 4294967296 := by
  unfold Image.resize at e
  by_cases hsame : nw = img.width_ ∧ nh = img.height_
  · rw [if_pos hsame] at e
    cases e
    obtain ⟨rfl, rfl⟩ := hsame
    exact ⟨rfl, rfl, hl⟩
  · rw [if_neg hsame] at e
    by_cases hp : (p && !img.isEmpty) = true
    · rw [if_pos hp] at e
      dsimp only at e
      cases hc : copyRows img.width_ nw (min img.width_ nw) (min img.height_ nh)
          img.pixels_ (List.replicate (nw * nh % 4294967296) default) with
      | none => rw [hc] at e; cases e
      | some np =>
        rw [hc] at e
        cases e
        refine ⟨rfl, rfl, ?_⟩
        rw [copyRows_length _ _ _ _ _ _ _ hc, List.length_replicate]
    · rw [if_neg hp] at e
      cases e
      exact ⟨rfl, rfl, vresize_length _ _⟩

/-- After a call of `loadFromBMP` that returns, the pixel vector has
`width * height mod 2^32` elements, when it had before. -/
theorem loadFromBMP_dims (uninit : BMPHeader) (file : Option (List Byte)) (img img1 : Image)
    (b : Bool) (hl : img.pixels_.length = img.width_ * img.height_ % 4294967296)
    (e : loadFromBMP uninit file img = some (b, img1)) :
    img1.pixels_.length = img1.width_ * img1.height_ % 4294967296 := by
  unfold loadFromBMP at e
  cases file with
  | none => cases e; exact hl
  | some data =>
    dsimp only at e
    split at e
    · cases e; exact hl
    · split at e
      · cases e; exact hl
      · split at e
        · cases e; exact hl
        · cases hr : loadRows (toUInt32 (readHeader (IFStream.open data) uninit).2.width)
            (toUInt32 ((readHeader (IFStream.open data) uninit).2.height.natAbs : Int))
            (decide ((readHeader (IFStream.open data) uninit).2.height > 0))
            (((readHeader (IFStream.open data) uninit).1.seekg
                (readHeader (IFStream.open data) uninit).2.dataOffset),
              List.replicate
                ((toUInt32 (readHeader (IFStream.open data) uninit).2.width * 3 % 4294967296
                  + toUInt32 (loadPadding (readHeader (IFStream.open data) uninit).2.width))
                  % 4294967296) 0,
              vresize img.pixels_
                (toUInt32 (readHeader (IFStream.open data) uninit).2.width
                  * toUInt32 ((readHeader (IFStream.open data) uninit).2.height.natAbs : Int)
                  % 4294967296)) with
          | none => rw [hr] at e; cases e
          | some st =>
            rw [hr] at e
            cases e
            dsimp only
            rw [loadRows_length _ _ _ _ _ hr]
            exact vresize_length _ _

/-! ## C15: the length of the pixel vector -/

/-- C15, counterexample. The image `Image(65536, 65536, Pixel(9, 9, 9))` comes
straight from the constructor, its width and height are 65536, and its
pixel vector is empty: the constructor asks for `width * height` elements
with the product taken in `unsigned int`, which is 0. -/
theorem reachable_length_fails_on_squareImage :
    Reachable squareImage ∧ squareImage.width_ * squareImage.height_ = 4294967296 ∧
      squareImage.pixels_.length = 0 := by
  refine ⟨Reachable.create 65536 65536 ⟨9, 9, 9⟩ (by decide) (by decide), by decide,
    by decide⟩

/-- C15, amended. Every image reachable from the default constructor or from
`Image(w, h, fill)` through `setPixel`, `resize`, `clear`, `clone`, copy, move
and `loadFromBMP` calls has a pixel vector of `width * height mod 2^32`
elements: exactly `width * height` when that product is below 2^32, and none
when the width or the height is 0. -/
theorem reachable_length (img : Image) (h : Reachable img) :
    img.pixels_.length = img.width_ * img.height_ % 4294967296 ∧
    (img.width_ * img.height_ < 4294967296 →
      img.pixels_.length = img.width_ * img.height_) ∧
    ((img.width_ = 0 ∨ img.height_ = 0) → img.pixels_ = []) := by
  have key : img.pixels_.length = img.width_ * img.height_ % 4294967296 := by
    induction h with
    | default => rfl
    | create w h fill hw hh => exact List.length_replicate _ _
    | setPixel img img1 x y v r _ e ih =>
      obtain ⟨e1, e2, e3⟩ := setPixel_dims img img1 x y v r e
      rw [e1, e2, e3]; exact ih
    | resize img img1 nw nh p _ _ _ e ih =>
      obtain ⟨e1, e2, e3⟩ := resize_dims img img1 nw nh p ih e
      rw [e1, e2, e3]
    | clear img c _ ih => exact (List.length_map _ _).trans ih
    | clone img _ ih => exact ih
    | copy img _ ih => exact ih
    | moveTarget img _ ih => exact ih
    | moveSource img _ ih => rfl
    | decode img img1 uninit file b _ e ih => exact loadFromBMP_dims uninit file img img1 b ih e
  refine ⟨key, fun hN => by rw [key, Nat.mod_eq_of_lt hN], ?_⟩
  intro hz
  apply List.eq_nil_of_length_eq_zero
  rw [key]
  rcases hz with hz | hz <;> rw [hz] <;> simp

/-- C15, witness: the 2 x 2 image obtained from `Image(3, 1)` by
`resize(2, 2, false)`. -/
theorem reachable_length_witness :
    ∃ img, (Image.create 3 1 default).resize 2 2 false = some img ∧
      img.pixels_.length = img.width_ * img.height_ % 4294967296 ∧
      (img.width_ * img.height_ < 4294967296 →
        img.pixels_.length = img.width_ * img.height_) ∧
      ((img.width_ = 0 ∨ img.height_ = 0) → img.pixels_ = []) :=
  ⟨⟨2, 2, [default, default, default, default]⟩, by decide,
    reachable_length _ (Reachable.resize (Image.create 3 1 default) _ 2 2 false
      (by decide) (by decide)
      (Reachable.create 3 1 default (by decide) (by decide)) (by decide))⟩

/-! ## What a decode that returns `true` has done -/

theorem loadRow_length (w h : Nat) (bu : Bool) (st st1 : IFStream × List Byte × List Pixel)
    (y : Nat) (e : loadRow w h bu st y = some st1) : st1.2.2.length = st.2.2.length := by
  unfold loadRow at e
  simp only [Option.map_eq_some'] at e
  obtain ⟨px, hpx, rfl⟩ := e
  unfold loadRowPixels at hpx
  exact foldlM_preserves (loadPixel w _ _) (fun p => p.length = st.2.2.length)
    (fun p x p1 hp hx => (loadPixel_length _ _ _ _ _ _ hx).trans hp) _ _ _ rfl hpx

theorem loadRow_failbit (w h : Nat) (bu : Bool) (st st1 : IFStream × List Byte × List Pixel)
    (y : Nat) (hf : st.1.failbit = true) (e : loadRow w h bu st y = some st1) :
    st1.1.failbit = true := by
  unfold loadRow at e
  simp only [Option.map_eq_some'] at e
  obtain ⟨px, _, rfl⟩ := e
  exact read_failbit_mono _ _ _ hf

/-- The flag `failbit` stays set through the row loop. -/
theorem loadRows_failbit (w h : Nat) (bu : Bool) (st st1 : IFStream × List Byte × List Pixel)
    (hf : st.1.failbit = true) (e : loadRows w h bu st = some st1) :
    st1.1.failbit = true := by
  unfold loadRows at e
  exact foldlM_preserves (loadRow w h bu) (fun s => s.1.failbit = true)
    (fun s y s1 hs e1 => loadRow_failbit w h bu s s1 y hs e1) _ st st1 hf e

/-- A store of the decoder at an index outside the pixel vector. -/
theorem loadPixel_none (w ri : Nat) (rb : List Byte) (px : List Pixel) (x : Nat)
    (h : px.length ≤ (ri * w + x) % 4294967296) : loadPixel w ri rb px x = none := by
  unfold loadPixel
  dsimp only
  rw [List.getElem?_eq_none h]
  rfl

/-- A row loop that returns has made all its stores inside the pixel
vector. -/
theorem loadRows_index (w h : Nat) (bu : Bool) (st st1 : IFStream × List Byte × List Pixel)
    (e : loadRows w h bu st = some st1) (r x : Nat) (hr : r < h) (hx : x < w) :
    (r * w + x) % 4294967296 < st.2.2.length := by
  by_contra hge
  have hnone : loadRows w h bu st = none := by
    unfold loadRows
    refine foldlM_range_none (loadRow w h bu) (fun s => s.2.2.length = st.2.2.length) h
      (if bu = true then h - 1 - r else r) (by split <;> omega)
      (fun s y s1 hs e1 => (loadRow_length w h bu s s1 y e1).trans hs) ?_ st rfl
    intro s hs
    unfold loadRow
    have hri : (if bu = true then h - 1 - (if bu = true then h - 1 - r else r)
        else (if bu = true then h - 1 - r else r)) = r := by
      by_cases hb : bu = true
      · rw [if_pos hb, if_pos hb]; omega
      · rw [if_neg hb, if_neg hb]
    dsimp only
    rw [hri]
    have : loadRowPixels w r (s.1.read s.2.1 s.2.1.length).2 s.2.2 = none := by
      unfold loadRowPixels
      refine foldlM_range_none (loadPixel w r _) (fun p => p.length = st.2.2.length) w x hx
        (fun p a p1 hp e1 => (loadPixel_length _ _ _ _ _ _ e1).trans hp) ?_ _ hs
      intro p hp
      exact loadPixel_none w r _ p x (by omega)
    rw [this]
    rfl
  rw [hnone] at e
  cases e

/-- A row loop that returns on a pixel vector of `w * h mod 2^32` elements:
the product `w * h` is below 2^32 (otherwise one of the stores has index
2^32 - 1). -/
theorem loadRows_product (w h : Nat) (bu : Bool) (st st1 : IFStream × List Byte × List Pixel)
    (hl : st.2.2.length = w * h % 4294967296)
    (e : loadRows w h bu st = some st1) : w * h < 4294967296 := by
  by_contra hge
  have hw : 0 < w := by
    rcases Nat.eq_zero_or_pos w with h0 | h0
    · rw [h0] at hge; simp at hge
    · exact h0
  have hdm := Nat.div_add_mod 4294967295 w
  have hm := Nat.mod_lt 4294967295 hw
  have hr : 4294967295 / w < h := by
    by_contra hn
    have : w * h ≤ w * (4294967295 / w) := Nat.mul_le_mul_left w (by omega)
    omega
  have := loadRows_index w h bu st st1 e (4294967295 / w) (4294967295 % w) hr hm
  have e1 : 4294967295 / w * w + 4294967295 % w = 4294967295 := by
    rw [Nat.mul_comm]; exact hdm
  rw [e1] at this
  have := Nat.mod_lt (w * h) (by decide : 0 < 4294967296)
  omega

/-- The case analysis of `loadFromBMP` on a file that could be opened: the
header is rejected and the image is the one before the call, or the row
loop has run. -/
theorem loadFromBMP_some (uninit : BMPHeader) (data : List Byte) (img img1 : Image)
    (b : Bool) (e : loadFromBMP uninit (some data) img = some (b, img1)) :
    (b = false ∧ img1 = img) ∨
    ∃ st,
      loadRows (toUInt32 (readHeader (IFStream.open data) uninit).2.width)
        (toUInt32 ((readHeader (IFStream.open data) uninit).2.height.natAbs : Int))
        (decide ((readHeader (IFStream.open data) uninit).2.height > 0))
        (((readHeader (IFStream.open data) uninit).1.seekg
            (readHeader (IFStream.open data) uninit).2.dataOffset),
          List.replicate
            ((toUInt32 (readHeader (IFStream.open data) uninit).2.width * 3 % 4294967296
              + toUInt32 (loadPadding (readHeader (IFStream.open data) uninit).2.width))
              % 4294967296) 0,
          vresize img.pixels_
            (toUInt32 (readHeader (IFStream.open data) uninit).2.width
              * toUInt32 ((readHeader (IFStream.open data) uninit).2.height.natAbs : Int)
              % 4294967296)) = some st ∧
      b = !st.1.fail ∧
      img1 = ⟨toUInt32 (readHeader (IFStream.open data) uninit).2.width,
        toUInt32 ((readHeader (IFStream.open data) uninit).2.height.natAbs : Int), st.2.2⟩ := by
  unfold loadFromBMP at e
  dsimp only at e
  split at e
  · cases e; exact Or.inl ⟨rfl, rfl⟩
  · split at e
    · cases e; exact Or.inl ⟨rfl, rfl⟩
    · split at e
      · cases e; exact Or.inl ⟨rfl, rfl⟩
      · right
        simp only [Option.map_eq_some'] at e
        obtain ⟨st, hst, e1⟩ := e
        cases e1
        exact ⟨st, hst, rfl, rfl⟩

/-- A decode that returns `true` has read a complete header. -/
theorem loadFromBMP_true_header (uninit : BMPHeader) (data : List Byte) (img img1 : Image)
    (e : loadFromBMP uninit (some data) img = some (true, img1)) : 54 ≤ data.length := by
  by_contra hshort
  rcases loadFromBMP_some uninit data img img1 true e with ⟨h, _⟩ | ⟨st, hst, hb, _⟩
  · cases h
  · have h1 := readHeader_short data uninit (by omega)
    have h2 : ((readHeader (IFStream.open data) uninit).1.seekg
        (readHeader (IFStream.open data) uninit).2.dataOffset).failbit = true := by
      rcases (seekg_cases (readHeader (IFStream.open data) uninit).1
        (readHeader (IFStream.open data) uninit).2.dataOffset).2 with ⟨_, h⟩ | ⟨h, _⟩
      · exact h
      · rw [h1] at h; cases h
    have h3 := loadRows_failbit _ _ _ _ st h2 hst
    unfold IFStream.fail at hb
    rw [h3] at hb
    cases hb

/-- The unsigned view of a non-negative `int32_t` is its absolute value. -/
theorem toUInt32_toInt32_nonneg (n : Nat) (h : 0 ≤ toInt32 n) :
    toUInt32 (toInt32 n) = (toInt32 n).natAbs := by
  have hb := toInt32_natAbs_le n
  obtain ⟨m, hm⟩ := Int.eq_ofNat_of_zero_le h
  rw [hm] at hb ⊢
  rw [Int.natAbs_ofNat] at hb ⊢
  exact toUInt32_natCast m (by omega)

/-! ## C16: the dimensions after a decode -/

/-- C16, counterexample. The 54-byte file `negativeWidthFile` has header fields
width -1 and height 0 and passes the three checks; `loadFromBMP` returns
`true` and the image has width `static_cast<unsigned int>(-1) = 4294967295`,
not `|-1| = 1`. -/
theorem loadFromBMP_width_on_negativeWidthFile :
    negativeWidthFile.length = 54 ∧
      (parseHeader negativeWidthFile).width = -1 ∧
      (parseHeader negativeWidthFile).height = 0 ∧
      loadFromBMP zeroHeader (some negativeWidthFile) emptyImage =
        some (true, ⟨4294967295, 0, []⟩) ∧
      (4294967295 : Nat) ≠ (-1 : Int).natAbs := by
  refine ⟨by decide, by decide, by decide, by decide, by decide⟩

/-- C16, amended. When `loadFromBMP` returns `true` on a file, the file holds
a complete header, with signed fields `W` and `H` say, and the image has
width `W` converted to `unsigned int` (which is `|W|` when `W >= 0`, and
`2^32 + W` when `W < 0`), height `|H|`, and exactly `width * height`
pixels. -/
theorem loadFromBMP_dimensions (uninit : BMPHeader) (data : List Byte) (img img1 : Image)
    (e : loadFromBMP uninit (some data) img = some (true, img1)) :
    54 ≤ data.length ∧
    img1.width_ = toUInt32 (parseHeader data).width ∧
    (0 ≤ (parseHeader data).width → img1.width_ = (parseHeader data).width.natAbs) ∧
    ((parseHeader data).width < 0 →
      (img1.width_ : Int) = 4294967296 + (parseHeader data).width) ∧
    img1.height_ = (parseHeader data).height.natAbs ∧
    img1.pixels_.length = img1.width_ * img1.height_ := by
  have hlen := loadFromBMP_true_header uninit data img img1 e
  rcases loadFromBMP_some uninit data img img1 true e with ⟨h, _⟩ | ⟨st, hst, _, himg⟩
  · cases h
  rw [readHeader_complete data uninit hlen] at hst himg
  dsimp only at hst himg
  rw [parseHeader_height_natAbs] at hst himg
  have hl := loadRows_length _ _ _ _ _ hst
  have hN := loadRows_product _ _ _ _ _ (vresize_length _ _) hst
  dsimp only at hl
  rw [vresize_length, Nat.mod_eq_of_lt hN] at hl
  subst himg
  refine ⟨hlen, rfl, ?_, ?_, rfl, hl⟩
  · intro h0
    exact toUInt32_toInt32_nonneg _ h0
  · intro h0
    dsimp only
    have hb := toInt32_natAbs_le (leVal ((data.drop 18).take 4))
    have hw : (parseHeader data).width = toInt32 (leVal ((data.drop 18).take 4)) := rfl
    rw [hw] at h0 ⊢
    unfold toUInt32
    omega

/-- C16, witness: the 70-byte file `sampleFile` (2 x 2, bottom-up). -/
theorem loadFromBMP_dimensions_witness :
    54 ≤ sampleFile.length ∧
    sampleImage.width_ = toUInt32 (parseHeader sampleFile).width ∧
    (0 ≤ (parseHeader sampleFile).width →
      sampleImage.width_ = (parseHeader sampleFile).width.natAbs) ∧
    ((parseHeader sampleFile).width < 0 →
      (sampleImage.width_ : Int) = 4294967296 + (parseHeader sampleFile).width) ∧
    sampleImage.height_ = (parseHeader sampleFile).height.natAbs ∧
    sampleImage.pixels_.length = sampleImage.width_ * sampleImage.height_ :=
  loadFromBMP_dimensions zeroHeader sampleFile emptyImage sampleImage (by decide)

/-! ## C17: the constructor `Image(width, height, fill)` -/

/-- C17, counterexample. The image `Image(65536, 65536, Pixel(9, 9, 9))` has
width and height 65536 and an empty pixel vector (`65536 * 65536` is 0 in
`unsigned int`): `getPixel(0, 0)` passes the bounds check and indexes
outside the vector, it does not return the fill colour. -/
theorem create_getPixel_undefined_on_squareImage :
    squareImage = Image.create 65536 65536 ⟨9, 9, 9⟩ ∧
      squareImage.getPixel 0 0 = none ∧
      squareImage.getPixel 0 0 ≠ some (Checked.value ⟨9, 9, 9⟩) := by
  refine ⟨rfl, by decide, by decide⟩

/-- C17, amended. For `width * height < 2^32`, `Image(width, height, fill)` has
that width and that height and `width * height` pixels, `getPixel(x, y)`
returns `fill` for every `x < width` and `y < height` (black when the fill
colour is left to its default), and when the width or the height is 0 the
image is empty and holds no pixel. -/
theorem create_getPixel (width height : Nat) (fill : Pixel)
    (hN : width * height < 4294967296) :
    (Image.create width height fill).width_ = width ∧
    (Image.create width height fill).height_ = height ∧
    (Image.create width height fill).pixels_.length = width * height ∧
    (∀ x y, x < width → y < height →
      (Image.create width height fill).getPixel x y = some (Checked.value fill)) ∧
    (∀ x y, x < width → y < height →
      (Image.create width height default).getPixel x y = some (Checked.value ⟨0, 0, 0⟩)) ∧
    ((width = 0 ∨ height = 0) →
      (Image.create width height fill).isEmpty = true ∧
      (Image.create width height fill).pixels_ = []) := by
  have hl : ∀ c : Pixel, (Image.create width height c).pixels_.length = width * height := by
    intro c
    unfold Image.create
    rw [Nat.mod_eq_of_lt hN]
    exact List.length_replicate _ _
  have hg : ∀ (c : Pixel) x y, x < width → y < height →
      (Image.create width height c).getPixel x y = some (Checked.value c) := by
    intro c x y hx hy
    rw [getPixel_inBounds (Image.create width height c) x y (hl c)
      (by unfold Image.create; dsimp only; omega) hx hy]
    unfold Image.create
    dsimp only
    rw [Nat.mod_eq_of_lt hN, List.getD_eq_getElem?_getD, List.getElem?_replicate,
      if_pos (index_lt width height x y hx hy)]
    rfl
  refine ⟨rfl, rfl, hl fill, hg fill, hg default, ?_⟩
  intro hz
  constructor
  · unfold Image.isEmpty Image.create
    rcases hz with hz | hz <;> simp [hz]
  · apply List.eq_nil_of_length_eq_zero
    rw [hl fill]
    rcases hz with hz | hz <;> simp [hz]

/-- C17, witness: `Image(3, 2, Pixel(200, 100, 50))`. -/
theorem create_getPixel_witness :
    (Image.create 3 2 ⟨200, 100, 50⟩).width_ = 3 ∧
    (Image.create 3 2 ⟨200, 100, 50⟩).height_ = 2 ∧
    (Image.create 3 2 ⟨200, 100, 50⟩).pixels_.length = 3 * 2 ∧
    (∀ x y, x < 3 → y < 2 →
      (Image.create 3 2 ⟨200, 100, 50⟩).getPixel x y =
        some (Checked.value ⟨200, 100, 50⟩)) ∧
    (∀ x y, x < 3 → y < 2 →
      (Image.create 3 2 default).getPixel x y = some (Checked.value ⟨0, 0, 0⟩)) ∧
    (((3 : Nat) = 0 ∨ (2 : Nat) = 0) →
      (Image.create 3 2 ⟨200, 100, 50⟩).isEmpty = true ∧
      (Image.create 3 2 ⟨200, 100, 50⟩).pixels_ = []) :=
  create_getPixel 3 2 ⟨200, 100, 50⟩ (by decide)

/-! ## C18: decoding a header with width 0 or height 0 -/

theorem vresize_zero (v : List Pixel) : vresize v 0 = [] := by
  unfold vresize
  simp

/-- The row loop on an image of width 0: every read asks for 0 bytes and no
pixel is stored. -/
theorem loadRows_zero_width (h : Nat) (bu : Bool) (s : IFStream) (hg : s.good = true) :
    loadRows 0 h bu (s, [], []) = some (s, [], []) := by
  unfold loadRows
  obtain ⟨st, e, hst⟩ := foldlM_range_inv (loadRow 0 h bu) (fun _ st => st = (s, [], [])) h
    (s, [], []) rfl (by
      intro k st _ hst
      subst hst
      refine ⟨(s, [], []), ?_, rfl⟩
      unfold loadRow loadRowPixels IFStream.read
      dsimp only
      rw [if_pos hg]
      rfl)
  rw [e, hst]

/-- C18. On a file with a complete 54-byte header that passes the signature,
bit-count and compression checks and whose width is 0 or whose height is 0,
`loadFromBMP` returns `true`, whatever the image held before; the image
afterwards has the width and the height of the header (as `unsigned int`
and absolute value), its pixel vector is empty and `isEmpty()` is true. -/
theorem loadFromBMP_zero_sized (uninit : BMPHeader) (data : List Byte) (img : Image)
    (hlen : 54 ≤ data.length)
    (hsig : (parseHeader data).signature = 0x4D42)
    (hbpp : (parseHeader data).bitsPerPixel = 24)
    (hcomp : (parseHeader data).compression = 0)
    (hz : (parseHeader data).width = 0 ∨ (parseHeader data).height = 0) :
    ∃ img1, loadFromBMP uninit (some data) img = some (true, img1) ∧
      img1.width_ = toUInt32 (parseHeader data).width ∧
      img1.height_ = (parseHeader data).height.natAbs ∧
      img1.pixels_ = [] ∧ img1.isEmpty = true := by
  unfold loadFromBMP
  dsimp only
  rw [readHeader_complete data uninit hlen]
  dsimp only
  rw [if_neg (by rw [hsig]; decide), if_neg (by rw [hbpp]; decide),
    if_neg (by rw [hcomp]; decide), parseHeader_height_natAbs]
  have hs : (IFStream.seekg ⟨data, 54, false, false⟩ (parseHeader data).dataOffset) =
      ⟨data, (parseHeader data).dataOffset, false, false⟩ := rfl
  rw [hs]
  rcases hz with hz | hz
  · rw [hz]
    have e0 : toUInt32 0 = 0 := rfl
    have e1 : loadPadding 0 = 0 := by decide
    rw [e1, e0]
    have e2 : (0 * 3 % 4294967296 + 0) % 4294967296 = 0 := rfl
    rw [e2, Nat.zero_mul, Nat.zero_mod, vresize_zero]
    rw [show List.replicate 0 (0 : Byte) = [] from rfl,
      loadRows_zero_width _ _ ⟨data, (parseHeader data).dataOffset, false, false⟩ rfl]
    exact ⟨_, rfl, rfl, rfl, rfl, rfl⟩
  · rw [hz]
    have e0 : (0 : Int).natAbs = 0 := rfl
    rw [e0, Nat.mul_zero, Nat.zero_mod, vresize_zero]
    have e1 : ∀ st, loadRows (toUInt32 (parseHeader data).width) 0 (decide ((0 : Int) > 0)) st
        = some st := fun st => rfl
    rw [e1]
    refine ⟨_, rfl, rfl, rfl, rfl, ?_⟩
    unfold Image.isEmpty
    simp

/-- C18, witness: the 54-byte file `negativeWidthFile`, whose header has
height 0, decoded into the 2 x 2 image `sampleImage`. -/
theorem loadFromBMP_zero_sized_witness :
    ∃ img1, loadFromBMP zeroHeader (some negativeWidthFile) sampleImage = some (true, img1) ∧
      img1.width_ = toUInt32 (parseHeader negativeWidthFile).width ∧
      img1.height_ = (parseHeader negativeWidthFile).height.natAbs ∧
      img1.pixels_ = [] ∧ img1.isEmpty = true :=
  loadFromBMP_zero_sized zeroHeader negativeWidthFile sampleImage (by decide) (by decide)
    (by decide) (by decide) (Or.inr (by decide))

/-! ## Decoding, then encoding -/

/-- The object representation of the value of `bs` is `bs`. -/
theorem leBytes_leVal (bs : List Byte) : leBytes bs.length (leVal bs) = bs := by
  induction bs with
  | nil => rfl
  | cons b bs ih =>
    have hb := b.isLt
    have h1 : byteOfNat (b.val + 256 * leVal bs) = b := by
      apply Fin.ext
      unfold byteOfNat
      dsimp only
      omega
    have h2 : (b.val + 256 * leVal bs) / 256 = leVal bs := by omega
    show byteOfNat (b.val + 256 * leVal bs) :: leBytes bs.length ((b.val + 256 * leVal bs) / 256)
      = b :: bs
    rw [h1, h2, ih]

theorem leBytes_leVal_take (data : List Byte) (a k : Nat) (h : a + k ≤ data.length) :
    leBytes k (leVal ((data.drop a).take k)) = (data.drop a).take k := by
  have hl : ((data.drop a).take k).length = k := by
    rw [List.length_take, List.length_drop]; omega
  have := leBytes_leVal ((data.drop a).take k)
  rw [hl] at this
  exact this

theorem leBytes_signed_take (data : List Byte) (a : Nat) (h : a + 4 ≤ data.length) :
    leBytes 4 (toUInt32 (toInt32 (leVal ((data.drop a).take 4)))) = (data.drop a).take 4 := by
  have hl : ((data.drop a).take 4).length = 4 := by
    rw [List.length_take, List.length_drop]; omega
  have hlt := leVal_lt ((data.drop a).take 4)
  rw [hl] at hlt
  rw [toUInt32_toInt32, Nat.mod_eq_of_lt (by norm_num at hlt ⊢; exact hlt)]
  exact leBytes_leVal_take data a 4 h

theorem take_drop_append (data : List Byte) (a b k m : Nat) (hb : b = a + k) :
    (data.drop a).take k ++ (data.drop b).take m = (data.drop a).take (k + m) := by
  rw [hb, List.take_add, List.drop_drop]

/-- The header bytes of the fields parsed from a file are the first 54 bytes
of the file. -/
theorem headerBytes_parseHeader (data : List Byte) (h : 54 ≤ data.length) :
    headerBytes (parseHeader data) = data.take 54 := by
  unfold headerBytes parseHeader
  dsimp only
  rw [leBytes_leVal_take data 0 2 (by omega), leBytes_leVal_take data 2 4 (by omega),
    leBytes_leVal_take data 6 4 (by omega), leBytes_leVal_take data 10 4 (by omega),
    leBytes_leVal_take data 14 4 (by omega), leBytes_signed_take data 18 (by omega),
    leBytes_signed_take data 22 (by omega), leBytes_leVal_take data 26 2 (by omega),
    leBytes_leVal_take data 28 2 (by omega), leBytes_leVal_take data 30 4 (by omega),
    leBytes_leVal_take data 34 4 (by omega), leBytes_signed_take data 38 (by omega),
    leBytes_signed_take data 42 (by omega), leBytes_leVal_take data 46 4 (by omega),
    leBytes_leVal_take data 50 4 (by omega)]
  rw [take_drop_append data 46 50 4 _ rfl, take_drop_append data 42 46 4 _ rfl,
    take_drop_append data 38 42 4 _ rfl, take_drop_append data 34 38 4 _ rfl,
    take_drop_append data 30 34 4 _ rfl, take_drop_append data 28 30 2 _ rfl,
    take_drop_append data 26 28 2 _ rfl, take_drop_append data 22 26 4 _ rfl,
    take_drop_append data 18 22 4 _ rfl, take_drop_append data 14 18 4 _ rfl,
    take_drop_append data 10 14 4 _ rfl, take_drop_append data 6 10 4 _ rfl,
    take_drop_append data 2 6 4 _ rfl, take_drop_append data 0 2 2 _ rfl]
  rfl

/-- Byte `c` of the pixel decoded at offset `o` is the byte of the file at
offset `o + c`. -/
theorem pixelByte_pixelAt (data : List Byte) (o c : Nat) (hc : c < 3) :
    pixelByte (pixelAt data o) c = data.getD (o + c) 0 := by
  unfold pixelByte pixelAt
  have : c = 0 ∨ c = 1 ∨ c = 2 := by omega
  rcases this with rfl | rfl | rfl
  · rfl
  · rfl
  · rfl

/-- Every index below `h * n` is `y * n + j` for a row `y < h` and a column
`j < n`. -/
theorem exists_row_col (h n i : Nat) (hi : i < h * n) :
    ∃ y j, y < h ∧ j < n ∧ i = y * n + j := by
  have hn : 0 < n := by
    rcases Nat.eq_zero_or_pos n with h0 | h0
    · rw [h0] at hi; simp at hi
    · exact h0
  refine ⟨i / n, i % n, ?_, Nat.mod_lt _ hn, ?_⟩
  · exact Nat.div_lt_of_lt_mul (by rw [Nat.mul_comm]; exact hi)
  · have := Nat.div_add_mod i n
    rw [Nat.mul_comm] at this
    exact this.symm

/-! ## C19: decoding then encoding a canonical file -/

/-- C19. Let `F` be a file in the encoder's layout: its 54-byte header has
signature 'BM', `fileSize = 54 + stride * h`, reserved 0, `dataOffset` 54,
`headerSize` 40, width `w > 0`, height `h > 0`, planes 1, 24 bits per pixel,
compression 0, `imageSize = stride * h`, both resolutions 2835, `colorsUsed`
and `importantColors` 0, with `stride = 3 * w + (4 - 3 * w mod 4) mod 4`; the
header is followed by exactly `h` rows of `stride` bytes, and the padding
bytes of every row are 0. Then `loadFromBMP` on `F` returns `true`, and
`saveToBMP` on the decoded image returns `true` and writes `F`, byte for
byte. -/
theorem loadFromBMP_saveToBMP_canonical (uninit : BMPHeader) (F : List Byte) (img0 : Image)
    (w h : Nat) (hw : 0 < w) (hh : 0 < h)
    (hsig : (parseHeader F).signature = 0x4D42)
    (hfs : (parseHeader F).fileSize = 54 + (3 * w + (4 - 3 * w % 4) % 4) * h)
    (hres : (parseHeader F).reserved = 0)
    (hoff : (parseHeader F).dataOffset = 54)
    (hhs : (parseHeader F).headerSize = 40)
    (hW : (parseHeader F).width = (w : Int))
    (hH : (parseHeader F).height = (h : Int))
    (hpl : (parseHeader F).planes = 1)
    (hbpp : (parseHeader F).bitsPerPixel = 24)
    (hcomp : (parseHeader F).compression = 0)
    (his : (parseHeader F).imageSize = (3 * w + (4 - 3 * w % 4) % 4) * h)
    (hxp : (parseHeader F).xPixelsPerMeter = 2835)
    (hyp : (parseHeader F).yPixelsPerMeter = 2835)
    (hcu : (parseHeader F).colorsUsed = 0)
    (hci : (parseHeader F).importantColors = 0)
    (hlen : F.length = 54 + h * (3 * w + (4 - 3 * w % 4) % 4))
    (hpad : ∀ y j, y < h → 3 * w ≤ j → j < 3 * w + (4 - 3 * w % 4) % 4 →
      F[54 + y * (3 * w + (4 - 3 * w % 4) % 4) + j]? = some 0) :
    ∃ img, loadFromBMP uninit (some F) img0 = some (true, img) ∧
      saveToBMP true img = some ⟨true, some F⟩ := by
  have hfsl : 54 + (3 * w + (4 - 3 * w % 4) % 4) * h < 4294967296 := by
    rw [← hfs]
    have h1 := leVal_lt ((F.drop 2).take 4)
    have h2 : ((F.drop 2).take 4).length ≤ 4 := List.length_take_le _ _
    have h3 : 256 ^ ((F.drop 2).take 4).length ≤ 256 ^ 4 :=
      Nat.pow_le_pow_right (by decide) h2
    have h4 : (256 : Nat) ^ 4 = 4294967296 := by norm_num
    have h5 : (parseHeader F).fileSize = leVal ((F.drop 2).take 4) := rfl
    omega
  have hS1 : 3 * w + (4 - 3 * w % 4) % 4 ≤ (3 * w + (4 - 3 * w % 4) % 4) * h :=
    le_mul_of_pos _ _ hh
  have hS2 : w * h ≤ (3 * w + (4 - 3 * w % 4) % 4) * h :=
    Nat.mul_le_mul_right _ (by omega)
  have hN : w * h < 4294967296 := by omega
  have hrow : 3 * w + savePadding w < 4294967296 := by rw [savePadding_eq]; omega
  have hwU : toUInt32 (parseHeader F).width = w := by
    rw [hW]; exact toUInt32_natCast w (by omega)
  have hhN : (parseHeader F).height.natAbs = h := by rw [hH]; rfl
  have hc : (parseHeader F).dataOffset + h * (3 * w + savePadding w) ≤ F.length := by
    rw [hoff, savePadding_eq, hlen]
  obtain ⟨px, hload, hpxl, hcell⟩ := loadFromBMP_complete uninit F img0 (by omega) hsig hbpp
    hcomp w h hwU hhN hN hrow hc
  obtain ⟨body, hsave, hbl, hbody⟩ := saveToBMP_spec ⟨w, h, px⟩ hw hh hpxl hN hrow
  refine ⟨⟨w, h, px⟩, hload, ?_⟩
  rw [hsave]
  have hpos : (0 : Int) < (parseHeader F).height := by rw [hH]; exact_mod_cast hh
  simp only [savePadding_eq, hoff, if_pos hpos] at hcell
  simp only [savePadding_eq] at hbl hbody
  have hhdr : saveHeader ⟨w, h, px⟩ = parseHeader F := by
    rw [saveHeader_eq ⟨w, h, px⟩ hw hh hfsl]
    have e : parseHeader F = ⟨(parseHeader F).signature, (parseHeader F).fileSize,
      (parseHeader F).reserved, (parseHeader F).dataOffset, (parseHeader F).headerSize,
      (parseHeader F).width, (parseHeader F).height, (parseHeader F).planes,
      (parseHeader F).bitsPerPixel, (parseHeader F).compression, (parseHeader F).imageSize,
      (parseHeader F).xPixelsPerMeter, (parseHeader F).yPixelsPerMeter,
      (parseHeader F).colorsUsed, (parseHeader F).importantColors⟩ := rfl
    rw [e, hsig, hfs, hres, hoff, hhs, hW, hH, hpl, hbpp, hcomp, his, hxp, hyp, hcu, hci]
  have hbody1 : body = F.drop 54 := by
    apply List.ext_getElem?
    intro i
    by_cases hi : i < h * (3 * w + (4 - 3 * w % 4) % 4)
    · obtain ⟨y, j, hy, hj, rfl⟩ := exists_row_col _ _ i hi
      rw [hbody y hy j hj, List.getElem?_drop,
        getElem?_eq_some_getD F _ (by rw [hlen]; omega)]
      congr 1
      unfold rowByte
      by_cases hj3 : j < 3 * w
      · rw [if_pos hj3, List.getD_eq_getElem?_getD, hcell y hy (j / 3) (by omega),
          Option.getD_some, pixelByte_pixelAt F _ _ (Nat.mod_lt _ (by decide))]
        congr 1
        omega
      · rw [if_neg hj3]
        have hp := hpad y j hy (by omega) hj
        rw [getElem?_eq_some_getD F _ (by rw [hlen]; have := mul_add_lt_mul y h _ j hy hj; omega)]
          at hp
        rw [← Nat.add_assoc]
        exact (Option.some.inj hp).symm
    · rw [List.getElem?_eq_none (by omega), List.getElem?_eq_none
        (by rw [List.length_drop, hlen]; omega)]
  rw [hhdr, headerBytes_parseHeader F (by omega), hbody1, List.take_append_drop]

/-- C19, witness: the 70-byte file `sampleFile` (2 x 2, stride 8). -/
theorem loadFromBMP_saveToBMP_canonical_witness :
    ∃ img, loadFromBMP zeroHeader (some sampleFile) emptyImage = some (true, img) ∧
      saveToBMP true img = some ⟨true, some sampleFile⟩ :=
  loadFromBMP_saveToBMP_canonical zeroHeader sampleFile emptyImage 2 2 (by decide) (by decide)
    (by decide) (by decide) (by decide) (by decide) (by decide) (by decide) (by decide)
    (by decide) (by decide) (by decide) (by decide) (by decide) (by decide) (by decide)
    (by decide) (by decide)
    (by
      intro y j hy h1 h2
      have hj : j = 6 ∨ j = 7 := by omega
      have hy1 : y = 0 ∨ y = 1 := by omega
      rcases hy1 with rfl | rfl <;> rcases hj with rfl | rfl <;> rfl)

/-! ## C20: saturating addition of pixels -/

/-- C20. Each channel of `p + q` is `min(255, p.c + q.c)` with the sum taken
without wrap-around, so it is at least the channel of `p` and at least the
channel of `q`; adding black, on either side, returns the other pixel. -/
theorem add_saturates (p q : Pixel) :
    ((p + q).r.val = min 255 (p.r.val + q.r.val) ∧
      (p + q).g.val = min 255 (p.g.val + q.g.val) ∧
      (p + q).b.val = min 255 (p.b.val + q.b.val)) ∧
    (p.r ≤ (p + q).r ∧ p.g ≤ (p + q).g ∧ p.b ≤ (p + q).b) ∧
    (q.r ≤ (p + q).r ∧ q.g ≤ (p + q).g ∧ q.b ≤ (p + q).b) ∧
    p + ⟨0, 0, 0⟩ = p ∧ (⟨0, 0, 0⟩ : Pixel) + p = p := by
  have hc : ∀ a b : Byte, (byteOfNat (min 255 (a.val + b.val))).val = min 255 (a.val + b.val) := by
    intro a b
    unfold byteOfNat
    dsimp only
    omega
  have hadd : p + q = Pixel.add p q := rfl
  have hr : (p + q).r.val = min 255 (p.r.val + q.r.val) := by rw [hadd]; exact hc _ _
  have hg : (p + q).g.val = min 255 (p.g.val + q.g.val) := by rw [hadd]; exact hc _ _
  have hb : (p + q).b.val = min 255 (p.b.val + q.b.val) := by rw [hadd]; exact hc _ _
  have pr := p.r.isLt
  have pg := p.g.isLt
  have pb := p.b.isLt
  have qr := q.r.isLt
  have qg := q.g.isLt
  have qb := q.b.isLt
  have hz : ∀ a : Byte, byteOfNat (min 255 (a.val + (0 : Byte).val)) = a := by
    intro a
    apply Fin.ext
    rw [hc]
    have := a.isLt
    simp only [Fin.val_zero]
    omega
  have hz1 : ∀ a : Byte, byteOfNat (min 255 ((0 : Byte).val + a.val)) = a := by
    intro a
    apply Fin.ext
    rw [hc]
    have := a.isLt
    simp only [Fin.val_zero]
    omega
  refine ⟨⟨hr, hg, hb⟩, ⟨?_, ?_, ?_⟩, ⟨?_, ?_, ?_⟩, ?_, ?_⟩
  · rw [Fin.le_def, hr]; omega
  · rw [Fin.le_def, hg]; omega
  · rw [Fin.le_def, hb]; omega
  · rw [Fin.le_def, hr]; omega
  · rw [Fin.le_def, hg]; omega
  · rw [Fin.le_def, hb]; omega
  · show Pixel.add p ⟨0, 0, 0⟩ = p
    unfold Pixel.add
    rw [hz, hz, hz]
  · show Pixel.add ⟨0, 0, 0⟩ p = p
    unfold Pixel.add
    rw [hz1, hz1, hz1]

/-! ## Indices of in-bounds cells -/

/-- The pixel vector of a reachable image has `width * height mod 2^32`
elements. -/
theorem length_of_reachable (img : Image) (h : Reachable img) :
    img.pixels_.length = img.width_ * img.height_ % 4294967296 := by
  induction h with
  | default => rfl
  | create w h fill hw hh => exact List.length_replicate _ _
  | setPixel img img1 x y v r _ e ih =>
    obtain ⟨e1, e2, e3⟩ := setPixel_dims img img1 x y v r e
    rw [e1, e2, e3]; exact ih
  | resize img img1 nw nh p _ _ _ e ih =>
    obtain ⟨e1, e2, e3⟩ := resize_dims img img1 nw nh p ih e
    rw [e1, e2, e3]
  | clear img c _ ih => exact (List.length_map _ _).trans ih
  | clone img _ ih => exact ih
  | copy img _ ih => exact ih
  | moveTarget img _ ih => exact ih
  | moveSource img _ ih => rfl
  | decode img img1 uninit file b _ e ih => exact loadFromBMP_dims uninit file img img1 b ih e

/-- After a decode that returns `true` the pixel vector has exactly
`width * height` elements, and that product is below 2^32. -/
theorem loadFromBMP_true_cells (uninit : BMPHeader) (data : List Byte) (img img1 : Image)
    (e : loadFromBMP uninit (some data) img = some (true, img1)) :
    img1.pixels_.length = img1.width_ * img1.height_ ∧
      img1.width_ * img1.height_ < 4294967296 := by
  rcases loadFromBMP_some uninit data img img1 true e with ⟨h, _⟩ | ⟨st, hst, _, himg⟩
  · cases h
  have hl := loadRows_length _ _ _ _ _ hst
  have hN := loadRows_product _ _ _ _ _ (vresize_length _ _) hst
  dsimp only at hl
  rw [vresize_length, Nat.mod_eq_of_lt hN] at hl
  subst himg
  exact ⟨hl, hN⟩

/-- On an image whose pixel vector has `width * height < 2^32` elements, the
index that the code computes for a cell inside the bounds is inside the
vector, two such cells with the same index are the same cell, and `getPixel`
and `setPixel` return normally. -/
theorem index_safe (img : Image) (hlen : img.pixels_.length = img.width_ * img.height_)
    (hN : img.width_ * img.height_ < 4294967296)
    (x y : Nat) (hx : x < img.width_) (hy : y < img.height_) :
    (y * img.width_ + x) % 4294967296 = y * img.width_ + x ∧
    (y * img.width_ + x) % 4294967296 < img.pixels_.length ∧
    (∀ x1 y1, x1 < img.width_ → y1 < img.height_ →
      (y1 * img.width_ + x1) % 4294967296 = (y * img.width_ + x) % 4294967296 →
      x1 = x ∧ y1 = y) ∧
    (∃ p, img.getPixel x y = some (Checked.value p)) ∧
    (∀ v, ∃ img1, img.setPixel x y v = some (Checked.value (), img1)) := by
  have hi := index_lt img.width_ img.height_ x y hx hy
  have hm : (y * img.width_ + x) % 4294967296 = y * img.width_ + x :=
    Nat.mod_eq_of_lt (by omega)
  refine ⟨hm, by rw [hm, hlen]; exact hi, ?_,
    ⟨_, getPixel_inBounds img x y hlen (by omega) hx hy⟩,
    fun v => ⟨_, setPixel_inBounds img x y v hlen (by omega) hx hy⟩⟩
  intro x1 y1 hx1 hy1 e
  have hi1 := index_lt img.width_ img.height_ x1 y1 hx1 hy1
  rw [hm, Nat.mod_eq_of_lt (by omega)] at e
  exact index_inj img.width_ x1 y1 x y hx1 hx e

/-! ## C21: accesses inside the bounds -/

/-- C21, counterexample. The image `Image(65536, 65536, Pixel(9, 9, 9))` has no
pixels, so the index `65535 * 65536 + 65535 mod 2^32 = 4294967295` of its
in-bounds cell (65535, 65535) is outside the vector; the same holds for the
image that `resize(65536, 65536, false)` makes of the default-constructed
image. In `Image(65536, 65537)` the in-bounds cells (0, 0) and (0, 65536)
are distinct and both get index 0. -/
theorem index_outside_on_squareImage :
    (squareImage = Image.create 65536 65536 ⟨9, 9, 9⟩ ∧
      65535 < squareImage.width_ ∧ 65535 < squareImage.height_ ∧
      squareImage.pixels_.length = 0 ∧
      (65535 * squareImage.width_ + 65535) % 4294967296 = 4294967295) ∧
    (emptyImage.resize 65536 65536 false = some ⟨65536, 65536, []⟩ ∧
      (65535 * 65536 + 65535) % 4294967296 = 4294967295) ∧
    (wrapImage = Image.create 65536 65537 default ∧
      0 < wrapImage.width_ ∧ 65536 < wrapImage.height_ ∧
      (0 * wrapImage.width_ + 0) % 4294967296 = (65536 * wrapImage.width_ + 0) % 4294967296) := by
  refine ⟨⟨rfl, by decide, by decide, by decide, by decide⟩, ⟨by decide, by decide⟩,
    ⟨rfl, by decide, by decide, by decide⟩⟩

/-- C21, amended. Let the image be `Image(w, h, fill)` with `w * h < 2^32`, or
the result of `resize(nw, nh, p)` with `nw * nh < 2^32` on a reachable image,
or the image after a `loadFromBMP` that returned `true`. For every (x, y)
with `x < width` and `y < height`, the index `y * width + x` computed in
`unsigned int` does not wrap and is below the length of the pixel vector,
another in-bounds cell with the same index is the same cell, and `getPixel`
and `setPixel` at (x, y) return normally. -/
theorem inBounds_access_safe (img : Image)
    (hsrc : (∃ w h fill, w * h < 4294967296 ∧ img = Image.create w h fill) ∨
      (∃ img0 nw nh p, Reachable img0 ∧ nw * nh < 4294967296 ∧
        img0.resize nw nh p = some img) ∨
      (∃ uninit data img0, loadFromBMP uninit (some data) img0 = some (true, img)))
    (x y : Nat) (hx : x < img.width_) (hy : y < img.height_) :
    (y * img.width_ + x) % 4294967296 = y * img.width_ + x ∧
    (y * img.width_ + x) % 4294967296 < img.pixels_.length ∧
    (∀ x1 y1, x1 < img.width_ → y1 < img.height_ →
      (y1 * img.width_ + x1) % 4294967296 = (y * img.width_ + x) % 4294967296 →
      x1 = x ∧ y1 = y) ∧
    (∃ p, img.getPixel x y = some (Checked.value p)) ∧
    (∀ v, ∃ img1, img.setPixel x y v = some (Checked.value (), img1)) := by
  have key : img.pixels_.length = img.width_ * img.height_ ∧
      img.width_ * img.height_ < 4294967296 := by
    rcases hsrc with ⟨w, h, fill, hN, rfl⟩ | ⟨img0, nw, nh, p, hr, hN, e⟩ |
      ⟨uninit, data, img0, e⟩
    · refine ⟨?_, hN⟩
      unfold Image.create
      dsimp only
      rw [Nat.mod_eq_of_lt hN]
      exact List.length_replicate _ _
    · obtain ⟨e1, e2, e3⟩ := resize_dims img0 img nw nh p (length_of_reachable img0 hr) e
      rw [e1, e2, e3, Nat.mod_eq_of_lt hN]
      exact ⟨rfl, hN⟩
    · exact loadFromBMP_true_cells uninit data img0 img e
  exact index_safe img key.1 key.2 x y hx hy

/-- C21, witness: the 2 x 2 image decoded from `sampleFile`, at (1, 1); the
image `Image(3, 2)`, at (2, 1); the 4 x 4 image that `resize(4, 4, true)`
makes of `sampleImage`, at (3, 3). -/
theorem inBounds_access_safe_witness :
    ((1 * sampleImage.width_ + 1) % 4294967296 < sampleImage.pixels_.length ∧
      ∃ p, sampleImage.getPixel 1 1 = some (Checked.value p)) ∧
    ((1 * (Image.create 3 2 default).width_ + 2) % 4294967296
        < (Image.create 3 2 default).pixels_.length ∧
      ∃ p, (Image.create 3 2 default).getPixel 2 1 = some (Checked.value p)) ∧
    (∃ img, sampleImage.resize 4 4 true = some img ∧
      (3 * img.width_ + 3) % 4294967296 < img.pixels_.length) :=
  ⟨⟨(inBounds_access_safe sampleImage
        (Or.inr (Or.inr ⟨zeroHeader, sampleFile, emptyImage, by decide⟩)) 1 1
        (by decide) (by decide)).2.1,
      (inBounds_access_safe sampleImage
        (Or.inr (Or.inr ⟨zeroHeader, sampleFile, emptyImage, by decide⟩)) 1 1
        (by decide) (by decide)).2.2.2.1⟩,
    ⟨(inBounds_access_safe (Image.create 3 2 default)
        (Or.inl ⟨3, 2, default, by decide, rfl⟩) 2 1 (by decide) (by decide)).2.1,
      (inBounds_access_safe (Image.create 3 2 default)
        (Or.inl ⟨3, 2, default, by decide, rfl⟩) 2 1 (by decide) (by decide)).2.2.2.1⟩,
    ⟨⟨4, 4, [⟨1, 2, 3⟩, ⟨4, 5, 6⟩, ⟨0, 0, 0⟩, ⟨0, 0, 0⟩, ⟨7, 8, 9⟩, ⟨10, 11, 12⟩, ⟨0, 0, 0⟩,
        ⟨0, 0, 0⟩, ⟨0, 0, 0⟩, ⟨0, 0, 0⟩, ⟨0, 0, 0⟩, ⟨0, 0, 0⟩, ⟨0, 0, 0⟩, ⟨0, 0, 0⟩, ⟨0, 0, 0⟩,
        ⟨0, 0, 0⟩]⟩, by decide,
      (inBounds_access_safe _
        (Or.inr (Or.inl ⟨sampleImage, 4, 4, true,
          Reachable.decode emptyImage sampleImage zeroHeader (some sampleFile) true
            Reachable.default (by decide), by decide, by decide⟩)) 3 3
        (by decide) (by decide)).2.1⟩⟩

end imaging
